import Mathlib

/-!
# BigDonRAM — verification of the pointer-structure scanner core

Shallow embedding of the BDRAM scanner sources (chain walker, list
detector, preprocessor, system catalogue, forward scanner) and proofs
about the properties claimed in the specification.

Numbers: addresses and pointer values are unsigned 32-bit quantities in
the source; we model them as `Nat` (their uint32 numeric value) and as
`Int` where JavaScript's signed 32-bit coercions are observable
(`Config.getRanges`). JS `Map` / `Set` are modelled as insertion-ordered
association lists / lists, matching JS iteration order.
-/

set_option maxRecDepth 8192

namespace BDRAM

/-! ## JS container primitives -/

/-- JS `Map.set`: update an existing key in place, otherwise append. -/
def mapSet {κ α : Type} [DecidableEq κ] : List (κ × α) → κ → α → List (κ × α)
  | [], k, v => [(k, v)]
  | (k', v') :: t, k, v => if k' = k then (k, v) :: t else (k', v') :: mapSet t k v

/-- JS `Map.get`: first (unique) binding of the key. -/
def mapGet {κ α : Type} [DecidableEq κ] : List (κ × α) → κ → Option α
  | [], _ => none
  | (k', v') :: t, k => if k' = k then some v' else mapGet t k

/-- JS `Map.delete` on a uniquely-keyed map. -/
def mapDelete {κ α : Type} [DecidableEq κ] (m : List (κ × α)) (k : κ) : List (κ × α) :=
  m.filter (fun e => e.1 ≠ k)

/-- JS `Set.add`: append iff absent (keeps insertion order). -/
def setAdd (s : List Nat) (x : Nat) : List Nat :=
  if x ∈ s then s else s ++ [x]

/-- JS `Set.delete`. -/
def setDelete (s : List Nat) (x : Nat) : List Nat :=
  s.filter (· ≠ x)

/-! ## Chain walker (`walkChainsAtOffset`, chain-walker source file)

`pool` is the JS `Set` of available addresses (insertion order), `getVal`
the value callback (`undefined` ↦ `none`). -/

structure Chain where
  nodes  : List Nat
  ghosts : List Nat
  isHead : Bool
deriving Repr, DecidableEq

/-- Entry-point result of a walk: `{ nodes, ghosts }`. -/
structure RawEP where
  nodes  : List Nat
  ghosts : List Nat
deriving Repr, DecidableEq

structure WalkOpts where
  minChainLength : Nat
  maxGhostNodes  : Nat := 0
  targetPool     : Option (List Nat) := none

/-- The ghost-bridging `for (g = 0; g < maxGhostNodes; g++)` loop: walk
`expected, expected+offset, …` until `bridge + offset` is in the pool.
Returns `(foundBridgeTarget, newGhostCount)`. -/
def bridgeLoop (pool : List Nat) (offset : Nat) :
    Nat → Nat → Nat → Option (Nat × Nat)
  | 0, _, _ => none
  | g+1, bridgeAddr, ghostsSoFar =>
    if bridgeAddr + offset ∈ pool then some (bridgeAddr + offset, ghostsSoFar + 1)
    else bridgeLoop pool offset g (bridgeAddr + offset) (ghostsSoFar + 1)

/-- The `chainLoop: while (true)` walk from one head. The JS loop has no
fuel; every iteration either stops or inserts `current` (a pool member
not yet visited) into `visited`, so `pool.length + 1` iterations always
suffice (theorem `chainLoop_fuel_stable`). Result: `(nodes, ghosts, hitTarget)`. -/
def chainLoop (pool : List Nat) (offset : Nat) (getVal : Nat → Option Nat)
    (targetPool : Option (List Nat)) (maxGhostNodes : Nat) :
    Nat → List Nat → List Nat → List Nat → Nat → Nat → List Nat × List Nat × Bool
  | 0, _, nodes, ghosts, _, _ => (nodes, ghosts, false)
  | fuel+1, visited, nodes, ghosts, totalGhosts, current =>
    if current ∈ visited then (nodes, ghosts, false)
    else if targetPool.elim false (fun tp => decide (current ∈ tp)) then (nodes, ghosts, true)
    else if current ∉ pool then (nodes, ghosts, false)
    else match getVal current with
      | none => (nodes, ghosts, false)
      | some val =>
        let nodes' := nodes ++ [current]
        let visited' := visited ++ [current]
        let expected := val + offset
        if expected ∈ pool then
          chainLoop pool offset getVal targetPool maxGhostNodes fuel
            visited' nodes' ghosts totalGhosts expected
        else if maxGhostNodes = 0 then (nodes', ghosts, false)
        else match bridgeLoop pool offset maxGhostNodes expected 0 with
          | none => (nodes', ghosts, false)
          | some (target, newGhosts) =>
            if totalGhosts + newGhosts > maxGhostNodes then (nodes', ghosts, false)
            else chainLoop pool offset getVal targetPool maxGhostNodes fuel
              visited' nodes'
              (ghosts ++ (List.range newGhosts).map (fun k => expected + k * offset))
              (totalGhosts + newGhosts) target

/-- First pass of `walkChainsAtOffset`: the `pointedTo` set. -/
def pointedToSet (pool : List Nat) (offset : Nat) (getVal : Nat → Option Nat) : List Nat :=
  pool.foldl (fun s addr =>
    match getVal addr with
    | none => s
    | some val => if val + offset ∈ pool then setAdd s (val + offset) else s) []

/-- One head iteration of the walker's main loop.  `acc` is
`(chains, entryPoints, processed)`. -/
def walkHeadStep (pool : List Nat) (offset : Nat) (getVal : Nat → Option Nat)
    (opts : WalkOpts) (pointedTo : List Nat) (fuel : Nat)
    (acc : List Chain × List RawEP × List Nat) (startAddr : Nat) :
    List Chain × List RawEP × List Nat :=
  let (chains, entryPoints, processed) := acc
  if startAddr ∈ processed then acc
  else if startAddr ∈ pointedTo then acc
  else match getVal startAddr with
    | none => acc
    | some _ =>
      let r := chainLoop pool offset getVal opts.targetPool opts.maxGhostNodes
        fuel [] [] [] 0 startAddr
      let nodes := r.1
      let ghosts := r.2.1
      let hitTarget := r.2.2
      let processed' := nodes.foldl setAdd processed
      if hitTarget && decide (1 ≤ nodes.length) then
        (chains, entryPoints ++ [⟨nodes, ghosts⟩], processed')
      else if opts.minChainLength ≤ nodes.length then
        (chains ++ [⟨nodes, ghosts, true⟩], entryPoints, processed')
      else (chains, entryPoints, processed')

/-- `walkChainsAtOffset` with an explicit iteration bound for the inner
`while` loop (the JS loop is unbounded; see `walkChainsAtOffset_terminates`). -/
def walkChainsWith (fuel : Nat) (pool : List Nat) (offset : Nat)
    (getVal : Nat → Option Nat) (opts : WalkOpts) : List Chain × List RawEP :=
  let pointedTo := pointedToSet pool offset getVal
  let r := pool.foldl (walkHeadStep pool offset getVal opts pointedTo fuel) ([], [], [])
  (r.1, r.2.1)

/-- `walkChainsAtOffset(pool, offset, getVal, opts)`. -/
def walkChainsAtOffset (pool : List Nat) (offset : Nat)
    (getVal : Nat → Option Nat) (opts : WalkOpts) : List Chain × List RawEP :=
  walkChainsWith (pool.length + 1) pool offset getVal opts

/-! ## Conflict resolution (`resolveChainConflicts`) -/

/-- Comparator of the group sort, as a `Bool`-valued "may come first"
relation (`comparator(a,b) ≤ 0`): longest chain first, ties by smallest
root.  JS reads `chain.nodes[0]`; chains compared here always have
nonempty `nodes`, modelled with `headD 0`. -/
def rccLe (a b : Nat × Chain) : Bool :=
  let lenDiff : Int := (b.2.nodes.length : Int) - (a.2.nodes.length : Int)
  if lenDiff ≠ 0 then lenDiff ≤ 0
  else ((a.2.nodes.headD 0 : Int) - (b.2.nodes.headD 0 : Int)) ≤ 0

/-- Stable sort (JS `Array.prototype.sort` is stable): insertion sort
placing an earlier element before any later element it `le`-precedes-or-ties. -/
def insertStable {α : Type} (le : α → α → Bool) (x : α) : List α → List α
  | [] => [x]
  | y :: ys => if le x y then x :: y :: ys else y :: insertStable le x ys

def stableSortBy {α : Type} (le : α → α → Bool) : List α → List α
  | [] => []
  | x :: xs => insertStable le x (stableSortBy le xs)

/-- `nodeToChains`: map each node address to the (ascending) list of
chain indices containing it. -/
def nodeToChains (chains : List Chain) : List (Nat × List Nat) :=
  (List.range chains.length).foldl (fun m i =>
    ((chains.getD i ⟨[], [], false⟩).nodes).foldl (fun m' node =>
      mapSet m' node ((mapGet m' node).getD [] ++ [i])) m) []

/-- The `conflicts` set collected for chain `i` (insertion order). -/
def conflictsOf (ntc : List (Nat × List Nat)) (chains : List Chain) (i : Nat) : List Nat :=
  ((chains.getD i ⟨[], [], false⟩).nodes).foldl (fun cs node =>
    ((mapGet ntc node).getD []).foldl (fun cs2 ci =>
      if ci ≠ i then setAdd cs2 ci else cs2) cs) []

/-- The rank loop over one sorted group: emit each not-yet-processed
member, the rank-0 one with `isHead := true`. -/
def emitGroupAux : Nat → List (Nat × Chain) → List Chain × List Nat →
    List Chain × List Nat
  | _, [], st => st
  | rank, p :: rest, (resolved, processed) =>
    if p.1 ∈ processed then emitGroupAux (rank + 1) rest (resolved, processed)
    else emitGroupAux (rank + 1) rest
      (resolved ++ [{ p.2 with isHead := rank = 0 }], processed ++ [p.1])

def emitGroup (sorted : List (Nat × Chain)) (resolved : List Chain)
    (processed : List Nat) : List Chain × List Nat :=
  emitGroupAux 0 sorted (resolved, processed)

/-- Main loop of `resolveChainConflicts` over chain indices. -/
def rccLoop (chains : List Chain) (ntc : List (Nat × List Nat)) :
    List Nat → List Chain × List Nat → List Chain × List Nat
  | [], st => st
  | i :: rest, st =>
    if i ∈ st.2 then rccLoop chains ntc rest st
    else
      let group := (i :: conflictsOf ntc chains i).map
        (fun idx => (idx, chains.getD idx ⟨[], [], false⟩))
      let sorted := stableSortBy rccLe group
      rccLoop chains ntc rest (emitGroup sorted st.1 st.2)

/-- `resolveChainConflicts(chains)`. -/
def resolveChainConflicts (chains : List Chain) : List Chain :=
  if chains.length = 0 then []
  else if chains.length = 1 then chains
  else (rccLoop chains (nodeToChains chains) (List.range chains.length) ([], [])).1

/-! ## Basic lemmas about the container primitives -/

theorem mapGet_mapSet {κ α : Type} [DecidableEq κ] (m : List (κ × α)) (k k' : κ) (v : α) :
    mapGet (mapSet m k v) k' = if k' = k then some v else mapGet m k' := by
  induction m with
  | nil =>
    simp only [mapSet, mapGet]
    by_cases h : k = k'
    · rw [if_pos h, if_pos h.symm]
    · rw [if_neg h, if_neg (fun hh => h hh.symm)]
  | cons e t ih =>
    obtain ⟨ek, ev⟩ := e
    by_cases h1 : ek = k
    · subst h1
      simp only [mapSet, if_pos rfl, mapGet]
      by_cases h2 : ek = k'
      · rw [if_pos h2, if_pos h2.symm]
      · rw [if_neg h2, if_neg (fun hh => h2 hh.symm), if_neg h2]
    · simp only [mapSet, if_neg h1, mapGet, ih]
      by_cases h2 : ek = k'
      · have hkk : ¬ (k' = k) := fun hh => h1 (h2.trans hh)
        simp only [if_pos h2, if_neg hkk]
      · simp only [if_neg h2]

theorem mem_setAdd (s : List Nat) (x y : Nat) :
    y ∈ setAdd s x ↔ y ∈ s ∨ y = x := by
  unfold setAdd
  by_cases h : x ∈ s
  · simp only [if_pos h]
    constructor
    · exact Or.inl
    · rintro (hy | rfl) <;> assumption
  · simp [if_neg h, or_comm]

theorem setAdd_subset (s : List Nat) (x : Nat) : s ⊆ setAdd s x := by
  intro y hy; rw [mem_setAdd]; exact Or.inl hy

theorem mem_foldl_setAdd (l s : List Nat) (y : Nat) :
    y ∈ l.foldl setAdd s ↔ y ∈ s ∨ y ∈ l := by
  induction l generalizing s with
  | nil => simp
  | cons a t ih =>
    simp only [List.foldl_cons, ih, mem_setAdd, List.mem_cons]
    tauto

/-! ## C10: termination of the chain walker

The JS `chainLoop` is an unbounded `while (true)`.  Every non-final
iteration moves `current` (a pool member not yet visited) into
`visited`, so the measure `|pool \ visited|` strictly decreases and
`pool.length + 1` iterations always suffice: beyond that bound the fuel
does not change the result. -/

/-- Measure for the walk: pool addresses not yet visited. -/
def walkMeasure (pool visited : List Nat) : Nat :=
  pool.countP (fun x => decide (x ∉ visited))

/-- A strictly weaker predicate with a witness gives a strictly smaller count. -/
theorem countP_lt_countP {α : Type} (l : List α) (p q : α → Bool)
    (hpq : ∀ x ∈ l, p x = true → q x = true) (w : α) (hw : w ∈ l)
    (hq : q w = true) (hp : p w = false) :
    l.countP p < l.countP q := by
  induction l with
  | nil => cases hw
  | cons a t ih =>
    rcases List.mem_cons.mp hw with rfl | hmem
    · rw [List.countP_cons_of_pos _ _ hq, List.countP_cons_of_neg]
      · have := List.countP_mono_left (l := t) (p := p) (q := q)
          (fun x hx => hpq x (List.mem_cons_of_mem _ hx))
        omega
      · simp [hp]
    · have hlt := ih (fun x hx => hpq x (List.mem_cons_of_mem _ hx)) hmem
      rw [List.countP_cons, List.countP_cons]
      have := hpq a (List.mem_cons_self a t)
      by_cases ha : p a = true
      · rw [if_pos ha, if_pos (this ha)]; omega
      · rw [if_neg ha]
        split <;> omega

theorem walkMeasure_lt (pool visited : List Nat) (current : Nat)
    (hp : current ∈ pool) (hv : current ∉ visited) :
    walkMeasure pool (visited ++ [current]) < walkMeasure pool visited := by
  unfold walkMeasure
  refine countP_lt_countP pool _ _ (fun x _ hx => ?_) current hp (by simp [hv]) (by simp)
  simp only [decide_eq_true_eq, List.mem_append] at hx ⊢
  exact fun hc => hx (Or.inl hc)

theorem chainLoop_fuel_stable (pool : List Nat) (offset : Nat)
    (getVal : Nat → Option Nat) (tp : Option (List Nat)) (mg : Nat) :
    ∀ f₁ f₂ visited nodes ghosts tg current,
      walkMeasure pool visited < f₁ → walkMeasure pool visited < f₂ →
      chainLoop pool offset getVal tp mg f₁ visited nodes ghosts tg current =
      chainLoop pool offset getVal tp mg f₂ visited nodes ghosts tg current := by
  intro f₁
  induction f₁ using Nat.strong_induction_on with
  | _ f₁ ih =>
    intro f₂ visited nodes ghosts tg current h₁ h₂
    rcases f₁ with _ | a
    · omega
    rcases f₂ with _ | b
    · omega
    simp only [chainLoop]
    split
    · rfl
    rename_i hvis
    split
    · rfl
    split
    · rfl
    rename_i hnpool
    have hpool : current ∈ pool := by by_contra hc; exact hnpool hc
    have hlt := walkMeasure_lt pool visited current hpool hvis
    split
    · rfl
    split
    · exact ih a (by omega) b _ _ _ _ _ (by omega) (by omega)
    split
    · rfl
    split
    · rfl
    split
    · rfl
    exact ih a (by omega) b _ _ _ _ _ (by omega) (by omega)

/-- C10 helper: with empty `visited` the measure is the pool size. -/
theorem walkMeasure_nil (pool : List Nat) : walkMeasure pool [] = pool.length := by
  unfold walkMeasure
  have : (fun x : Nat => decide (x ∉ ([] : List Nat))) = fun _ => true := by
    funext x; simp
  rw [this]
  exact congrFun List.countP_true pool

/-- C10. `walkChainsAtOffset` is total: the walk loop visits each pool
address at most once and the ghost-bridging loop is bounded by
`maxGhostNodes`, so any iteration bound beyond `pool.length + 1` yields
the identical result — the JS `while (true)` always terminates. -/
theorem walkChainsAtOffset_terminates (pool : List Nat) (offset : Nat)
    (getVal : Nat → Option Nat) (opts : WalkOpts) (f : Nat)
    (h : pool.length + 1 ≤ f) :
    walkChainsWith f pool offset getVal opts =
    walkChainsAtOffset pool offset getVal opts := by
  have hstep : ∀ (acc : List Chain × List RawEP × List Nat), ∀ a ∈ pool,
      walkHeadStep pool offset getVal opts (pointedToSet pool offset getVal) f acc a =
      walkHeadStep pool offset getVal opts (pointedToSet pool offset getVal)
        (pool.length + 1) acc a := by
    intro acc a _
    unfold walkHeadStep
    rw [chainLoop_fuel_stable pool offset getVal opts.targetPool opts.maxGhostNodes
      f (pool.length + 1) [] [] [] 0 a (by rw [walkMeasure_nil]; omega)
      (by rw [walkMeasure_nil]; omega)]
  have hfold := List.foldl_ext
    (walkHeadStep pool offset getVal opts (pointedToSet pool offset getVal) f)
    (walkHeadStep pool offset getVal opts (pointedToSet pool offset getVal)
      (pool.length + 1))
    (([], [], []) : List Chain × List RawEP × List Nat) hstep
  simp only [walkChainsAtOffset, walkChainsWith]
  rw [hfold]

/-- Witness for C10 at a concrete input. -/
theorem walkChainsAtOffset_terminates_witness :
    walkChainsWith 7 [5, 9] 4 (fun a => if a = 5 then some 5 else none)
      ⟨1, 0, none⟩ =
    walkChainsAtOffset [5, 9] 4 (fun a => if a = 5 then some 5 else none)
      ⟨1, 0, none⟩ :=
  walkChainsAtOffset_terminates [5, 9] 4 _ _ 7 (by decide)

/-! ## C3: one head per connected group? -/

/-- `chains[i]` with the walker's out-of-range default. -/
def chainGetD (chains : List Chain) (i : Nat) : Chain :=
  chains.getD i ⟨[], [], false⟩

/-- Chains `i` and `j` share at least one node. -/
def Shares (chains : List Chain) (i j : Nat) : Prop :=
  i < chains.length ∧ j < chains.length ∧
    ∃ n, n ∈ (chainGetD chains i).nodes ∧ n ∈ (chainGetD chains j).nodes

/-- Transitive connectivity of node sharing between chains. -/
def ConnectedChains (chains : List Chain) : Nat → Nat → Prop :=
  Relation.ReflTransGen (Shares chains)

theorem shares_symm (chains : List Chain) : Symmetric (Shares chains) := by
  rintro i j ⟨hi, hj, n, hni, hnj⟩
  exact ⟨hj, hi, n, hnj, hni⟩

/-- C3 counterexample input: chain `A = [100,108,116,200]` shares `200`
with `B = [20,200,300]`, which shares `300` with `C = [30,38,46,300]`,
while `A` and `C` are disjoint.  `A` uses its single allowed ghost early,
so it stops at `200`; `B` bridges `200 → 300` with its ghost. -/
def cex3vals : List (Nat × Nat) :=
  [(100, 100), (108, 112), (116, 196), (200, 292), (300, 396),
   (20, 196), (30, 34), (38, 42), (46, 296)]

def cex3pool : List Nat := [100, 20, 30, 108, 116, 200, 300, 38, 46]

def cex3chains : List Chain :=
  (walkChainsAtOffset cex3pool 4 (mapGet cex3vals) ⟨1, 1, none⟩).1

/-- C3 counterexample: on a walker-produced chain list, the resolver
marks TWO chains `isHead := true` inside one transitively-connected
group (chains 0 and 2, connected through chain 1), refuting "exactly one
`isHead=true` within each connected group (connectedness taken
transitively)". -/
theorem resolveChainConflicts_two_heads_in_component :
    cex3chains.length = 3 ∧
    (200 ∈ (chainGetD cex3chains 0).nodes ∧ 200 ∈ (chainGetD cex3chains 1).nodes) ∧
    (300 ∈ (chainGetD cex3chains 1).nodes ∧ 300 ∈ (chainGetD cex3chains 2).nodes) ∧
    ((chainGetD cex3chains 0).nodes ∩ (chainGetD cex3chains 2).nodes = []) ∧
    (resolveChainConflicts cex3chains).length = 3 ∧
    (chainGetD (resolveChainConflicts cex3chains) 0).nodes = (chainGetD cex3chains 0).nodes ∧
    (chainGetD (resolveChainConflicts cex3chains) 1).nodes = (chainGetD cex3chains 1).nodes ∧
    (chainGetD (resolveChainConflicts cex3chains) 2).nodes = (chainGetD cex3chains 2).nodes ∧
    (chainGetD (resolveChainConflicts cex3chains) 0).isHead = true ∧
    (chainGetD (resolveChainConflicts cex3chains) 1).isHead = false ∧
    (chainGetD (resolveChainConflicts cex3chains) 2).isHead = true := by
  decide

/-! ### C3 amended: at least one head per connected group -/

theorem insertStable_perm {α : Type} (le : α → α → Bool) (x : α) (l : List α) :
    List.Perm (insertStable le x l) (x :: l) := by
  induction l with
  | nil => exact List.Perm.refl _
  | cons y ys ih =>
    unfold insertStable
    split
    · exact List.Perm.refl _
    · exact (List.Perm.cons y ih).trans (List.Perm.swap x y ys)

theorem stableSortBy_perm {α : Type} (le : α → α → Bool) (l : List α) :
    List.Perm (stableSortBy le l) l := by
  induction l with
  | nil => exact List.Perm.refl _
  | cons x xs ih =>
    exact (insertStable_perm le x (stableSortBy le xs)).trans (List.Perm.cons x ih)

/-- Soundness of a `node → chain indices` map. -/
def NtcSound (chains : List Chain) (m : List (Nat × List Nat)) : Prop :=
  ∀ node l, mapGet m node = some l →
    ∀ j ∈ l, j < chains.length ∧ node ∈ (chainGetD chains j).nodes

theorem nodeToChains_sound (chains : List Chain) :
    NtcSound chains (nodeToChains chains) := by
  unfold nodeToChains
  refine List.foldlRecOn _ _ _ ?_ ?_
  · intro node l h
    simp [mapGet] at h
  · intro m hm i hi
    refine List.foldlRecOn _ _ _ hm ?_
    intro m' hm' node hnode
    intro nd l hget j hj
    rw [mapGet_mapSet] at hget
    by_cases heq : nd = node
    · rw [if_pos heq] at hget
      obtain rfl := Option.some.inj hget
      subst heq
      rcases List.mem_append.mp hj with hjold | hji
      · cases hgo : mapGet m' nd with
        | none => rw [hgo] at hjold; cases hjold
        | some old =>
          rw [hgo] at hjold
          exact hm' nd old hgo j hjold
      · obtain rfl := List.mem_singleton.mp hji
        exact ⟨List.mem_range.mp hi, hnode⟩
    · rw [if_neg heq] at hget
      exact hm' nd l hget j hj

/-- Soundness predicate for a collected conflict set of chain `i`. -/
def ConflSound (chains : List Chain) (i : Nat) (cs : List Nat) : Prop :=
  ∀ j ∈ cs, j < chains.length ∧ Shares chains i j

theorem conflictsOf_sound (chains : List Chain) (i : Nat) (hi : i < chains.length) :
    ConflSound chains i (conflictsOf (nodeToChains chains) chains i) := by
  unfold conflictsOf
  refine List.foldlRecOn _ _ _ ?_ ?_
  · intro j hj; cases hj
  · intro cs hcs node hnode
    refine List.foldlRecOn _ _ _ hcs ?_
    intro cs2 hcs2 ci hci
    intro j hj
    by_cases hne : ci ≠ i
    · rw [if_pos hne] at hj
      rcases (mem_setAdd cs2 ci j).mp hj with hjo | rfl
      · exact hcs2 j hjo
      · cases hgo : mapGet (nodeToChains chains) node with
        | none => rw [hgo] at hci; cases hci
        | some l =>
          rw [hgo] at hci
          simp only [Option.getD_some] at hci
          obtain ⟨hjlt, hjnode⟩ := nodeToChains_sound chains node l hgo j hci
          exact ⟨hjlt, hi, hjlt, node, hnode, hjnode⟩
    · rw [if_neg hne] at hj
      exact hcs2 j hj

theorem emitGroupAux_resolved_mono :
    ∀ (s : List (Nat × Chain)) (rank : Nat) (st : List Chain × List Nat),
      st.1 ⊆ (emitGroupAux rank s st).1 := by
  intro s
  induction s with
  | nil => intro rank st; exact fun c hc => hc
  | cons p rest ih =>
    intro rank st
    obtain ⟨resolved, processed⟩ := st
    unfold emitGroupAux
    split
    · exact ih (rank + 1) (resolved, processed)
    · intro c hc
      exact ih (rank + 1) _ (List.mem_append_left _ hc)

theorem emitGroupAux_processed_mono :
    ∀ (s : List (Nat × Chain)) (rank : Nat) (st : List Chain × List Nat),
      st.2 ⊆ (emitGroupAux rank s st).2 := by
  intro s
  induction s with
  | nil => intro rank st; exact fun c hc => hc
  | cons p rest ih =>
    intro rank st
    obtain ⟨resolved, processed⟩ := st
    unfold emitGroupAux
    split
    · exact ih (rank + 1) (resolved, processed)
    · intro c hc
      exact ih (rank + 1) _ (List.mem_append_left _ hc)

theorem emitGroupAux_processed_sub :
    ∀ (s : List (Nat × Chain)) (rank : Nat) (st : List Chain × List Nat),
      ∀ x ∈ (emitGroupAux rank s st).2, x ∈ st.2 ∨ x ∈ s.map Prod.fst := by
  intro s
  induction s with
  | nil => intro rank st x hx; exact Or.inl hx
  | cons p rest ih =>
    intro rank st x hx
    obtain ⟨resolved, processed⟩ := st
    unfold emitGroupAux at hx
    split at hx
    · rcases ih (rank + 1) (resolved, processed) x hx with h | h
      · exact Or.inl h
      · exact Or.inr (List.mem_cons_of_mem _ h)
    · rcases ih (rank + 1) _ x hx with h | h
      · rcases List.mem_append.mp h with h2 | h2
        · exact Or.inl h2
        · obtain rfl := List.mem_singleton.mp h2
          exact Or.inr (List.mem_cons_self _ _)
      · exact Or.inr (List.mem_cons_of_mem _ h)

theorem emitGroupAux_processed_covers :
    ∀ (s : List (Nat × Chain)) (rank : Nat) (st : List Chain × List Nat),
      ∀ x ∈ s.map Prod.fst, x ∈ (emitGroupAux rank s st).2 := by
  intro s
  induction s with
  | nil => intro rank st x hx; cases hx
  | cons p rest ih =>
    intro rank st x hx
    obtain ⟨resolved, processed⟩ := st
    rcases List.mem_cons.mp hx with rfl | hx2
    · unfold emitGroupAux
      split
      · rename_i hin
        exact emitGroupAux_processed_mono rest (rank + 1) _ hin
      · exact emitGroupAux_processed_mono rest (rank + 1) _
          (List.mem_append_right _ (List.mem_singleton.mpr rfl))
    · unfold emitGroupAux
      split
      · exact ih (rank + 1) _ x hx2
      · exact ih (rank + 1) _ x hx2

theorem emitGroup_head (p0 : Nat × Chain) (rest : List (Nat × Chain))
    (resolved : List Chain) (processed : List Nat) (hnp : p0.1 ∉ processed) :
    { p0.2 with isHead := true } ∈ (emitGroup (p0 :: rest) resolved processed).1 := by
  unfold emitGroup emitGroupAux
  rw [if_neg hnp]
  refine emitGroupAux_resolved_mono rest 1 _ ?_
  refine List.mem_append_right _ (List.mem_singleton.mpr ?_)
  norm_num

/-- The invariant carried through the resolver loop: every processed
chain is transitively connected to one emitted with `isHead := true`. -/
def HeadInv (chains resolved : List Chain) (processed : List Nat) : Prop :=
  ∀ m ∈ processed, ∃ j, ConnectedChains chains m j ∧
    { chainGetD chains j with isHead := true } ∈ resolved

theorem rccLoop_resolved_mono (chains : List Chain) (ntc : List (Nat × List Nat)) :
    ∀ (l : List Nat) (st : List Chain × List Nat),
      st.1 ⊆ (rccLoop chains ntc l st).1 := by
  intro l
  induction l with
  | nil => intro st; exact fun c hc => hc
  | cons i rest ih =>
    intro st
    unfold rccLoop
    split
    · exact ih st
    · intro c hc
      exact ih _ (emitGroupAux_resolved_mono _ 0 _ hc)

theorem rccLoop_processed_mono (chains : List Chain) (ntc : List (Nat × List Nat)) :
    ∀ (l : List Nat) (st : List Chain × List Nat),
      st.2 ⊆ (rccLoop chains ntc l st).2 := by
  intro l
  induction l with
  | nil => intro st; exact fun c hc => hc
  | cons i rest ih =>
    intro st
    unfold rccLoop
    split
    · exact ih st
    · intro c hc
      exact ih _ (emitGroupAux_processed_mono _ 0 _ hc)

theorem rccLoop_inv (chains : List Chain) :
    ∀ (l : List Nat), (∀ i ∈ l, i < chains.length) →
    ∀ (st : List Chain × List Nat), HeadInv chains st.1 st.2 →
      HeadInv chains (rccLoop chains (nodeToChains chains) l st).1
        (rccLoop chains (nodeToChains chains) l st).2 ∧
      ∀ i ∈ l, i ∈ (rccLoop chains (nodeToChains chains) l st).2 := by
  intro l
  induction l with
  | nil =>
    intro _ st hinv
    exact ⟨hinv, fun i hi => absurd hi (List.not_mem_nil i)⟩
  | cons i rest ih =>
    intro hl st hinv
    have hilt : i < chains.length := hl i (List.mem_cons_self _ _)
    have hlrest : ∀ x ∈ rest, x < chains.length :=
      fun x hx => hl x (List.mem_cons_of_mem _ hx)
    unfold rccLoop
    split
    · rename_i hin
      obtain ⟨hinv', hcov⟩ := ih hlrest st hinv
      refine ⟨hinv', fun x hx => ?_⟩
      rcases List.mem_cons.mp hx with rfl | hx2
      · exact rccLoop_processed_mono chains (nodeToChains chains) rest st hin
      · exact hcov x hx2
    · rename_i hnin
      set group := (i :: conflictsOf (nodeToChains chains) chains i).map
        (fun idx => (idx, chains.getD idx ⟨[], [], false⟩)) with hgroup
      set sorted := stableSortBy rccLe group with hsorted
      -- every index appearing in the group is connected to `i`
      have hgidx : ∀ idx ∈ (i :: conflictsOf (nodeToChains chains) chains i),
          ConnectedChains chains i idx := by
        intro idx hidx
        rcases List.mem_cons.mp hidx with rfl | hc
        · exact Relation.ReflTransGen.refl
        · exact Relation.ReflTransGen.single (conflictsOf_sound chains i hilt idx hc).2
      have hmapfst : group.map Prod.fst = i :: conflictsOf (nodeToChains chains) chains i := by
        rw [hgroup, List.map_map]
        have hcomp : (Prod.fst ∘ fun idx =>
            (idx, chains.getD idx (⟨[], [], false⟩ : Chain))) = id := rfl
        rw [hcomp, List.map_id]
      have hperm : List.Perm sorted group := stableSortBy_perm rccLe group
      -- the group (hence the sorted list) is nonempty
      have hsne : sorted ≠ [] := by
        intro hemp
        have := hperm.length_eq
        rw [hemp, hgroup] at this
        simp at this
      obtain ⟨p0, srest, hs0⟩ := List.exists_cons_of_ne_nil hsne
      have hp0group : p0 ∈ group := hperm.mem_iff.mp (hs0 ▸ List.mem_cons_self _ _)
      obtain ⟨idx0, hidx0mem, hp0eq⟩ := List.mem_map.mp hp0group
      have hconn_i_idx0 : ConnectedChains chains i idx0 := hgidx idx0 hidx0mem
      -- connectivity of any newly processed member to i
      have hnewconn : ∀ m, m ∈ sorted.map Prod.fst → ConnectedChains chains m i := by
        intro m hm
        have : m ∈ group.map Prod.fst := (hperm.map Prod.fst).mem_iff.mp hm
        rw [hmapfst] at this
        rcases List.mem_cons.mp this with rfl | hc
        · exact Relation.ReflTransGen.refl
        · exact Relation.ReflTransGen.single
            (shares_symm chains (conflictsOf_sound chains i hilt m hc).2)
      -- establish the invariant for the post-group state
      have hinv' : HeadInv chains (emitGroup sorted st.1 st.2).1 (emitGroup sorted st.1 st.2).2 := by
        intro m hm
        rcases emitGroupAux_processed_sub sorted 0 (st.1, st.2) m hm with hold | hnew
        · obtain ⟨j, hconn, hmem⟩ := hinv m hold
          exact ⟨j, hconn, emitGroupAux_resolved_mono sorted 0 _ hmem⟩
        · have hmconn : ConnectedChains chains m i := hnewconn m hnew
          by_cases hp0 : p0.1 ∈ st.2
          · obtain ⟨j0, hconn0, hmem0⟩ := hinv p0.1 hp0
            refine ⟨j0, ?_, emitGroupAux_resolved_mono sorted 0 _ hmem0⟩
            have : ConnectedChains chains i p0.1 := by
              rw [← hp0eq]
              exact hconn_i_idx0
            exact (hmconn.trans this).trans hconn0
          · refine ⟨idx0, ?_, ?_⟩
            · exact hmconn.trans hconn_i_idx0
            · have := emitGroup_head p0 srest st.1 st.2 hp0
              rw [hs0]
              have hp2 : p0.2 = chainGetD chains idx0 := by
                rw [← hp0eq]; rfl
              rw [hp2] at this
              exact this
      obtain ⟨hinvf, hcov⟩ := ih hlrest (emitGroup sorted st.1 st.2) hinv'
      refine ⟨hinvf, fun x hx => ?_⟩
      rcases List.mem_cons.mp hx with rfl | hx2
      · refine rccLoop_processed_mono chains (nodeToChains chains) rest _ ?_
        refine emitGroupAux_processed_covers sorted 0 (st.1, st.2) x ?_
        refine (hperm.map Prod.fst).mem_iff.mpr ?_
        rw [hmapfst]
        exact List.mem_cons_self _ _
      · exact hcov x hx2

theorem chain_setHead_self (c : Chain) (h : c.isHead = true) :
    { c with isHead := true } = c := by
  cases c
  simp only at h
  simp [h]

/-- C3 amended.  The resolver guarantees AT LEAST one `isHead = true`
chain within each transitively-connected group of node-sharing chains
(on walker output all input chains carry `isHead = true`); the
counterexample shows a transitive group can receive more than one head,
so "exactly one" fails while "at least one" holds. -/
theorem resolveChainConflicts_head_in_component (chains : List Chain)
    (hall : ∀ c ∈ chains, c.isHead = true) (k : Nat) (hk : k < chains.length) :
    ∃ j, ConnectedChains chains k j ∧
      { chainGetD chains j with isHead := true } ∈ resolveChainConflicts chains := by
  unfold resolveChainConflicts
  by_cases h0 : chains.length = 0
  · omega
  rw [if_neg h0]
  by_cases h1 : chains.length = 1
  · rw [if_pos h1]
    have hmem : chainGetD chains k ∈ chains := by
      unfold chainGetD
      rw [List.getD_eq_getElem chains _ (by omega)]
      exact List.getElem_mem _
    refine ⟨k, Relation.ReflTransGen.refl, ?_⟩
    rw [chain_setHead_self _ (hall _ hmem)]
    exact hmem
  · rw [if_neg h1]
    obtain ⟨hinv, hcov⟩ := rccLoop_inv chains (List.range chains.length)
      (fun i hi => List.mem_range.mp hi) ([], [])
      (fun m hm => absurd hm (List.not_mem_nil m))
    exact hinv k (hcov k (List.mem_range.mpr hk))

/-- Witness for the C3 amended theorem at a concrete input (the
counterexample pool itself). -/
theorem resolveChainConflicts_head_in_component_witness :
    ∃ j, ConnectedChains cex3chains 1 j ∧
      { chainGetD cex3chains j with isHead := true } ∈
        resolveChainConflicts cex3chains :=
  resolveChainConflicts_head_in_component cex3chains (by decide) 1 (by decide)

/-! ## List detector (`detectStaticLists` / `detectDynamicLists`)

Scanner state restricted to the fields the detectors read and write.
`numBatches` stands for `sc.batches.length` (the detectors never look at
batch contents, only at the per-batch value arrays in `staticNodes`).
The achievement-generator streaming branch of `detectStaticLists`
(active only when an external encoder is attached) is outside the
specified core and is not modelled; it only emits text and removes
already-recorded `static_list` structures from `sc.structures`. -/

inductive StructType where
  | static_list
  | dynamic_list
deriving Repr, DecidableEq

structure Structure where
  id          : Nat
  stype       : StructType
  root        : Nat
  nodeCount   : Nat
  validCount  : Nat := 0
  ghostCount  : Nat := 0
  stride      : Int
  addresses   : List Nat
  ghosts      : List Nat := []
  static      : Bool
  buildOffset : Nat
  batchIdx    : Option Nat := none
deriving Repr, DecidableEq

/-- Detection-phase entry point record (dynamic pass). -/
structure DetEP where
  root        : Nat
  nodeCount   : Nat
  addresses   : List Nat
  buildOffset : Nat
  path        : List Nat
  batchIdx    : Nat
  claimed     : Bool
deriving Repr, DecidableEq

structure Scanner where
  numBatches         : Nat
  staticStaticNodes  : List (Nat × Nat)
  staticNodes        : List (Nat × List Nat)
  targetNodes        : List (List Nat)
  structures         : List Structure
  entryPoints        : List DetEP
  minChainLength     : Nat
  maxGhostNodes      : Nat
  skipStickyPointers : Bool
deriving Repr, DecidableEq

/-- The offset sweep `0x00, 0x04, …, 0x3C`. -/
def offsetSweep : List Nat := (List.range 16).map (· * 4)

/-- `_dominantStride(nodes)`: most frequent consecutive gap, 4 for
single-node chains; first-seen gap wins frequency ties (strict `>`). -/
def dominantStride (nodes : List Nat) : Int :=
  if nodes.length < 2 then 4
  else
    let freq := (nodes.zip nodes.tail).foldl
      (fun m p =>
        let d : Int := (p.2 : Int) - (p.1 : Int)
        mapSet m d ((mapGet m d).getD 0 + 1)) []
    (freq.foldl (fun best p => if p.2 > best.2 then p else best) ((4 : Int), 0)).1

/-- `for (b = 0; b < B; b++) for (addr of nodes) targetNodes[b].add(addr)`. -/
def addAllBatches (tn : List (List Nat)) (B : Nat) (nodes : List Nat) :
    List (List Nat) :=
  (List.range B).foldl (fun t b => t.set b (nodes.foldl setAdd (t.getD b []))) tn

/-- Working state of the static pass. -/
structure StaticSt where
  pool       : List Nat
  ssNodes    : List (Nat × Nat)
  targetNodes : List (List Nat)
  structures : List Structure
  structId   : Nat
deriving Repr, DecidableEq

/-- Body of `for (const chain of resolved)` in `detectStaticLists`. -/
def staticChainStep (B minChainLength offset : Nat) (st : StaticSt)
    (chain : Chain) : StaticSt :=
  if chain.isHead = false then st
  else if chain.nodes.length < minChainLength then st
  else
    let ghosts := chain.ghosts
    let stride := dominantStride chain.nodes
    let newStruct : Structure :=
      { id := st.structId, stype := .static_list, root := chain.nodes.headD 0,
        nodeCount := chain.nodes.length, validCount := chain.nodes.length,
        ghostCount := ghosts.length, stride := stride,
        addresses := chain.nodes, ghosts := ghosts, static := true,
        buildOffset := offset }
    let allNodes := chain.nodes ++ ghosts
    { pool := allNodes.foldl setDelete st.pool,
      ssNodes := allNodes.foldl mapDelete st.ssNodes,
      targetNodes := addAllBatches st.targetNodes B allNodes,
      structures := st.structures ++ [newStruct],
      structId := st.structId + 1 }

/-- One offset iteration of the static pass. -/
def staticOffsetStep (B minChainLength maxGhostNodes : Nat) (st : StaticSt)
    (offset : Nat) : StaticSt :=
  let chains := (walkChainsAtOffset st.pool offset (mapGet st.ssNodes)
    ⟨minChainLength, maxGhostNodes, none⟩).1
  if chains.length = 0 then st
  else (resolveChainConflicts chains).foldl (staticChainStep B minChainLength offset) st

/-- The offset sweep of `detectStaticLists`, from the initial state (the
pool is the ascending-sorted `StaticStatic` key set). -/
def staticPassResult (sc : Scanner) : StaticSt :=
  offsetSweep.foldl
    (staticOffsetStep sc.numBatches sc.minChainLength sc.maxGhostNodes)
    { pool := stableSortBy (fun a b => decide (a ≤ b))
        (sc.staticStaticNodes.map Prod.fst),
      ssNodes := sc.staticStaticNodes,
      targetNodes := sc.targetNodes, structures := sc.structures, structId := 1 }

/-- `detectStaticLists(sc)`: sweep, then discard the remaining
StaticStatics (`skipStickyPointers`) or promote them to StaticNodes. -/
def detectStaticLists (sc : Scanner) : Scanner :=
  if sc.skipStickyPointers then
    { sc with
      staticStaticNodes := [],
      targetNodes := (staticPassResult sc).targetNodes,
      structures := (staticPassResult sc).structures }
  else
    { sc with
      staticStaticNodes := [],
      staticNodes := (staticPassResult sc).ssNodes.foldl
        (fun m p => mapSet m p.1 (List.replicate sc.numBatches p.2)) sc.staticNodes,
      targetNodes := (staticPassResult sc).targetNodes,
      structures := (staticPassResult sc).structures }

/-- Working state of the dynamic pass. -/
structure DynSt where
  batchNodes  : List (List Nat)
  targetNodes : List (List Nat)
  structures  : List Structure
  entryPoints : List DetEP
deriving Repr, DecidableEq

/-- Body of `for (const chain of resolved)` in `detectDynamicLists`. -/
def dynChainStep (minChainLength offset b : Nat) (st : DynSt) (chain : Chain) :
    DynSt :=
  if chain.isHead = true ∧ minChainLength ≤ chain.nodes.length then
    let newStruct : Structure :=
      { id := st.structures.length, stype := .dynamic_list,
        root := chain.nodes.headD 0, nodeCount := chain.nodes.length,
        stride := (offset : Int), addresses := chain.nodes, static := false,
        buildOffset := offset, batchIdx := some b }
    { st with
      structures := st.structures ++ [newStruct],
      targetNodes := st.targetNodes.set b
        (chain.nodes.foldl setAdd (st.targetNodes.getD b [])),
      batchNodes := st.batchNodes.set b
        (chain.nodes.foldl setDelete (st.batchNodes.getD b [])) }
  else if chain.isHead = false then
    { st with
      batchNodes := st.batchNodes.set b
        (chain.nodes.foldl setDelete (st.batchNodes.getD b [])) }
  else st

/-- Body of `for (const ep of entryPoints)` in `detectDynamicLists`. -/
def dynEpStep (offset b : Nat) (st : DynSt) (ep : RawEP) : DynSt :=
  { st with
    entryPoints := st.entryPoints ++
      [{ root := ep.nodes.headD 0, nodeCount := ep.nodes.length,
         addresses := ep.nodes, buildOffset := offset, path := [offset],
         batchIdx := b, claimed := false }],
    batchNodes := st.batchNodes.set b
      (ep.nodes.foldl setDelete (st.batchNodes.getD b [])) }

/-- One `(offset, batch)` iteration of the dynamic pass. -/
def dynBatchStep (staticNodes : List (Nat × List Nat)) (minChainLength offset : Nat)
    (st : DynSt) (b : Nat) : DynSt :=
  let working := st.batchNodes.getD b []
  if working.length = 0 then st
  else
    let getVal : Nat → Option Nat := fun addr =>
      (mapGet staticNodes addr).bind (fun vals => vals.get? b)
    let r := walkChainsAtOffset working offset getVal
      ⟨minChainLength, 0, some (st.targetNodes.getD b [])⟩
    let st' := (resolveChainConflicts r.1).foldl
      (dynChainStep minChainLength offset b) st
    r.2.foldl (dynEpStep offset b) st'

/-- The `(offset, batch)` sweep of `detectDynamicLists`, from the
per-batch working sets `StaticNodes \ targetNodes[b]`. -/
def dynPassResult (sc : Scanner) : DynSt :=
  offsetSweep.foldl (fun s offset =>
    (List.range sc.numBatches).foldl
      (dynBatchStep sc.staticNodes sc.minChainLength offset) s)
    { batchNodes := (List.range sc.numBatches).map (fun b =>
        (sc.staticNodes.map Prod.fst).filter
          (fun a => decide (a ∉ sc.targetNodes.getD b []))),
      targetNodes := sc.targetNodes,
      structures := sc.structures, entryPoints := sc.entryPoints }

/-- `detectDynamicLists(sc)`. -/
def detectDynamicLists (sc : Scanner) : Scanner :=
  { sc with
    targetNodes := (dynPassResult sc).targetNodes,
    structures := (dynPassResult sc).structures,
    entryPoints := (dynPassResult sc).entryPoints }

/-! ## C5: are detected structures in every batch's target pool? -/

/-- What detection actually guarantees for one structure: a static list's
addresses and ghosts are in EVERY batch's target pool; a dynamic list's
addresses only in the pool of the batch that produced it. -/
def StructOK (tn : List (List Nat)) (B : Nat) (s : Structure) : Prop :=
  (s.static = true → ∀ b < B, ∀ a ∈ s.addresses ++ s.ghosts, a ∈ tn.getD b []) ∧
  (s.static = false → ∃ b, s.batchIdx = some b ∧ b < B ∧
    ∀ a ∈ s.addresses, a ∈ tn.getD b [])

/-- Pointwise growth of the per-batch target pools. -/
def tnGrows (t1 t2 : List (List Nat)) : Prop :=
  ∀ b a, a ∈ t1.getD b [] → a ∈ t2.getD b []

theorem StructOK_mono {t1 t2 : List (List Nat)} {B : Nat} {s : Structure}
    (hg : tnGrows t1 t2) (h : StructOK t1 B s) : StructOK t2 B s := by
  obtain ⟨hs, hd⟩ := h
  constructor
  · intro hst b hb a ha
    exact hg b a (hs hst b hb a ha)
  · intro hst
    obtain ⟨b, hbi, hb, hall⟩ := hd hst
    exact ⟨b, hbi, hb, fun a ha => hg b a (hall a ha)⟩

theorem getD_set {α : Type} (t : List α) (b i : Nat) (x d : α) :
    (t.set b x).getD i d =
      if i = b ∧ b < t.length then x else t.getD i d := by
  induction t generalizing b i with
  | nil => simp [List.set]
  | cons hd tl ih =>
    cases b with
    | zero =>
      cases i with
      | zero => simp [List.set]
      | succ j => simp [List.set, List.getD]
    | succ b' =>
      cases i with
      | zero => simp [List.set, List.getD]
      | succ j =>
        simp only [List.set, List.getD_cons_succ, List.length_cons, ih]
        by_cases h1 : j = b' ∧ b' < tl.length
        · rw [if_pos h1, if_pos (by omega)]
        · rw [if_neg h1, if_neg (by omega)]

theorem addAllBatches_succ (tn : List (List Nat)) (B : Nat) (nodes : List Nat) :
    addAllBatches tn (B + 1) nodes =
      (addAllBatches tn B nodes).set B
        (nodes.foldl setAdd ((addAllBatches tn B nodes).getD B [])) := by
  unfold addAllBatches
  rw [List.range_succ, List.foldl_append, List.foldl_cons, List.foldl_nil]

theorem addAllBatches_length (tn : List (List Nat)) (B : Nat) (nodes : List Nat) :
    (addAllBatches tn B nodes).length = tn.length := by
  induction B with
  | zero => rfl
  | succ B' ih => rw [addAllBatches_succ, List.length_set, ih]

theorem addAllBatches_getD (tn : List (List Nat)) (B : Nat) (nodes : List Nat) :
    ∀ b, (addAllBatches tn B nodes).getD b [] =
      if b < B ∧ b < tn.length then nodes.foldl setAdd (tn.getD b [])
      else tn.getD b [] := by
  induction B with
  | zero =>
    intro b
    rw [if_neg (by omega)]
    rfl
  | succ B' ih =>
    intro b
    rw [addAllBatches_succ, getD_set, addAllBatches_length]
    have hprev : (addAllBatches tn B' nodes).getD B' [] = tn.getD B' [] := by
      rw [ih B', if_neg (by omega)]
    by_cases hb : b = B' ∧ B' < tn.length
    · rw [if_pos hb, hprev, if_pos (by omega), hb.1]
    · rw [if_neg hb, ih b]
      by_cases hb2 : b < B' ∧ b < tn.length
      · rw [if_pos hb2, if_pos (by omega)]
      · rw [if_neg hb2, if_neg (by omega)]

theorem addAllBatches_grows (tn : List (List Nat)) (B : Nat) (nodes : List Nat) :
    tnGrows tn (addAllBatches tn B nodes) := by
  intro b a ha
  rw [addAllBatches_getD tn B nodes b]
  split
  · exact (mem_foldl_setAdd nodes _ a).mpr (Or.inl ha)
  · exact ha

/-- Invariant of the static pass. -/
def StaticInv (B : Nat) (st : StaticSt) : Prop :=
  B ≤ st.targetNodes.length ∧ ∀ s ∈ st.structures, StructOK st.targetNodes B s

theorem staticChainStep_inv (B minLen offset : Nat) (st : StaticSt) (chain : Chain)
    (h : StaticInv B st) : StaticInv B (staticChainStep B minLen offset st chain) := by
  obtain ⟨hlen, hok⟩ := h
  unfold staticChainStep
  split
  · exact ⟨hlen, hok⟩
  split
  · exact ⟨hlen, hok⟩
  refine ⟨?_, ?_⟩
  · simp only [addAllBatches_length]
    exact hlen
  · intro s hs
    simp only [List.mem_append, List.mem_singleton] at hs
    have hg := addAllBatches_grows st.targetNodes B (chain.nodes ++ chain.ghosts)
    rcases hs with hold | rfl
    · exact StructOK_mono hg (hok s hold)
    · constructor
      · intro _ b hb a ha
        rw [addAllBatches_getD, if_pos ⟨hb, by omega⟩]
        exact (mem_foldl_setAdd _ _ a).mpr (Or.inr ha)
      · intro hfalse
        simp at hfalse

theorem staticOffsetStep_inv (B minLen mg : Nat) (st : StaticSt) (offset : Nat)
    (h : StaticInv B st) :
    StaticInv B (staticOffsetStep B minLen mg st offset) := by
  simp only [staticOffsetStep]
  split
  · exact h
  · exact List.foldlRecOn _ _ _ h
      (fun st' h' chain _ => staticChainStep_inv B minLen offset st' chain h')

theorem staticPassResult_inv (sc : Scanner)
    (hlen : sc.numBatches ≤ sc.targetNodes.length)
    (hok : ∀ s ∈ sc.structures, StructOK sc.targetNodes sc.numBatches s) :
    StaticInv sc.numBatches (staticPassResult sc) := by
  unfold staticPassResult
  refine List.foldlRecOn _ _ _ ⟨hlen, hok⟩ ?_
  intro st h offset _
  exact staticOffsetStep_inv _ _ _ st offset h

theorem detectStaticLists_targetNodes (sc : Scanner) :
    (detectStaticLists sc).targetNodes = (staticPassResult sc).targetNodes := by
  by_cases h : sc.skipStickyPointers = true <;>
    simp only [detectStaticLists, h, if_true, Bool.false_eq_true, if_false]

theorem detectStaticLists_structures (sc : Scanner) :
    (detectStaticLists sc).structures = (staticPassResult sc).structures := by
  by_cases h : sc.skipStickyPointers = true <;>
    simp only [detectStaticLists, h, if_true, Bool.false_eq_true, if_false]

theorem detectStaticLists_numBatches (sc : Scanner) :
    (detectStaticLists sc).numBatches = sc.numBatches := by
  by_cases h : sc.skipStickyPointers = true <;>
    simp only [detectStaticLists, h, if_true, Bool.false_eq_true, if_false]

theorem detectStaticLists_inv (sc : Scanner)
    (hlen : sc.numBatches ≤ sc.targetNodes.length)
    (hok : ∀ s ∈ sc.structures, StructOK sc.targetNodes sc.numBatches s) :
    (detectStaticLists sc).numBatches = sc.numBatches ∧
    sc.numBatches ≤ (detectStaticLists sc).targetNodes.length ∧
    ∀ s ∈ (detectStaticLists sc).structures,
      StructOK (detectStaticLists sc).targetNodes sc.numBatches s := by
  obtain ⟨h1, h2⟩ := staticPassResult_inv sc hlen hok
  rw [detectStaticLists_numBatches, detectStaticLists_targetNodes,
    detectStaticLists_structures]
  exact ⟨rfl, h1, h2⟩

/-- Invariant of the dynamic pass. -/
def DynInv (B : Nat) (st : DynSt) : Prop :=
  B ≤ st.targetNodes.length ∧ ∀ s ∈ st.structures, StructOK st.targetNodes B s

theorem dynChainStep_inv (minLen offset b B : Nat) (hb : b < B) (st : DynSt)
    (chain : Chain) (h : DynInv B st) :
    DynInv B (dynChainStep minLen offset b st chain) := by
  obtain ⟨hlen, hok⟩ := h
  unfold dynChainStep
  split
  · have hg : tnGrows st.targetNodes
        (st.targetNodes.set b (chain.nodes.foldl setAdd (st.targetNodes.getD b []))) := by
      intro b' a ha
      rw [getD_set]
      split
      · rename_i hcond
        rw [← hcond.1]
        exact (mem_foldl_setAdd _ _ a).mpr (Or.inl ha)
      · exact ha
    refine ⟨by simpa using hlen, ?_⟩
    intro s hs
    simp only [List.mem_append, List.mem_singleton] at hs
    rcases hs with hold | rfl
    · exact StructOK_mono hg (hok s hold)
    · constructor
      · intro htrue
        simp at htrue
      · intro _
        refine ⟨b, rfl, hb, fun a ha => ?_⟩
        rw [getD_set, if_pos ⟨rfl, by omega⟩]
        exact (mem_foldl_setAdd _ _ a).mpr (Or.inr ha)
  split
  · exact ⟨hlen, hok⟩
  · exact ⟨hlen, hok⟩

theorem dynEpStep_inv (offset b B : Nat) (st : DynSt) (ep : RawEP)
    (h : DynInv B st) : DynInv B (dynEpStep offset b st ep) := by
  obtain ⟨hlen, hok⟩ := h
  exact ⟨hlen, hok⟩

theorem dynBatchStep_inv (sn : List (Nat × List Nat)) (minLen offset b B : Nat)
    (hb : b < B) (st : DynSt) (h : DynInv B st) :
    DynInv B (dynBatchStep sn minLen offset st b) := by
  simp only [dynBatchStep]
  split
  · exact h
  · refine List.foldlRecOn _ _ _ ?_ (fun st' h' ep _ => dynEpStep_inv offset b B st' ep h')
    exact List.foldlRecOn _ _ _ h
      (fun st' h' chain _ => dynChainStep_inv minLen offset b B hb st' chain h')

theorem dynPassResult_inv (sc : Scanner)
    (hlen : sc.numBatches ≤ sc.targetNodes.length)
    (hok : ∀ s ∈ sc.structures, StructOK sc.targetNodes sc.numBatches s) :
    DynInv sc.numBatches (dynPassResult sc) := by
  unfold dynPassResult
  refine List.foldlRecOn _ _ _ ⟨hlen, hok⟩ ?_
  intro st h offset _
  refine List.foldlRecOn _ _ _ h ?_
  intro st' h' b hbmem
  exact dynBatchStep_inv sc.staticNodes sc.minChainLength offset b sc.numBatches
    (List.mem_range.mp hbmem) st' h'

theorem detectDynamicLists_inv (sc : Scanner)
    (hlen : sc.numBatches ≤ sc.targetNodes.length)
    (hok : ∀ s ∈ sc.structures, StructOK sc.targetNodes sc.numBatches s) :
    (detectDynamicLists sc).numBatches = sc.numBatches ∧
    ∀ s ∈ (detectDynamicLists sc).structures,
      StructOK (detectDynamicLists sc).targetNodes sc.numBatches s := by
  have hst := dynPassResult_inv sc hlen hok
  exact ⟨rfl, hst.2⟩

/-- C5 counterexample input: two batches; batch 0's values chain the five
`staticNodes` addresses at offset 0, batch 1's values point far away. -/
def cex5sc : Scanner :=
  { numBatches := 2,
    staticStaticNodes := [],
    staticNodes := [(1000, [1008, 50000]), (1008, [1016, 50008]),
      (1016, [1024, 50016]), (1024, [1032, 50024]), (1032, [9999, 50032])],
    targetNodes := [[], []],
    structures := [], entryPoints := [],
    minChainLength := 2, maxGhostNodes := 10, skipStickyPointers := true }

/-- C5 counterexample: after both detection passes, the single detected
structure is a `dynamic_list` from batch 0 whose addresses went only into
`targetNodes[0]`; `targetNodes[1]` stays empty although batch 1 exists,
refuting "members of `targetNodes[b]` for every batch index b". -/
theorem detect_dynamic_not_in_all_batches :
    ((detectDynamicLists (detectStaticLists cex5sc)).structures.map
        Structure.addresses = [[1000, 1008, 1016, 1024, 1032]]) ∧
    ((detectDynamicLists (detectStaticLists cex5sc)).structures.map
        Structure.batchIdx = [some 0]) ∧
    (detectDynamicLists (detectStaticLists cex5sc)).targetNodes.getD 1 [] = [] ∧
    (detectDynamicLists (detectStaticLists cex5sc)).targetNodes.length = 2 := by
  decide

/-- C5 amended.  After static and dynamic detection complete, a static
structure's addresses and ghosts are in `targetNodes[b]` for EVERY batch
`b`, while a dynamic structure's addresses are guaranteed only in
`targetNodes[batchIdx]` of the batch that produced it. -/
theorem detect_structures_in_targetNodes (sc : Scanner)
    (hlen : sc.numBatches ≤ sc.targetNodes.length)
    (hinit : sc.structures = []) :
    ∀ s ∈ (detectDynamicLists (detectStaticLists sc)).structures,
      StructOK (detectDynamicLists (detectStaticLists sc)).targetNodes
        sc.numBatches s := by
  obtain ⟨hnb, hlen', hok'⟩ := detectStaticLists_inv sc hlen
    (by rw [hinit]; intro s hs; cases hs)
  have h2 := detectDynamicLists_inv (detectStaticLists sc)
    (by rw [hnb]; exact hlen') (by rw [hnb]; exact hok')
  rw [hnb] at h2
  exact h2.2

/-- Witness for the C5 amended theorem at the counterexample input. -/
theorem detect_structures_in_targetNodes_witness :
    (cex5sc.numBatches ≤ cex5sc.targetNodes.length ∧ cex5sc.structures = []) ∧
    ∀ s ∈ (detectDynamicLists (detectStaticLists cex5sc)).structures,
      StructOK (detectDynamicLists (detectStaticLists cex5sc)).targetNodes
        cex5sc.numBatches s :=
  ⟨⟨by decide, rfl⟩, detect_structures_in_targetNodes cex5sc (by decide) rfl⟩

/-! ## System catalogue (`Config`, core source file)

`getRanges` computes with JS numbers but aligns through `addr & ~3`,
a signed-32-bit bitwise AND: for addresses at or above `2^31` the
operand is converted by `ToInt32` and the result is negative.  We model
that arithmetic exactly on `Int`. -/

/-- JS `ToInt32`. -/
def toInt32 (n : Int) : Int := (n + 2 ^ 31) % 2 ^ 32 - 2 ^ 31

/-- `floorAlign = addr => addr & ~3` (signed 32-bit: clears the two low
bits of the two's-complement representation). -/
def floorAlign (addr : Int) : Int :=
  toInt32 addr - toInt32 addr % 4

inductive MemRange where
  | one (min max : Nat)
  | two (min1 max1 min2 max2 : Nat)
deriving Repr, DecidableEq

structure SystemCfg where
  name        : String
  mask        : Option Nat
  memoryRange : MemRange
  use24Bit    : Bool
  dualRange   : Bool := false
  rangeMode   : String
  size        : String
deriving Repr, DecidableEq

/-- `Config.systems` (note the misspelt `rangeMode: 'quater'` of `ds`). -/
def systemsList : List (String × SystemCfg) :=
  [("n64", ⟨"Nintendo 64", none, .one 0x80000000 0x807FFFFF, true, false, "half", "32-bit"⟩),
   ("ps1", ⟨"PlayStation 1", some 0x001FFFFF, .one 0x80000000 0x801FFFFF, false, false, "half", "32-bit"⟩),
   ("ps2", ⟨"PlayStation 2", none, .one 0x00100000 0x01FFFFFF, false, false, "quarter", "32-bit"⟩),
   ("psp", ⟨"PlayStation Portable", some 0x01FFFFFF, .one 0x08000000 0x09FFFFFF, false, false, "quarter", "32-bit"⟩),
   ("gba", ⟨"Game Boy Advance", none, .one 0x02000000 0x0203FFFF, true, false, "full", "32-bit"⟩),
   ("ds", ⟨"Nintendo DS", none, .one 0x02000000 0x023FFFFF, true, false, "quater", "32-bit"⟩),
   ("dsi", ⟨"Nintendo DSi", none, .one 0x02000000 0x02FFFFFF, true, false, "quarter", "32-bit"⟩),
   ("gamecube", ⟨"GameCube", some 0x17FFFFFF, .one 0x80000000 0x817FFFFF, false, false, "quarter", "32-bit BE"⟩),
   ("wii", ⟨"Wii", some 0x13FFFFFF, .two 0x80000000 0x817FFFFF 0x90000000 0x93FFFFFF, false, true, "wii", "32-bit BE"⟩),
   ("dreamcast", ⟨"Dreamcast", none, .one 0x8C000000 0x8CFFFFFF, true, false, "half", "32-bit"⟩)]

def getSystemConfig (systemId : String) : Option SystemCfg :=
  mapGet systemsList systemId

def getSystemMask (systemId : String) : Option Nat :=
  match getSystemConfig systemId with
  | some cfg => cfg.mask
  | none => none

def isValidSystem (systemId : String) : Bool :=
  (getSystemConfig systemId).isSome

structure ScanRange where
  label : String
  min   : Int
  max   : Int
deriving Repr, DecidableEq

/-- `Config.getRanges(systemId)`.  The `'full' | 'half' | 'quarter' |
'wii'` switch; any other tag (including `ds`'s `'quater'`) falls to the
default branch and yields `[]`.  Only `wii` carries a dual
`memoryRange`, and only the `'wii'` branch destructures it. -/
def getRanges (systemId : String) : List ScanRange :=
  match getSystemConfig systemId with
  | none => []
  | some cfg =>
    if cfg.rangeMode = "full" then
      match cfg.memoryRange with
      | .one mn mx => [⟨"Range 1", (mn : Int), (mx : Int)⟩]
      | .two _ _ _ _ => []
    else if cfg.rangeMode = "half" then
      match cfg.memoryRange with
      | .one mn mx =>
        let size : Int := (mx : Int) - (mn : Int) + 1
        let mid := floorAlign ((mn : Int) + size / 2)
        [⟨"Range 1", (mn : Int), mid - 4⟩, ⟨"Range 2", mid, (mx : Int)⟩]
      | .two _ _ _ _ => []
    else if cfg.rangeMode = "quarter" then
      match cfg.memoryRange with
      | .one mn mx =>
        let size : Int := (mx : Int) - (mn : Int) + 1
        let step := size / 4
        let q1 := floorAlign ((mn : Int) + step)
        let q2 := floorAlign ((mn : Int) + step * 2)
        let q3 := floorAlign ((mn : Int) + step * 3)
        [⟨"Range 1", (mn : Int), q1 - 4⟩, ⟨"Range 2", q1, q2 - 4⟩,
         ⟨"Range 3", q2, q3 - 4⟩, ⟨"Range 4", q3, (mx : Int)⟩]
      | .two _ _ _ _ => []
    else if cfg.rangeMode = "wii" then
      match cfg.memoryRange with
      | .two mn1 mx1 mn2 mx2 =>
        let mem1Size : Int := (mx1 : Int) - (mn1 : Int) + 1
        let mem1Mid := floorAlign ((mn1 : Int) + mem1Size / 2)
        let mem2Size : Int := (mx2 : Int) - (mn2 : Int) + 1
        let mem2Mid := floorAlign ((mn2 : Int) + mem2Size / 2)
        [⟨"Range 1 (MEM1 Low)", (mn1 : Int), mem1Mid - 4⟩,
         ⟨"Range 2 (MEM1 High)", mem1Mid, (mx1 : Int)⟩,
         ⟨"Range 3 (MEM2 Low)", (mn2 : Int), mem2Mid - 4⟩,
         ⟨"Range 4 (MEM2 High)", mem2Mid, (mx2 : Int)⟩]
      | .one _ _ => []
    else []

/-- `Config.getAddressRangeIndex` / `Preprocessor._getRangeIndex`:
0-based index of the first range containing the address, `-1` outside. -/
def getRangeIndexAux : List ScanRange → Int → Int → Int
  | [], _, _ => -1
  | r :: rest, address, idx =>
    if r.min ≤ address ∧ address ≤ r.max then idx
    else getRangeIndexAux rest address (idx + 1)

def getRangeIndexIn (ranges : List ScanRange) (address : Int) : Int :=
  getRangeIndexAux ranges address 0

/-! ## CSV row validation (`CoreUtils.validateCsvRow`, value rules only)

The parser validates the VALUE column: 4-byte alignment and the
system's memory range (`value < min + 1 || value > max` rejects); for
dual-region systems bit 31 must be set and bit 28 selects the region. -/

def validValue (systemId : String) (value : Nat) : Bool :=
  if value &&& 3 ≠ 0 then false
  else
    match getSystemConfig systemId with
    | none => true
    | some cfg =>
      match cfg.dualRange, cfg.memoryRange with
      | true, .two mn1 mx1 mn2 mx2 =>
        if value &&& 0x80000000 = 0 then false
        else if value &&& 0x10000000 = 0 then
          decide (mn1 + 1 ≤ value ∧ value ≤ mx1)
        else
          decide (mn2 + 1 ≤ value ∧ value ≤ mx2)
      | _, .one mn mx => decide (mn + 1 ≤ value ∧ value ≤ mx)
      | _, .two _ _ _ _ => false

/-! ## Preprocessor (`Preprocessor` class)

`nodeMap : Map<address, Int32Array(maxBatches)>`.  Slot values are the
stored (unmasked) uint32 pointer values; `0` is the absence sentinel.
The `Int32Array` representation only affects the sign of the JS number
read back, never equality, zero tests, or the masking AND, so slots are
modelled by their uint32 value. -/

def maxBatches : Nat := 10

structure Prep where
  systemId   : String
  batchCount : Nat
  nodeMap    : List (Nat × List Nat)
deriving Repr, DecidableEq

structure ParsedBatch where
  addresses : List Nat
  values    : List Nat
deriving Repr, DecidableEq

/-- State right after `setSystem(sys)` on a fresh preprocessor. -/
def initPrep (sys : String) : Prep := ⟨sys, 0, []⟩

/-- Pass 1 of `addBatch`: values occurring more than 10 times. -/
def vtableValues (values : List Nat) : List Nat :=
  let valueFreq := values.foldl
    (fun m v => mapSet m v ((mapGet m v).getD 0 + 1)) []
  valueFreq.foldl (fun s p => if p.2 > 10 then s ++ [p.1] else s) []

/-- Pass 2 row filter: drop VTable anchors and close-proximity rows
(`addr - maskedValue ∈ [-44, 4]`). -/
def rowSurvives (mask : Option Nat) (vt : List Nat) (row : Nat × Nat) : Bool :=
  if row.2 ∈ vt then false
  else
    let maskedVal : Nat := match mask with
      | some mk => row.2 &&& mk
      | none => row.2
    let diff : Int := (row.1 : Int) - (maskedVal : Int)
    decide (¬(-44 ≤ diff ∧ diff ≤ 4))

/-- Storage of one surviving row: create a zeroed slot array or update
slot `batchIndex` in place. -/
def addRow (mask : Option Nat) (vt : List Nat) (batchIndex : Nat)
    (m : List (Nat × List Nat)) (row : Nat × Nat) : List (Nat × List Nat) :=
  if rowSurvives mask vt row then
    match mapGet m row.1 with
    | none => mapSet m row.1 ((List.replicate maxBatches 0).set batchIndex row.2)
    | some slots => mapSet m row.1 (slots.set batchIndex row.2)
  else m

/-- `addBatch(parsedBatch)` (the state mutation; guards — system set,
fewer than `maxBatches` batches — are JS throws and appear as
side-conditions of `Reachable`). -/
def addBatch (p : Prep) (batch : ParsedBatch) : Prep :=
  { p with
    batchCount := p.batchCount + 1,
    nodeMap := (batch.addresses.zip batch.values).foldl
      (addRow (getSystemMask p.systemId) (vtableValues batch.values) p.batchCount)
      p.nodeMap }

/-- The slot shift of `removeBatch`: slots above the removed index move
down one, the last slot becomes 0. -/
def shiftSlots (i : Nat) (slots : List Nat) : List Nat :=
  slots.take i ++ slots.drop (i + 1) ++ [0]

/-- `removeBatch(batchIndex)`: shift every slot array and prune
addresses whose first `newCount` slots are all zero. -/
def removeBatch (p : Prep) (i : Nat) : Prep :=
  let newCount := p.batchCount - 1
  { p with
    batchCount := newCount,
    nodeMap := (p.nodeMap.map (fun e => (e.1, shiftSlots i e.2))).filter
      (fun e => (e.2.take newCount).any (fun v => decide (v ≠ 0))) }

inductive NodeClass where
  | staticStatic
  | staticNode
  | dynamicNode
deriving Repr, DecidableEq

/-- The `_classify` loop over slots `0..batchCount-1`: break to
DynamicNode at the first zero, otherwise track the first value and
whether all values matched it. -/
def classifyAux : List Nat → Nat → Bool → NodeClass
  | [], _, allSame => if allSame then .staticStatic else .staticNode
  | v :: rest, firstValue, allSame =>
    if v = 0 then .dynamicNode
    else if firstValue = 0 then classifyAux rest v allSame
    else if v ≠ firstValue then classifyAux rest firstValue false
    else classifyAux rest firstValue allSame

def classifySlots (batchCount : Nat) (slots : List Nat) : NodeClass :=
  classifyAux (slots.take batchCount) 0 true

structure RangeCount where
  label         : String
  min           : Int
  max           : Int
  staticNodes   : Nat
  staticStatics : Nat
deriving Repr, DecidableEq

structure Recommendation where
  skipSticky       : Bool
  activeRangeIndex : Nat
  warning          : Option String
deriving Repr, DecidableEq

structure Counts where
  batchCount     : Nat
  totalNodes     : Nat
  staticStatics  : Nat
  staticNodes    : Nat
  dynamicNodes   : Nat
  ranges         : List RangeCount
  recommendation : Recommendation
deriving Repr, DecidableEq

/-- The rangeMode consulted by `_buildRecommendation`
(`Config.getSystemConfig(this.systemId)`, default `'half'`). -/
def recRangeMode (systemId : String) : String :=
  match getSystemConfig systemId with
  | some cfg => cfg.rangeMode
  | none => "half"

/-- `_buildRecommendation(rangeCounts, …)` (the warning text's
locale-formatted number is kept as a plain decimal). -/
def buildRecommendation (systemId : String) (rangeCounts : List RangeCount) :
    Recommendation :=
  let warnMax : Nat := 50000
  if recRangeMode systemId = "full" then
    { skipSticky := false, activeRangeIndex := 0, warning := none }
  else
    let range1 := rangeCounts.getD 0 ⟨"", 0, 0, 0, 0⟩
    let range1Total := range1.staticNodes + range1.staticStatics
    let warning := if range1Total > warnMax then
        some ("Range 1 contains " ++ toString range1Total ++
          " total pointers. Disabling SkipSticky can increase scan time significantly.")
      else none
    { skipSticky := true, activeRangeIndex := 0, warning := warning }

/-- One node of the `getCounts` tally pass.  `acc` is
`(staticStatics, staticNodes, dynamic, rangeCounts)`. -/
def countsStep (batchCount : Nat) (ranges : List ScanRange)
    (acc : Nat × Nat × Nat × List RangeCount) (e : Nat × List Nat) :
    Nat × Nat × Nat × List RangeCount :=
  let cls := classifySlots batchCount e.2
  let totals :=
    match cls with
    | .staticStatic => (acc.1 + 1, acc.2.1, acc.2.2.1)
    | .staticNode => (acc.1, acc.2.1 + 1, acc.2.2.1)
    | .dynamicNode => (acc.1, acc.2.1, acc.2.2.1 + 1)
  let ri := getRangeIndexIn ranges (e.1 : Int)
  let rc :=
    if 0 ≤ ri then
      let i := ri.toNat
      match cls with
      | .staticStatic =>
        acc.2.2.2.set i
          { acc.2.2.2.getD i ⟨"", 0, 0, 0, 0⟩ with
            staticStatics := (acc.2.2.2.getD i ⟨"", 0, 0, 0, 0⟩).staticStatics + 1 }
      | .staticNode =>
        acc.2.2.2.set i
          { acc.2.2.2.getD i ⟨"", 0, 0, 0, 0⟩ with
            staticNodes := (acc.2.2.2.getD i ⟨"", 0, 0, 0, 0⟩).staticNodes + 1 }
      | .dynamicNode => acc.2.2.2
    else acc.2.2.2
  (totals.1, totals.2.1, totals.2.2, rc)

/-- `getCounts()` (always recomputed here; the JS cache is transparent). -/
def getCounts (p : Prep) : Counts :=
  let systemId := if p.systemId = "" then "n64" else p.systemId
  let ranges := getRanges systemId
  let rangeCounts0 := ranges.map
    (fun r => (⟨r.label, r.min, r.max, 0, 0⟩ : RangeCount))
  let t := p.nodeMap.foldl (countsStep p.batchCount ranges) (0, 0, 0, rangeCounts0)
  { batchCount := p.batchCount,
    totalNodes := p.nodeMap.length,
    staticStatics := t.1,
    staticNodes := t.2.1,
    dynamicNodes := t.2.2.1,
    ranges := t.2.2.2,
    recommendation := buildRecommendation p.systemId t.2.2.2 }

/-- Masking pass of `collapse`: every non-zero slot below `batchCount`
gets `(slot & mask) >>> 0`. -/
def maskSlotsAux (m : Nat) : Nat → List Nat → List Nat
  | _, [] => []
  | 0, slots => slots
  | n+1, v :: rest => (if v ≠ 0 then v &&& m else v) :: maskSlotsAux m n rest

def maskSlots (mask : Option Nat) (n : Nat) (slots : List Nat) : List Nat :=
  match mask with
  | none => slots
  | some m => maskSlotsAux m n slots

/-- First non-zero slot below `n` (the single value kept for a
StaticStatic), 0 when none is found. -/
def firstNonZero (n : Nat) (slots : List Nat) : Nat :=
  ((slots.take n).find? (fun v => decide (v ≠ 0))).getD 0

/-- The three partitions built by `collapse()`:
`(staticStatics, staticNodes, dynamicNodes)` in `nodeMap` order with
masked values (the pre-sized `Int32Array` containers of the source are
immaterial to the partition contents). -/
structure CollapseOut where
  staticStatics : List (Nat × Nat)
  staticNodes   : List (Nat × List Nat)
  dynamicNodes  : List (Nat × List Nat)
deriving Repr, DecidableEq

def collapseStep (mask : Option Nat) (n : Nat) (acc : CollapseOut)
    (e : Nat × List Nat) : CollapseOut :=
  let slots := maskSlots mask n e.2
  match classifySlots n slots with
  | .staticStatic =>
    { acc with staticStatics := acc.staticStatics ++ [(e.1, firstNonZero n slots)] }
  | .staticNode =>
    { acc with staticNodes := acc.staticNodes ++ [(e.1, slots.take n)] }
  | .dynamicNode =>
    { acc with dynamicNodes := acc.dynamicNodes ++ [(e.1, slots.take n)] }

def collapse (p : Prep) : CollapseOut :=
  p.nodeMap.foldl (collapseStep (getSystemMask p.systemId) p.batchCount)
    ⟨[], [], []⟩

/-- A parser-validated batch for a system: equal-length columns and
every value passing `validValue`. -/
def ValidBatch (systemId : String) (batch : ParsedBatch) : Prop :=
  batch.addresses.length = batch.values.length ∧
  ∀ v ∈ batch.values, validValue systemId v = true

instance instDecidableValidBatch (systemId : String) (batch : ParsedBatch) :
    Decidable (ValidBatch systemId batch) :=
  decidable_of_iff (batch.addresses.length = batch.values.length ∧
    ∀ v ∈ batch.values, validValue systemId v = true) Iff.rfl

/-- Preprocessor states reachable by `setSystem` followed by successful
`addBatch` / `removeBatch` calls on parser-validated batches. -/
inductive Reachable : Prep → Prop where
  | init (sys : String) (h : isValidSystem sys = true) : Reachable (initPrep sys)
  | add {p : Prep} (hp : Reachable p) (batch : ParsedBatch)
      (hc : p.batchCount < maxBatches) (hv : ValidBatch p.systemId batch) :
      Reachable (addBatch p batch)
  | remove {p : Prep} (hp : Reachable p) (i : Nat) (hi : i < p.batchCount) :
      Reachable (removeBatch p i)

/-! ## C6: range subdivision -/

/-- C6 (code bug).  Evaluating `getRanges` at the failing inputs:
`getRanges("ds")` is EMPTY because `ds`'s rangeMode is misspelt
`'quater'` and falls through the switch's default; and for `wii` the
signed-32-bit `floorAlign` makes the midpoints negative, so address
`0x80000000` lies inside TWO ranges (Range 2 and Range 4) — the ranges
overlap.  Also the second `n64` range ends at `0x807FFFFF ≡ 3 (mod 4)`,
so not every boundary is `≡ 0 (mod 4)`. -/
theorem getRanges_ds_empty_wii_overlap :
    getRanges "ds" = [] ∧
    ((getRanges "wii").filter (fun r =>
      decide (r.min ≤ 0x80000000 ∧ (0x80000000 : Int) ≤ r.max))).length = 2 ∧
    ((getRanges "n64").getD 1 ⟨"", 0, 0⟩).max % 4 = 3 := by
  decide

/-! ## C8: the skipSticky recommendation -/

theorem buildRecommendation_skipSticky (systemId : String) (rc : List RangeCount) :
    (buildRecommendation systemId rc).skipSticky =
      decide (recRangeMode systemId ≠ "full") := by
  unfold buildRecommendation
  by_cases h : recRangeMode systemId = "full"
  · simp [h]
  · simp [h]

/-- C8 counterexample: on the `gba` system (`rangeMode: 'full'`) the
recommendation emitted by `getCounts()` has `skipSticky = false`,
refuting "skipSticky equal to true for every supported system id". -/
theorem getCounts_skipSticky_gba_false :
    (getCounts (initPrep "gba")).recommendation.skipSticky = false := by
  decide

/-- C8 amended.  `getCounts()` recommends `skipSticky = true` exactly
when the active system's `rangeMode` is not `'full'`; the
`'full'`-range system (`gba`) gets `skipSticky = false`. -/
theorem getCounts_skipSticky (p : Prep) :
    (getCounts p).recommendation.skipSticky =
      decide (recRangeMode p.systemId ≠ "full") :=
  buildRecommendation_skipSticky p.systemId _

/-! ## C4: do `getCounts` totals match the `collapse` partition?

`collapse()` applies the mask before re-classifying, so agreement needs
masking to preserve the classification.  On parser-validated values the
mask acts as subtraction of a fixed base (injective, never producing 0),
which is what the following development establishes. -/

theorem mapGet_none_iff {κ α : Type} [DecidableEq κ] (m : List (κ × α)) (k : κ) :
    mapGet m k = none ↔ k ∉ m.map Prod.fst := by
  induction m with
  | nil => simp [mapGet]
  | cons e t ih =>
    obtain ⟨ek, ev⟩ := e
    by_cases h : ek = k
    · subst h
      simp [mapGet]
    · have hne : ¬ (k = ek) := fun hh => h hh.symm
      simp only [mapGet, if_neg h, ih, List.map_cons, List.mem_cons]
      tauto

theorem mapGet_some_mem {κ α : Type} [DecidableEq κ] (m : List (κ × α)) (k : κ)
    (v : α) (h : mapGet m k = some v) : (k, v) ∈ m := by
  induction m with
  | nil => simp [mapGet] at h
  | cons e t ih =>
    obtain ⟨ek, ev⟩ := e
    by_cases hek : ek = k
    · subst hek
      have hg : mapGet ((ek, ev) :: t) ek = some ev := by simp [mapGet]
      rw [hg] at h
      obtain rfl := Option.some.inj h
      exact List.mem_cons_self _ _
    · simp only [mapGet, if_neg hek] at h
      exact List.mem_cons_of_mem _ (ih h)

theorem mapSet_mem {κ α : Type} [DecidableEq κ] (m : List (κ × α)) (k : κ) (v : α)
    (e : κ × α) (h : e ∈ mapSet m k v) : e = (k, v) ∨ e ∈ m := by
  induction m with
  | nil => simpa [mapSet] using h
  | cons hd t ih =>
    obtain ⟨ek, ev⟩ := hd
    by_cases hek : ek = k
    · subst hek
      simp only [mapSet, if_pos rfl] at h
      rcases List.mem_cons.mp h with rfl | hmem
      · exact Or.inl rfl
      · exact Or.inr (List.mem_cons_of_mem _ hmem)
    · simp only [mapSet, if_neg hek] at h
      rcases List.mem_cons.mp h with rfl | hmem
      · exact Or.inr (List.mem_cons_self _ _)
      · rcases ih hmem with h2 | h2
        · exact Or.inl h2
        · exact Or.inr (List.mem_cons_of_mem _ h2)

theorem mapSet_keys {κ α : Type} [DecidableEq κ] (m : List (κ × α)) (k : κ) (v : α) :
    (mapSet m k v).map Prod.fst =
      if k ∈ m.map Prod.fst then m.map Prod.fst else m.map Prod.fst ++ [k] := by
  induction m with
  | nil => simp [mapSet]
  | cons e t ih =>
    obtain ⟨ek, ev⟩ := e
    by_cases hek : ek = k
    · subst hek
      simp [mapSet]
    · have hne : ¬ (k = ek) := fun hh => hek hh.symm
      by_cases hmem : k ∈ t.map Prod.fst
      · simp [mapSet, hek, ih, hmem, hne]
      · simp [mapSet, hek, ih, hmem, hne]

theorem mapSet_keys_nodup {κ α : Type} [DecidableEq κ] (m : List (κ × α)) (k : κ)
    (v : α) (h : (m.map Prod.fst).Nodup) : ((mapSet m k v).map Prod.fst).Nodup := by
  rw [mapSet_keys]
  split
  · exact h
  · rename_i hnot
    rw [List.nodup_append]
    refine ⟨h, List.nodup_singleton k, ?_⟩
    intro a ha hb
    rw [List.mem_singleton] at hb
    subst hb
    exact hnot ha

/-- Slot-array well-formedness for a preprocessor with `bc` batches. -/
def SlotsWF (sys : String) (bc : Nat) (slots : List Nat) : Prop :=
  slots.length = maxBatches ∧
  (∀ v ∈ slots, v = 0 ∨ validValue sys v = true) ∧
  (∀ b, bc ≤ b → slots.getD b 0 = 0)

def PrepWF (p : Prep) : Prop :=
  p.batchCount ≤ maxBatches ∧
  (p.nodeMap.map Prod.fst).Nodup ∧
  ∀ e ∈ p.nodeMap, SlotsWF p.systemId p.batchCount e.2

theorem getD_eq_getD_of_set_ne {α : Type} (l : List α) (b i : Nat) (x d : α)
    (h : i ≠ b) : (l.set b x).getD i d = l.getD i d := by
  rw [getD_set]
  rw [if_neg (by tauto)]

theorem addRow_wf (sys : String) (mask : Option Nat) (vt : List Nat) (bc : Nat)
    (hbc : bc < maxBatches)
    (m : List (Nat × List Nat)) (row : Nat × Nat)
    (hval : validValue sys row.2 = true)
    (hkeys : (m.map Prod.fst).Nodup)
    (hwf : ∀ e ∈ m, SlotsWF sys (bc + 1) e.2) :
    ((addRow mask vt bc m row).map Prod.fst).Nodup ∧
    ∀ e ∈ addRow mask vt bc m row, SlotsWF sys (bc + 1) e.2 := by
  unfold addRow
  split
  · have hnewwf : ∀ slots0, SlotsWF sys (bc + 1) slots0 →
        SlotsWF sys (bc + 1) (slots0.set bc row.2) := by
      rintro slots0 ⟨hl, hv, hz⟩
      refine ⟨by rw [List.length_set]; exact hl, ?_, ?_⟩
      · intro v hvmem
        rcases List.mem_or_eq_of_mem_set hvmem with h2 | rfl
        · exact hv v h2
        · exact Or.inr hval
      · intro b hb
        rw [getD_eq_getD_of_set_ne _ _ _ _ _ (by omega)]
        exact hz b hb
    have hrepl : SlotsWF sys (bc + 1) (List.replicate maxBatches 0) := by
      refine ⟨List.length_replicate _ _, ?_, ?_⟩
      · intro v hv
        exact Or.inl (List.eq_of_mem_replicate hv)
      · intro b _
        rcases Nat.lt_or_ge b maxBatches with hb | hb
        · rw [List.getD_eq_getElem _ _ (by simpa using hb)]
          simp
        · rw [List.getD_eq_default]
          simpa using hb
    split
    · constructor
      · exact mapSet_keys_nodup m row.1 _ hkeys
      · intro e he
        rcases mapSet_mem _ _ _ _ he with rfl | hmem
        · exact hnewwf _ hrepl
        · exact hwf e hmem
    · rename_i slots hget
      constructor
      · exact mapSet_keys_nodup m row.1 _ hkeys
      · intro e he
        rcases mapSet_mem _ _ _ _ he with rfl | hmem
        · exact hnewwf _ (hwf (row.1, slots) (mapGet_some_mem m row.1 slots hget))
        · exact hwf e hmem
  · exact ⟨hkeys, hwf⟩

/-- Invariant of the `addBatch` storage fold. -/
def AddInv (sys : String) (bc1 : Nat) (m : List (Nat × List Nat)) : Prop :=
  (m.map Prod.fst).Nodup ∧ ∀ e ∈ m, SlotsWF sys bc1 e.2

theorem addBatch_wf (p : Prep) (batch : ParsedBatch) (hwf : PrepWF p)
    (hc : p.batchCount < maxBatches) (hv : ValidBatch p.systemId batch) :
    PrepWF (addBatch p batch) := by
  obtain ⟨hbc, hkeys, hents⟩ := hwf
  refine ⟨by simpa [addBatch] using hc, ?_⟩
  have hinit : AddInv p.systemId (p.batchCount + 1) p.nodeMap := by
    refine ⟨hkeys, fun e he => ?_⟩
    obtain ⟨hl, hvv, hz⟩ := hents e he
    exact ⟨hl, hvv, fun b hb => hz b (by omega)⟩
  have hrows : ∀ row ∈ batch.addresses.zip batch.values,
      validValue p.systemId row.2 = true := by
    intro row hrow
    obtain ⟨a, v⟩ := row
    exact hv.2 v (List.of_mem_zip hrow).2
  have hfold : AddInv p.systemId (p.batchCount + 1)
      ((batch.addresses.zip batch.values).foldl
        (addRow (getSystemMask p.systemId) (vtableValues batch.values) p.batchCount)
        p.nodeMap) := by
    refine List.foldlRecOn _ _ _ hinit ?_
    intro m hm row hrow
    exact addRow_wf p.systemId _ _ p.batchCount hc m row (hrows row hrow) hm.1 hm.2
  exact hfold

theorem shiftSlots_length (i : Nat) (slots : List Nat)
    (h10 : slots.length = maxBatches) (hi : i < maxBatches) :
    (shiftSlots i slots).length = maxBatches := by
  unfold shiftSlots
  simp only [List.length_append, List.length_take, List.length_drop, h10,
    List.length_singleton]
  unfold maxBatches at *
  omega

theorem shiftSlots_getD (i : Nat) (slots : List Nat)
    (h10 : slots.length = maxBatches) (hi : i < maxBatches) (b : Nat) :
    (shiftSlots i slots).getD b 0 =
      if b < i then slots.getD b 0
      else if b < maxBatches - 1 then slots.getD (b + 1) 0
      else 0 := by
  unfold shiftSlots
  unfold maxBatches at *
  have hti : (slots.take i).length = i := by
    rw [List.length_take]
    omega
  rw [List.getD_eq_getElem?_getD]
  by_cases hb : b < i
  · rw [List.getElem?_append_left (by rw [List.length_append, hti]; omega),
      List.getElem?_append_left (by rw [hti]; omega),
      List.getElem?_take_of_lt hb, if_pos hb]
    rw [List.getD_eq_getElem?_getD]
  · rw [if_neg hb]
    by_cases hb2 : b < 9
    · rw [List.getElem?_append_left (by
        rw [List.length_append, hti, List.length_drop, h10]; omega),
        List.getElem?_append_right (by rw [hti]; omega),
        List.getElem?_drop, hti]
      rw [if_pos hb2, List.getD_eq_getElem?_getD]
      have harith : i + 1 + (b - i) = b + 1 := by omega
      rw [harith]
    · rw [if_neg hb2]
      by_cases hb3 : b = 9
      · subst hb3
        rw [List.getElem?_append_right (by
          rw [List.length_append, hti, List.length_drop, h10]; omega)]
        have hlen : ((slots.take i) ++ slots.drop (i + 1)).length = 9 := by
          rw [List.length_append, hti, List.length_drop, h10]; omega
        rw [hlen]
        simp
      · rw [List.getElem?_eq_none (by
          simp only [List.length_append, hti, List.length_drop, h10,
            List.length_singleton]
          omega)]
        rfl

theorem removeBatch_wf (p : Prep) (i : Nat) (hwf : PrepWF p)
    (hi : i < p.batchCount) : PrepWF (removeBatch p i) := by
  obtain ⟨hbc, hkeys, hents⟩ := hwf
  refine ⟨by simp [removeBatch]; omega, ?_, ?_⟩
  · have hsub : ((removeBatch p i).nodeMap.map Prod.fst).Sublist
        ((p.nodeMap.map (fun e => (e.1, shiftSlots i e.2))).map Prod.fst) :=
      List.Sublist.map Prod.fst (List.filter_sublist _)
    have hkeq : (p.nodeMap.map (fun e => (e.1, shiftSlots i e.2))).map Prod.fst =
        p.nodeMap.map Prod.fst := by
      rw [List.map_map]
      rfl
    rw [hkeq] at hsub
    exact hkeys.sublist hsub
  · intro e he
    simp only [removeBatch, List.mem_filter] at he
    obtain ⟨hmem, _⟩ := he
    obtain ⟨e0, he0, heq⟩ := List.mem_map.mp hmem
    obtain ⟨hl, hv, hz⟩ := hents e0 he0
    have hi10 : i < maxBatches := by omega
    subst heq
    refine ⟨shiftSlots_length i e0.2 hl hi10, ?_, ?_⟩
    · intro v hvmem
      unfold shiftSlots at hvmem
      rcases List.mem_append.mp hvmem with hin | hin
      · rcases List.mem_append.mp hin with h2 | h2
        · exact hv v (List.mem_of_mem_take h2)
        · exact hv v (List.mem_of_mem_drop h2)
      · exact Or.inl (List.mem_singleton.mp hin)
    · intro b hb
      rw [shiftSlots_getD i e0.2 hl hi10 b]
      simp only [removeBatch] at hb
      by_cases h1 : b < i
      · rw [if_pos h1]
        exact hz b (by omega)
      · rw [if_neg h1]
        by_cases h2 : b < maxBatches - 1
        · rw [if_pos h2]
          exact hz (b + 1) (by omega)
        · rw [if_neg h2]

theorem reachable_wf (p : Prep) (hr : Reachable p) : PrepWF p := by
  induction hr with
  | init sys h =>
    exact ⟨by norm_num [initPrep, maxBatches], by simp [initPrep],
      fun e he => absurd he (List.not_mem_nil e)⟩
  | add hp batch hc hv ih => exact addBatch_wf _ batch ih hc hv
  | remove hp i hi ih => exact removeBatch_wf _ i ih hi

/-! ### Masking acts as base subtraction on parser-validated values -/

/-- The map applied to each slot by `collapse`'s masking pass. -/
def maskFn (m : Nat) (v : Nat) : Nat := if v ≠ 0 then v &&& m else v

theorem maskSlotsAux_take (m : Nat) : ∀ (n : Nat) (slots : List Nat),
    (maskSlotsAux m n slots).take n = (slots.take n).map (maskFn m) := by
  intro n slots
  induction slots generalizing n with
  | nil => cases n <;> simp [maskSlotsAux]
  | cons v rest ih =>
    cases n with
    | zero => simp
    | succ n' =>
      simp only [maskSlotsAux, List.take_succ_cons, List.map_cons, ih n', maskFn]

theorem land_mod_left (v m k : Nat) (h : m < 2 ^ k) :
    v &&& m = (v % 2 ^ k) &&& m := by
  apply Nat.eq_of_testBit_eq
  intro i
  rw [Nat.testBit_and, Nat.testBit_and, Nat.testBit_mod_two_pow]
  by_cases hik : i < k
  · rw [decide_eq_true hik, Bool.true_and]
  · have hm : m.testBit i = false := by
      apply Nat.testBit_lt_two_pow
      calc m < 2 ^ k := h
        _ ≤ 2 ^ i := Nat.pow_le_pow_right (by norm_num) (by omega)
    rw [hm, Bool.and_false, Bool.and_false]

theorem land_mod_right (v m k : Nat) (h : v < 2 ^ k) :
    v &&& m = v &&& (m % 2 ^ k) := by
  apply Nat.eq_of_testBit_eq
  intro i
  rw [Nat.testBit_and, Nat.testBit_and, Nat.testBit_mod_two_pow]
  by_cases hik : i < k
  · rw [decide_eq_true hik, Bool.true_and]
  · have hv : v.testBit i = false := by
      apply Nat.testBit_lt_two_pow
      calc v < 2 ^ k := h
        _ ≤ 2 ^ i := Nat.pow_le_pow_right (by norm_num) (by omega)
    rw [hv, Bool.false_and, Bool.false_and]

theorem land_eq_self_of_testBit_le (z m : Nat)
    (h : ∀ i, z.testBit i = true → m.testBit i = true) : z &&& m = z := by
  apply Nat.eq_of_testBit_eq
  intro i
  rw [Nat.testBit_and]
  cases hz : z.testBit i
  · rw [Bool.false_and]
  · rw [h i hz, Bool.and_true]

theorem getSystemMask_cases (sys : String) (m : Nat)
    (hm : getSystemMask sys = some m) :
    (sys = "ps1" ∧ m = 0x001FFFFF) ∨ (sys = "psp" ∧ m = 0x01FFFFFF) ∨
    (sys = "gamecube" ∧ m = 0x17FFFFFF) ∨ (sys = "wii" ∧ m = 0x13FFFFFF) := by
  unfold getSystemMask getSystemConfig at hm
  cases hg : mapGet systemsList sys with
  | none => rw [hg] at hm; cases hm
  | some cfg =>
    rw [hg] at hm
    have hmem := mapGet_some_mem systemsList sys cfg hg
    simp only [systemsList, List.mem_cons, List.not_mem_nil, or_false,
      Prod.mk.injEq] at hmem
    rcases hmem with ⟨h1, h2⟩ | ⟨h1, h2⟩ | ⟨h1, h2⟩ | ⟨h1, h2⟩ | ⟨h1, h2⟩ |
      ⟨h1, h2⟩ | ⟨h1, h2⟩ | ⟨h1, h2⟩ | ⟨h1, h2⟩ | ⟨h1, h2⟩ <;>
      subst h1 <;> subst h2 <;> simp only [] at hm
    · cases hm
    · exact Or.inl ⟨rfl, (Option.some.inj hm).symm⟩
    · cases hm
    · exact Or.inr (Or.inl ⟨rfl, (Option.some.inj hm).symm⟩)
    · cases hm
    · cases hm
    · cases hm
    · exact Or.inr (Or.inr (Or.inl ⟨rfl, (Option.some.inj hm).symm⟩))
    · exact Or.inr (Or.inr (Or.inr ⟨rfl, (Option.some.inj hm).symm⟩))
    · cases hm

theorem validValue_ps1 (v : Nat) (h : validValue "ps1" v = true) :
    0x80000001 ≤ v ∧ v ≤ 0x801FFFFF := by
  unfold validValue at h
  rw [show getSystemConfig "ps1" = some ⟨"PlayStation 1", some 0x001FFFFF,
    .one 0x80000000 0x801FFFFF, false, false, "half", "32-bit"⟩ from rfl] at h
  split at h
  · cases h
  · simp only [decide_eq_true_eq] at h
    omega

theorem validValue_psp (v : Nat) (h : validValue "psp" v = true) :
    0x08000001 ≤ v ∧ v ≤ 0x09FFFFFF := by
  unfold validValue at h
  rw [show getSystemConfig "psp" = some ⟨"PlayStation Portable", some 0x01FFFFFF,
    .one 0x08000000 0x09FFFFFF, false, false, "quarter", "32-bit"⟩ from rfl] at h
  split at h
  · cases h
  · simp only [decide_eq_true_eq] at h
    omega

theorem validValue_gamecube (v : Nat) (h : validValue "gamecube" v = true) :
    0x80000001 ≤ v ∧ v ≤ 0x817FFFFF := by
  unfold validValue at h
  rw [show getSystemConfig "gamecube" = some ⟨"GameCube", some 0x17FFFFFF,
    .one 0x80000000 0x817FFFFF, false, false, "quarter", "32-bit BE"⟩ from rfl] at h
  split at h
  · cases h
  · simp only [decide_eq_true_eq] at h
    omega

theorem validValue_wii (v : Nat) (h : validValue "wii" v = true) :
    (0x80000001 ≤ v ∧ v ≤ 0x817FFFFF) ∨
    (0x90000001 ≤ v ∧ v ≤ 0x93FFFFFF) := by
  unfold validValue at h
  rw [show getSystemConfig "wii" = some ⟨"Wii", some 0x13FFFFFF,
    .two 0x80000000 0x817FFFFF 0x90000000 0x93FFFFFF, false, true, "wii",
    "32-bit BE"⟩ from rfl] at h
  split at h
  · cases h
  · simp only [] at h
    split at h
    · cases h
    · split at h
      · simp only [decide_eq_true_eq] at h
        exact Or.inl (by omega)
      · simp only [decide_eq_true_eq] at h
        exact Or.inr (by omega)

theorem mask_ps1 (v : Nat) (h1 : 0x80000001 ≤ v) (h2 : v ≤ 0x801FFFFF) :
    v &&& 0x001FFFFF = v - 0x80000000 := by
  rw [show (0x001FFFFF : Nat) = 2 ^ 21 - 1 from by norm_num,
    Nat.and_pow_two_sub_one_eq_mod,
    show (2 : Nat) ^ 21 = 2097152 from by norm_num]
  omega

theorem mask_psp (v : Nat) (h1 : 0x08000001 ≤ v) (h2 : v ≤ 0x09FFFFFF) :
    v &&& 0x01FFFFFF = v - 0x08000000 := by
  rw [show (0x01FFFFFF : Nat) = 2 ^ 25 - 1 from by norm_num,
    Nat.and_pow_two_sub_one_eq_mod,
    show (2 : Nat) ^ 25 = 33554432 from by norm_num]
  omega

theorem mask_gamecube (v : Nat) (h1 : 0x80000001 ≤ v) (h2 : v ≤ 0x817FFFFF) :
    v &&& 0x17FFFFFF = v - 0x80000000 := by
  rw [land_mod_left v 0x17FFFFFF 29 (by norm_num)]
  rw [show v % 2 ^ 29 = v - 0x80000000 from by
    rw [show (2 : Nat) ^ 29 = 536870912 from by norm_num]; omega]
  rw [land_mod_right _ _ 25 (by
    rw [show (2 : Nat) ^ 25 = 33554432 from by norm_num]; omega)]
  rw [show (0x17FFFFFF : Nat) % 2 ^ 25 = 2 ^ 25 - 1 from by norm_num,
    Nat.and_pow_two_sub_one_eq_mod,
    show (2 : Nat) ^ 25 = 33554432 from by norm_num]
  omega

theorem mask_wii (v : Nat)
    (h : (0x80000001 ≤ v ∧ v ≤ 0x817FFFFF) ∨ (0x90000001 ≤ v ∧ v ≤ 0x93FFFFFF)) :
    v &&& 0x13FFFFFF = v - 0x80000000 := by
  rw [land_mod_left v 0x13FFFFFF 29 (by norm_num)]
  rw [show v % 2 ^ 29 = v - 0x80000000 from by
    rw [show (2 : Nat) ^ 29 = 536870912 from by norm_num]; omega]
  rcases h with ⟨h1, h2⟩ | ⟨h1, h2⟩
  · rw [land_mod_right _ _ 25 (by
      rw [show (2 : Nat) ^ 25 = 33554432 from by norm_num]; omega)]
    rw [show (0x13FFFFFF : Nat) % 2 ^ 25 = 2 ^ 25 - 1 from by norm_num,
      Nat.and_pow_two_sub_one_eq_mod,
      show (2 : Nat) ^ 25 = 33554432 from by norm_num]
    omega
  · apply land_eq_self_of_testBit_le
    intro i hbit
    have hge := Nat.testBit_implies_ge hbit
    have hile : i ≤ 28 := by
      by_contra hc
      have : 2 ^ 29 ≤ 2 ^ i := Nat.pow_le_pow_right (by norm_num) (by omega)
      have : (536870912 : Nat) ≤ v - 0x80000000 := by
        calc (536870912 : Nat) = 2 ^ 29 := by norm_num
          _ ≤ 2 ^ i := this
          _ ≤ v - 0x80000000 := hge
      omega
    by_cases h26 : i < 26
    · have hmi : (0x13FFFFFF : Nat).testBit i = ((0x13FFFFFF : Nat) % 2 ^ 26).testBit i := by
        rw [Nat.testBit_mod_two_pow, decide_eq_true h26, Bool.true_and]
      rw [hmi, show (0x13FFFFFF : Nat) % 2 ^ 26 = 2 ^ 26 - 1 from by norm_num,
        Nat.testBit_two_pow_sub_one]
      exact decide_eq_true h26
    · by_cases h28 : i = 28
      · subst h28
        decide
      · exfalso
        have hi2728 : i = 26 ∨ i = 27 := by omega
        have hlt28 : i < 28 := by omega
        have hmod : (v - 0x80000000) % 2 ^ 28 = v - 0x80000000 - 2 ^ 28 := by
          rw [show (2 : Nat) ^ 28 = 268435456 from by norm_num]
          omega
        have hbit2 : (v - 0x80000000).testBit i =
            ((v - 0x80000000) % 2 ^ 28).testBit i := by
          rw [Nat.testBit_mod_two_pow, decide_eq_true hlt28, Bool.true_and]
        rw [hbit2, hmod] at hbit
        have : v - 0x80000000 - 2 ^ 28 < 2 ^ i := by
          have : 2 ^ 26 ≤ 2 ^ i := Nat.pow_le_pow_right (by norm_num) (by omega)
          rw [show (2 : Nat) ^ 28 = 268435456 from by norm_num]
          omega
        rw [Nat.testBit_lt_two_pow this] at hbit
        cases hbit

/-- On parser-validated values, every configured mask is injective and
never produces 0 (it subtracts the region base). -/
theorem maskFn_props (sys : String) (m : Nat) (hm : getSystemMask sys = some m) :
    (∀ v, validValue sys v = true → maskFn m v ≠ 0) ∧
    (∀ v w, validValue sys v = true → validValue sys w = true →
      maskFn m v = maskFn m w → v = w) := by
  have hchar : ∀ v, validValue sys v = true →
      ∃ base, maskFn m v = v - base ∧ base < v ∧
        (∀ w, validValue sys w = true → maskFn m w = w - base ∧ base < w) := by
    rcases getSystemMask_cases sys m hm with ⟨rfl, rfl⟩ | ⟨rfl, rfl⟩ |
      ⟨rfl, rfl⟩ | ⟨rfl, rfl⟩
    · intro v hv
      obtain ⟨h1, h2⟩ := validValue_ps1 v hv
      refine ⟨0x80000000, ?_, by omega, ?_⟩
      · rw [maskFn, if_pos (by omega), mask_ps1 v h1 h2]
      · intro w hw
        obtain ⟨g1, g2⟩ := validValue_ps1 w hw
        exact ⟨by rw [maskFn, if_pos (by omega), mask_ps1 w g1 g2], by omega⟩
    · intro v hv
      obtain ⟨h1, h2⟩ := validValue_psp v hv
      refine ⟨0x08000000, ?_, by omega, ?_⟩
      · rw [maskFn, if_pos (by omega), mask_psp v h1 h2]
      · intro w hw
        obtain ⟨g1, g2⟩ := validValue_psp w hw
        exact ⟨by rw [maskFn, if_pos (by omega), mask_psp w g1 g2], by omega⟩
    · intro v hv
      obtain ⟨h1, h2⟩ := validValue_gamecube v hv
      refine ⟨0x80000000, ?_, by omega, ?_⟩
      · rw [maskFn, if_pos (by omega), mask_gamecube v h1 h2]
      · intro w hw
        obtain ⟨g1, g2⟩ := validValue_gamecube w hw
        exact ⟨by rw [maskFn, if_pos (by omega), mask_gamecube w g1 g2], by omega⟩
    · intro v hv
      have hr := validValue_wii v hv
      refine ⟨0x80000000, ?_, by rcases hr with ⟨h1, _⟩ | ⟨h1, _⟩ <;> omega, ?_⟩
      · rw [maskFn, if_pos (by rcases hr with ⟨h1, _⟩ | ⟨h1, _⟩ <;> omega),
          mask_wii v hr]
      · intro w hw
        have hrw := validValue_wii w hw
        refine ⟨by rw [maskFn,
          if_pos (by rcases hrw with ⟨h1, _⟩ | ⟨h1, _⟩ <;> omega),
          mask_wii w hrw], by rcases hrw with ⟨h1, _⟩ | ⟨h1, _⟩ <;> omega⟩
  constructor
  · intro v hv
    obtain ⟨base, heq, hlt, _⟩ := hchar v hv
    rw [heq]
    omega
  · intro v w hv hw heq
    obtain ⟨base, heqv, hltv, hall⟩ := hchar v hv
    obtain ⟨heqw, hltw⟩ := hall w hw
    rw [heqv, heqw] at heq
    omega

/-- Classification is invariant under an injective, zero-preserving,
nonzero-preserving map of the slot values. -/
theorem classifyAux_map (f : Nat → Nat) (hf0 : f 0 = 0) (P : Nat → Prop)
    (hfnz : ∀ v, P v → f v ≠ 0)
    (hinj : ∀ v w, P v → P w → f v = f w → v = w) :
    ∀ (l : List Nat) (fv : Nat) (allSame : Bool),
      (∀ v ∈ l, v = 0 ∨ P v) → (fv = 0 ∨ P fv) →
      classifyAux (l.map f) (f fv) allSame = classifyAux l fv allSame := by
  intro l
  induction l with
  | nil => intro fv allSame _ _; rfl
  | cons v rest ih =>
    intro fv allSame hl hfv
    have hv := hl v (List.mem_cons_self _ _)
    have hrest : ∀ x ∈ rest, x = 0 ∨ P x :=
      fun x hx => hl x (List.mem_cons_of_mem _ hx)
    rcases hv with rfl | hPv
    · simp only [List.map_cons, classifyAux, hf0, if_pos rfl]
      simp
    · have hfvnz : f v ≠ 0 := hfnz v hPv
      have hvnz : v ≠ 0 := by
        intro hc
        subst hc
        exact hfvnz hf0
      simp only [List.map_cons, classifyAux, if_neg hfvnz, if_neg hvnz]
      rcases hfv with rfl | hPfv
      · rw [if_pos hf0, if_pos rfl]
        exact ih v allSame hrest (Or.inr hPv)
      · have hffvnz : f fv ≠ 0 := hfnz fv hPfv
        have hfvnz2 : fv ≠ 0 := by
          intro hc
          subst hc
          exact hffvnz hf0
        rw [if_neg hffvnz, if_neg hfvnz2]
        by_cases hne : v = fv
        · subst hne
          rw [if_neg (by simp), if_neg (by simp)]
          exact ih v allSame hrest (Or.inr hPv)
        · have hfne : f v ≠ f fv := fun hc => hne (hinj v fv hPv hPfv hc)
          rw [if_pos hfne, if_pos hne]
          exact ih fv false hrest (Or.inr hPfv)

/-- `collapse` masking does not change `_classify`'s verdict on
well-formed slot arrays. -/
theorem classify_mask_invariant (sys : String) (n : Nat) (slots : List Nat)
    (hwf : ∀ v ∈ slots, v = 0 ∨ validValue sys v = true) :
    classifySlots n (maskSlots (getSystemMask sys) n slots) =
      classifySlots n slots := by
  cases hm : getSystemMask sys with
  | none => rfl
  | some m =>
    unfold classifySlots
    unfold maskSlots
    rw [maskSlotsAux_take]
    obtain ⟨hnz, hinj⟩ := maskFn_props sys m hm
    have := classifyAux_map (maskFn m) (by simp [maskFn])
      (fun v => validValue sys v = true) hnz hinj (slots.take n) 0 true
      (fun v hv => hwf v (List.mem_of_mem_take hv)) (Or.inl rfl)
    rw [show maskFn m 0 = 0 from by simp [maskFn]] at this
    exact this

/-- The three running totals of the `getCounts` tally fold are `countP`s
of the classification over the visited entries. -/
theorem countsFold_totals (bc : Nat) (ranges : List ScanRange) :
    ∀ (m : List (Nat × List Nat)) (acc : Nat × Nat × Nat × List RangeCount),
      (m.foldl (countsStep bc ranges) acc).1 =
        acc.1 + m.countP (fun e => decide (classifySlots bc e.2 = .staticStatic)) ∧
      (m.foldl (countsStep bc ranges) acc).2.1 =
        acc.2.1 + m.countP (fun e => decide (classifySlots bc e.2 = .staticNode)) ∧
      (m.foldl (countsStep bc ranges) acc).2.2.1 =
        acc.2.2.1 + m.countP (fun e => decide (classifySlots bc e.2 = .dynamicNode)) := by
  intro m
  induction m with
  | nil => intro acc; simp
  | cons e rest ih =>
    intro acc
    obtain ⟨ih1, ih2, ih3⟩ := ih (countsStep bc ranges acc e)
    simp only [List.foldl_cons, ih1, ih2, ih3, List.countP_cons]
    have hstep : (countsStep bc ranges acc e).1 =
        acc.1 + (if classifySlots bc e.2 = .staticStatic then 1 else 0) ∧
        (countsStep bc ranges acc e).2.1 =
        acc.2.1 + (if classifySlots bc e.2 = .staticNode then 1 else 0) ∧
        (countsStep bc ranges acc e).2.2.1 =
        acc.2.2.1 + (if classifySlots bc e.2 = .dynamicNode then 1 else 0) := by
      simp only [countsStep]
      cases hcls : classifySlots bc e.2 <;> simp [hcls]
    obtain ⟨h1, h2, h3⟩ := hstep
    refine ⟨?_, ?_, ?_⟩ <;>
      · first
        | rw [h1] | rw [h2] | rw [h3]
        cases hcls : classifySlots bc e.2 <;> simp [hcls] <;> omega

/-- The three partition sizes of the `collapse` fold are `countP`s of the
post-mask classification over the visited entries. -/
theorem collapseFold_lengths (mask : Option Nat) (n : Nat) :
    ∀ (m : List (Nat × List Nat)) (acc : CollapseOut),
      (m.foldl (collapseStep mask n) acc).staticStatics.length =
        acc.staticStatics.length +
          m.countP (fun e => decide (classifySlots n (maskSlots mask n e.2) = .staticStatic)) ∧
      (m.foldl (collapseStep mask n) acc).staticNodes.length =
        acc.staticNodes.length +
          m.countP (fun e => decide (classifySlots n (maskSlots mask n e.2) = .staticNode)) ∧
      (m.foldl (collapseStep mask n) acc).dynamicNodes.length =
        acc.dynamicNodes.length +
          m.countP (fun e => decide (classifySlots n (maskSlots mask n e.2) = .dynamicNode)) := by
  intro m
  induction m with
  | nil => intro acc; simp
  | cons e rest ih =>
    intro acc
    obtain ⟨ih1, ih2, ih3⟩ := ih (collapseStep mask n acc e)
    simp only [List.foldl_cons, ih1, ih2, ih3, List.countP_cons]
    refine ⟨?_, ?_, ?_⟩ <;>
      · simp only [collapseStep]
        cases hcls : classifySlots n (maskSlots mask n e.2) <;>
          simp [hcls] <;> omega

/-- C4 (confirmed).  On every preprocessor state reachable by `setSystem`
followed by parser-validated `addBatch` / `removeBatch` calls, the
`staticStatics`, `staticNodes` and `dynamicNodes` totals of `getCounts()`
equal the sizes of the three partitions produced by `collapse()` from the
same state: on validated (hence region-based) values the system mask
subtracts a constant base, so it is injective and zero/nonzero-preserving
and `_classify` gives the same verdict before and after masking. -/
theorem getCounts_eq_collapse (p : Prep) (hr : Reachable p) :
    (getCounts p).staticStatics = (collapse p).staticStatics.length ∧
    (getCounts p).staticNodes = (collapse p).staticNodes.length ∧
    (getCounts p).dynamicNodes = (collapse p).dynamicNodes.length := by
  obtain ⟨-, -, hents⟩ := reachable_wf p hr
  have hcls : ∀ e ∈ p.nodeMap,
      classifySlots p.batchCount
          (maskSlots (getSystemMask p.systemId) p.batchCount e.2) =
        classifySlots p.batchCount e.2 := by
    intro e he
    exact classify_mask_invariant p.systemId p.batchCount e.2 (hents e he).2.1
  have hcountP : ∀ c : NodeClass,
      p.nodeMap.countP (fun e => decide (classifySlots p.batchCount
          (maskSlots (getSystemMask p.systemId) p.batchCount e.2) = c)) =
      p.nodeMap.countP (fun e => decide (classifySlots p.batchCount e.2 = c)) := by
    intro c
    apply List.countP_congr
    intro e he
    rw [hcls e he]
  obtain ⟨hg1, hg2, hg3⟩ := countsFold_totals p.batchCount
    (getRanges (if p.systemId = "" then "n64" else p.systemId)) p.nodeMap
    (0, 0, 0, (getRanges (if p.systemId = "" then "n64" else p.systemId)).map
      (fun r => (⟨r.label, r.min, r.max, 0, 0⟩ : RangeCount)))
  obtain ⟨hc1, hc2, hc3⟩ := collapseFold_lengths (getSystemMask p.systemId)
    p.batchCount p.nodeMap ⟨[], [], []⟩
  refine ⟨?_, ?_, ?_⟩
  · show (p.nodeMap.foldl (countsStep p.batchCount _) _).1 = _
    rw [hg1]
    show _ = (p.nodeMap.foldl (collapseStep _ _) _).staticStatics.length
    rw [hc1, hcountP]
    simp
  · show (p.nodeMap.foldl (countsStep p.batchCount _) _).2.1 = _
    rw [hg2]
    show _ = (p.nodeMap.foldl (collapseStep _ _) _).staticNodes.length
    rw [hc2, hcountP]
    simp
  · show (p.nodeMap.foldl (countsStep p.batchCount _) _).2.2.1 = _
    rw [hg3]
    show _ = (p.nodeMap.foldl (collapseStep _ _) _).dynamicNodes.length
    rw [hc3, hcountP]
    simp

/-- Witness for C4 at a concrete reachable state: `setSystem('n64')`,
one validated batch, evaluated end to end. -/
theorem getCounts_eq_collapse_witness :
    (getCounts (addBatch (initPrep "n64")
        ⟨[0x80000010, 0x80000020], [0x80000100, 0x80000200]⟩)).staticStatics =
      (collapse (addBatch (initPrep "n64")
        ⟨[0x80000010, 0x80000020], [0x80000100, 0x80000200]⟩)).staticStatics.length ∧
    (getCounts (addBatch (initPrep "n64")
        ⟨[0x80000010, 0x80000020], [0x80000100, 0x80000200]⟩)).staticNodes =
      (collapse (addBatch (initPrep "n64")
        ⟨[0x80000010, 0x80000020], [0x80000100, 0x80000200]⟩)).staticNodes.length ∧
    (getCounts (addBatch (initPrep "n64")
        ⟨[0x80000010, 0x80000020], [0x80000100, 0x80000200]⟩)).dynamicNodes =
      (collapse (addBatch (initPrep "n64")
        ⟨[0x80000010, 0x80000020], [0x80000100, 0x80000200]⟩)).dynamicNodes.length :=
  getCounts_eq_collapse _
    (Reachable.add (Reachable.init "n64" (by decide))
      ⟨[0x80000010, 0x80000020], [0x80000100, 0x80000200]⟩
      (by decide) ⟨by decide, by decide⟩)

/-! ## C7: removing and re-adding a batch preserves classification counts -/

/-- `_classify`'s verdict depends only on the set of visible slot values:
DynamicNode iff some visible slot is 0, StaticStatic iff all visible
values agree, StaticNode otherwise. -/
def specClassify (l : List Nat) : NodeClass :=
  if (0 : Nat) ∈ l then .dynamicNode
  else if l.all (fun x => l.all (fun y => x == y)) then .staticStatic
  else .staticNode

theorem classifyAux_nz : ∀ (l : List Nat) (fv : Nat), fv ≠ 0 → ∀ allSame : Bool,
    classifyAux l fv allSame =
      if (0 : Nat) ∈ l then .dynamicNode
      else if allSame = true ∧ ∀ v ∈ l, v = fv then .staticStatic
      else .staticNode := by
  intro l
  induction l with
  | nil =>
    intro fv hfv allSame
    cases allSame <;> simp [classifyAux]
  | cons v rest ih =>
    intro fv hfv allSame
    by_cases hv : v = 0
    · subst hv
      simp [classifyAux]
    · rw [classifyAux, if_neg hv, if_neg hfv]
      have hmem : ((0 : Nat) ∈ v :: rest) ↔ ((0 : Nat) ∈ rest) := by
        rw [List.mem_cons]
        constructor
        · rintro (h | h)
          · exact absurd h.symm hv
          · exact h
        · exact Or.inr
      by_cases hvf : v = fv
      · subst hvf
        rw [if_neg (by simp)]
        rw [ih v hv allSame]
        by_cases h0 : (0 : Nat) ∈ rest
        · rw [if_pos h0, if_pos (hmem.mpr h0)]
        · rw [if_neg h0, if_neg (fun hc => h0 (hmem.mp hc))]
          have hcond : (allSame = true ∧ ∀ x ∈ rest, x = v) ↔
              (allSame = true ∧ ∀ x ∈ v :: rest, x = v) := by
            constructor
            · rintro ⟨h1, h2⟩
              exact ⟨h1, fun x hx => by
                rcases List.mem_cons.mp hx with rfl | hx
                · rfl
                · exact h2 x hx⟩
            · rintro ⟨h1, h2⟩
              exact ⟨h1, fun x hx => h2 x (List.mem_cons_of_mem _ hx)⟩
          by_cases hc : allSame = true ∧ ∀ x ∈ rest, x = v
          · rw [if_pos hc, if_pos (hcond.mp hc)]
          · rw [if_neg hc, if_neg (fun hcc => hc (hcond.mpr hcc))]
      · rw [if_pos hvf]
        rw [ih fv hfv false]
        by_cases h0 : (0 : Nat) ∈ rest
        · rw [if_pos h0, if_pos (hmem.mpr h0)]
        · rw [if_neg h0, if_neg (fun hc => h0 (hmem.mp hc))]
          rw [if_neg (by simp), if_neg ?_]
          rintro ⟨-, hall⟩
          exact hvf (hall v (List.mem_cons_self _ _))

theorem classifySlots_eq_spec (n : Nat) (slots : List Nat) :
    classifySlots n slots = specClassify (slots.take n) := by
  unfold classifySlots specClassify
  cases htake : slots.take n with
  | nil => simp [classifyAux]
  | cons v rest =>
    rw [classifyAux]
    by_cases hv : v = 0
    · subst hv
      rw [if_pos rfl, if_pos (List.mem_cons_self _ _)]
    · rw [if_neg hv, if_pos rfl]
      rw [classifyAux_nz rest v hv true]
      have hmem : ((0 : Nat) ∈ v :: rest) ↔ ((0 : Nat) ∈ rest) := by
        rw [List.mem_cons]
        constructor
        · rintro (h | h)
          · exact absurd h.symm hv
          · exact h
        · exact Or.inr
      by_cases h0 : (0 : Nat) ∈ rest
      · rw [if_pos h0, if_pos (hmem.mpr h0)]
      · rw [if_neg h0, if_neg (fun hc => h0 (hmem.mp hc))]
        have hcond : (True ∧ ∀ x ∈ rest, x = v) ↔
            ((v :: rest).all (fun x => (v :: rest).all (fun y => x == y)) = true) := by
          simp only [List.all_eq_true, beq_iff_eq, true_and]
          constructor
          · intro h x hx y hy
            have hxv : x = v := by
              rcases List.mem_cons.mp hx with rfl | hx
              · rfl
              · exact h x hx
            have hyv : y = v := by
              rcases List.mem_cons.mp hy with rfl | hy
              · rfl
              · exact h y hy
            rw [hxv, hyv]
          · intro h x hx
            exact h x (List.mem_cons_of_mem _ hx) v (List.mem_cons_self _ _)
        by_cases hc : True ∧ ∀ x ∈ rest, x = v
        · rw [if_pos (by simpa using hc), if_pos (hcond.mp hc)]
        · rw [if_neg (by simpa using hc), if_neg ?_]
          intro hcc
          exact hc (hcond.mpr hcc)

theorem specClassify_ext (l₁ l₂ : List Nat) (h : ∀ x, x ∈ l₁ ↔ x ∈ l₂) :
    specClassify l₁ = specClassify l₂ := by
  unfold specClassify
  by_cases h0 : (0 : Nat) ∈ l₁
  · rw [if_pos h0, if_pos ((h 0).mp h0)]
  · rw [if_neg h0, if_neg (fun hc => h0 ((h 0).mpr hc))]
    have hall : (l₁.all fun x => l₁.all fun y => x == y) = true ↔
        (l₂.all fun x => l₂.all fun y => x == y) = true := by
      simp only [List.all_eq_true, beq_iff_eq]
      constructor
      · intro hh x hx y hy
        exact hh x ((h x).mpr hx) y ((h y).mpr hy)
      · intro hh x hx y hy
        exact hh x ((h x).mp hx) y ((h y).mp hy)
    by_cases ha : (l₁.all fun x => l₁.all fun y => x == y) = true
    · rw [if_pos ha, if_pos (hall.mp ha)]
    · rw [if_neg ha, if_neg (fun hc => ha (hall.mpr hc))]

/-- On a configured system a parser-validated value is never 0: single
ranges demand `value ≥ min + 1` and the `wii` dual range demands bit 31. -/
theorem validValue_zero_all : ∀ e ∈ systemsList, validValue e.1 0 = false := by
  decide

theorem validValue_pos (sys : String) (v : Nat) (hs : isValidSystem sys = true)
    (hv : validValue sys v = true) : v ≠ 0 := by
  intro h0
  subst h0
  cases hcfg : getSystemConfig sys with
  | none =>
    rw [isValidSystem, hcfg] at hs
    simp at hs
  | some cfg =>
    have hmem := mapGet_some_mem systemsList sys cfg hcfg
    have hz : validValue sys 0 = false := validValue_zero_all (sys, cfg) hmem
    rw [hz] at hv
    simp at hv

/-- Last surviving write for an address within one row list. -/
def lastVal (rs : List (Nat × Nat)) (a : Nat) : Option Nat :=
  rs.foldl (fun acc row => if row.1 = a then some row.2 else acc) none

theorem lastVal_foldl (a : Nat) : ∀ (rs : List (Nat × Nat)) (acc : Option Nat),
    rs.foldl (fun acc row => if row.1 = a then some row.2 else acc) acc =
      match lastVal rs a with
      | none => acc
      | some v => some v := by
  intro rs
  induction rs with
  | nil => intro acc; rfl
  | cons row rest ih =>
    intro acc
    rw [List.foldl_cons]
    rw [ih]
    show _ = match rest.foldl _ (if row.1 = a then some row.2 else none) with
      | none => acc | some v => some v
    rw [ih]
    cases hlv : lastVal rest a
    · by_cases hra : row.1 = a <;> simp [hra]
    · rfl

theorem lastVal_mem (a v : Nat) : ∀ (rs : List (Nat × Nat)),
    lastVal rs a = some v → (a, v) ∈ rs := by
  intro rs
  induction rs with
  | nil => intro h; simp [lastVal] at h
  | cons row rest ih =>
    intro h
    rw [show lastVal (row :: rest) a =
        rest.foldl (fun acc r => if r.1 = a then some r.2 else acc)
          (if row.1 = a then some row.2 else none) from rfl] at h
    rw [lastVal_foldl] at h
    cases hlv : lastVal rest a with
    | some w =>
      rw [hlv] at h
      exact List.mem_cons_of_mem _ (ih (hlv.trans (by injection h with h; rw [h])))
    | none =>
      rw [hlv] at h
      by_cases hra : row.1 = a
      · rw [if_pos hra] at h
        injection h with h
        have : row = (a, v) := by
          obtain ⟨r1, r2⟩ := row
          simp only at hra h
          rw [hra, h]
        rw [← this]
        exact List.mem_cons_self _ _
      · rw [if_neg hra] at h
        exact absurd h (by simp)

/-- The slot write performed for one surviving row. -/
def slotWrite (bc : Nat) (m : List (Nat × List Nat)) (row : Nat × Nat) :
    List (Nat × List Nat) :=
  mapSet m row.1
    (((mapGet m row.1).getD (List.replicate maxBatches 0)).set bc row.2)

theorem addRow_eq_slotWrite (mask : Option Nat) (vt : List Nat) (bc : Nat)
    (m : List (Nat × List Nat)) (row : Nat × Nat) :
    addRow mask vt bc m row =
      if rowSurvives mask vt row then slotWrite bc m row else m := by
  unfold addRow slotWrite
  by_cases hs : rowSurvives mask vt row
  · rw [if_pos hs, if_pos hs]
    cases h : mapGet m row.1 <;> rfl
  · rw [if_neg hs, if_neg hs]

theorem foldl_addRow (mask : Option Nat) (vt : List Nat) (bc : Nat) :
    ∀ (rows : List (Nat × Nat)) (m : List (Nat × List Nat)),
    rows.foldl (addRow mask vt bc) m =
      (rows.filter (rowSurvives mask vt)).foldl (slotWrite bc) m := by
  intro rows
  induction rows with
  | nil => intro m; rfl
  | cons row rest ih =>
    intro m
    rw [List.foldl_cons, addRow_eq_slotWrite, List.filter_cons]
    by_cases hs : rowSurvives mask vt row
    · rw [if_pos hs, if_pos hs, List.foldl_cons, ih]
    · rw [if_neg hs, if_neg hs, ih]

theorem foldl_slotWrite_lookup (bc : Nat) : ∀ (rs : List (Nat × Nat))
    (m : List (Nat × List Nat)) (a : Nat),
    mapGet (rs.foldl (slotWrite bc) m) a =
      match lastVal rs a with
      | none => mapGet m a
      | some v =>
        some (((mapGet m a).getD (List.replicate maxBatches 0)).set bc v) := by
  intro rs
  induction rs with
  | nil => intro m a; rfl
  | cons row rest ih =>
    intro m a
    rw [List.foldl_cons, ih]
    have hlv : lastVal (row :: rest) a =
        match lastVal rest a with
        | none => if row.1 = a then some row.2 else none
        | some v => some v := by
      rw [show lastVal (row :: rest) a =
          rest.foldl (fun acc r => if r.1 = a then some r.2 else acc)
            (if row.1 = a then some row.2 else none) from rfl]
      rw [lastVal_foldl]
    rw [hlv]
    have hget : mapGet (slotWrite bc m row) a =
        if a = row.1 then
          some (((mapGet m row.1).getD (List.replicate maxBatches 0)).set bc row.2)
        else mapGet m a := by
      unfold slotWrite
      rw [mapGet_mapSet]
    cases hrest : lastVal rest a with
    | none =>
      by_cases hra : row.1 = a
      · subst hra
        rw [if_pos rfl] at hget
        rw [hget, if_pos rfl]
      · rw [if_neg (fun hc : a = row.1 => hra hc.symm)] at hget
        rw [hget, if_neg hra]
    | some v =>
      by_cases hra : row.1 = a
      · subst hra
        rw [if_pos rfl] at hget
        rw [hget]
        simp only [Option.getD_some, List.set_set]
      · rw [if_neg (fun hc : a = row.1 => hra hc.symm)] at hget
        rw [hget]

/-- The rows of a batch that survive `addBatch`'s VTable and proximity
filters. -/
def survRows (mask : Option Nat) (bt : ParsedBatch) : List (Nat × Nat) :=
  (bt.addresses.zip bt.values).filter (rowSurvives mask (vtableValues bt.values))

/-- The value `addBatch` finally stores for address `a` out of one batch
(`none` when no surviving row has that address). -/
def batchVal (mask : Option Nat) (bt : ParsedBatch) (a : Nat) : Option Nat :=
  lastVal (survRows mask bt) a

theorem batchVal_valid (sys : String) (bt : ParsedBatch) (a v : Nat)
    (hv : ValidBatch sys bt) (h : batchVal (getSystemMask sys) bt a = some v) :
    validValue sys v = true := by
  have hmem := lastVal_mem a v _ h
  have hzip : (a, v) ∈ bt.addresses.zip bt.values := List.mem_of_mem_filter hmem
  exact hv.2 v (List.of_mem_zip hzip).2

theorem addBatch_lookup (p : Prep) (bt : ParsedBatch) (a : Nat) :
    mapGet (addBatch p bt).nodeMap a =
      match batchVal (getSystemMask p.systemId) bt a with
      | none => mapGet p.nodeMap a
      | some v =>
        some (((mapGet p.nodeMap a).getD
          (List.replicate maxBatches 0)).set p.batchCount v) := by
  show mapGet ((bt.addresses.zip bt.values).foldl
    (addRow (getSystemMask p.systemId) (vtableValues bt.values) p.batchCount)
    p.nodeMap) a = _
  rw [foldl_addRow, foldl_slotWrite_lookup]
  rfl

theorem mapGet_map_shift (i : Nat) : ∀ (m : List (Nat × List Nat)) (a : Nat),
    mapGet (m.map (fun e => (e.1, shiftSlots i e.2))) a =
      (mapGet m a).map (shiftSlots i) := by
  intro m
  induction m with
  | nil => intro a; rfl
  | cons e t ih =>
    intro a
    obtain ⟨k, s⟩ := e
    by_cases hk : k = a
    · subst hk
      simp [mapGet]
    · simp only [List.map_cons, mapGet, if_neg hk]
      exact ih a

theorem mapGet_filter (q : Nat × List Nat → Bool) : ∀ (m : List (Nat × List Nat)),
    (m.map Prod.fst).Nodup → ∀ (a : Nat),
    mapGet (m.filter q) a =
      match mapGet m a with
      | none => none
      | some s => if q (a, s) then some s else none := by
  intro m
  induction m with
  | nil => intro _ a; rfl
  | cons e t ih =>
    intro hnd a
    obtain ⟨k, s⟩ := e
    have hknotin : k ∉ t.map Prod.fst := by
      rw [List.map_cons, List.nodup_cons] at hnd
      exact hnd.1
    have hndt : (t.map Prod.fst).Nodup := by
      rw [List.map_cons, List.nodup_cons] at hnd
      exact hnd.2
    have hcons : mapGet ((k, s) :: t) a = if k = a then some s else mapGet t a :=
      rfl
    rw [List.filter_cons, hcons]
    by_cases hk : k = a
    · subst hk
      rw [if_pos rfl]
      by_cases hq : q (k, s) = true
      · rw [if_pos hq]
        have hcons2 : mapGet ((k, s) :: t.filter q) k =
            if k = k then some s else mapGet (t.filter q) k := rfl
        rw [hcons2, if_pos rfl]
        show some s = if q (k, s) = true then some s else none
        rw [if_pos hq]
      · rw [if_neg hq]
        have hnone : mapGet (t.filter q) k = none := by
          rw [mapGet_none_iff]
          intro hmemf
          apply hknotin
          obtain ⟨e, he, heq⟩ := List.mem_map.mp hmemf
          exact List.mem_map.mpr ⟨e, List.mem_of_mem_filter he, heq⟩
        rw [hnone]
        show none = if q (k, s) = true then some s else none
        rw [if_neg hq]
    · rw [if_neg hk]
      by_cases hq : q (k, s) = true
      · rw [if_pos hq]
        have hcons2 : mapGet ((k, s) :: t.filter q) a =
            if k = a then some s else mapGet (t.filter q) a := rfl
        rw [hcons2, if_neg hk, ih hndt a]
      · rw [if_neg hq, ih hndt a]

theorem removeBatch_lookup (p : Prep) (i : Nat) (a : Nat)
    (hnd : (p.nodeMap.map Prod.fst).Nodup) :
    mapGet (removeBatch p i).nodeMap a =
      match mapGet p.nodeMap a with
      | none => none
      | some s =>
        if ((shiftSlots i s).take (p.batchCount - 1)).any (fun v => decide (v ≠ 0))
        then some (shiftSlots i s) else none := by
  have hndm : ((p.nodeMap.map (fun e => (e.1, shiftSlots i e.2))).map Prod.fst).Nodup := by
    rw [List.map_map]
    exact hnd
  show mapGet ((p.nodeMap.map (fun e => (e.1, shiftSlots i e.2))).filter
    (fun e => (e.2.take (p.batchCount - 1)).any (fun v => decide (v ≠ 0)))) a = _
  rw [mapGet_filter _ _ hndm a, mapGet_map_shift]
  cases mapGet p.nodeMap a <;> rfl

/-- `setSystem(sys)` followed by `addBatch` for each batch in order. -/
def buildState (sys : String) (bs : List ParsedBatch) : Prep :=
  bs.foldl addBatch (initPrep sys)

theorem buildState_append (sys : String) (bs : List ParsedBatch)
    (bt : ParsedBatch) :
    buildState sys (bs ++ [bt]) = addBatch (buildState sys bs) bt := by
  unfold buildState
  rw [List.foldl_append]
  rfl

theorem foldl_addBatch_systemId : ∀ (bs : List ParsedBatch) (p : Prep),
    (bs.foldl addBatch p).systemId = p.systemId := by
  intro bs
  induction bs with
  | nil => intro p; rfl
  | cons bt rest ih =>
    intro p
    rw [List.foldl_cons, ih]
    rfl

theorem foldl_addBatch_batchCount : ∀ (bs : List ParsedBatch) (p : Prep),
    (bs.foldl addBatch p).batchCount = p.batchCount + bs.length := by
  intro bs
  induction bs with
  | nil => intro p; rfl
  | cons bt rest ih =>
    intro p
    rw [List.foldl_cons, ih]
    show p.batchCount + 1 + rest.length = _
    rw [List.length_cons]
    omega

theorem buildState_systemId (sys : String) (bs : List ParsedBatch) :
    (buildState sys bs).systemId = sys :=
  foldl_addBatch_systemId bs (initPrep sys)

theorem buildState_batchCount (sys : String) (bs : List ParsedBatch) :
    (buildState sys bs).batchCount = bs.length := by
  unfold buildState
  rw [foldl_addBatch_batchCount]
  simp [initPrep]

theorem buildState_reachable (sys : String) : ∀ (bs : List ParsedBatch),
    isValidSystem sys = true → (∀ bt ∈ bs, ValidBatch sys bt) →
    bs.length ≤ maxBatches → Reachable (buildState sys bs) := by
  intro bs
  induction bs using List.reverseRecOn with
  | nil => intro hsys _ _; exact Reachable.init sys hsys
  | append_singleton bs bt ih =>
    intro hsys hv hlen
    rw [buildState_append]
    refine Reachable.add (ih hsys ?_ ?_) bt ?_ ?_
    · intro b hb
      exact hv b (List.mem_append_left _ hb)
    · rw [List.length_append] at hlen
      simpa using Nat.le_of_succ_le (by simpa using hlen)
    · rw [buildState_batchCount]
      rw [List.length_append] at hlen
      simpa using hlen
    · rw [buildState_systemId]
      exact hv bt (List.mem_append_right _ (List.mem_singleton_self bt))

theorem getD_replicate_zero (k b : Nat) :
    (List.replicate k (0 : Nat)).getD b 0 = 0 := by
  rw [List.getD_eq_getElem?_getD, List.getElem?_replicate]
  by_cases hb : b < k
  · rw [if_pos hb]
    rfl
  · rw [if_neg hb]
    rfl

/-- Per-address characterization of a pure `addBatch`-built preprocessor:
the entry exists iff some batch stored a surviving row, and visible slot
`b` holds exactly batch `b`'s surviving value (0 when none). -/
theorem buildState_lookup (sys : String) : ∀ (bs : List ParsedBatch),
    bs.length ≤ maxBatches → ∀ (a : Nat),
    match mapGet (buildState sys bs).nodeMap a with
    | none => ∀ b < bs.length,
        batchVal (getSystemMask sys) (bs.getD b ⟨[], []⟩) a = none
    | some s => s.length = maxBatches ∧
        (∃ b, b < bs.length ∧
          batchVal (getSystemMask sys) (bs.getD b ⟨[], []⟩) a ≠ none) ∧
        ∀ b, s.getD b 0 =
          if b < bs.length then
            (batchVal (getSystemMask sys) (bs.getD b ⟨[], []⟩) a).getD 0
          else 0 := by
  intro bs
  induction bs using List.reverseRecOn with
  | nil =>
    intro _ a
    intro b hb
    simp at hb
  | append_singleton bs bt ih =>
    intro hlen a
    have hlen' : bs.length ≤ maxBatches := by
      rw [List.length_append] at hlen
      omega
    have hn : bs.length < maxBatches := by
      rw [List.length_append] at hlen
      simp at hlen
      omega
    have iha := ih hlen' a
    have hgetD_lt : ∀ b, b < bs.length →
        (bs ++ [bt]).getD b ⟨[], []⟩ = bs.getD b ⟨[], []⟩ := by
      intro b hb
      rw [List.getD_eq_getElem?_getD, List.getD_eq_getElem?_getD,
        List.getElem?_append_left hb]
    have hgetD_self : (bs ++ [bt]).getD bs.length ⟨[], []⟩ = bt := by
      rw [List.getD_eq_getElem?_getD,
        List.getElem?_append_right (Nat.le_refl _)]
      simp
    have hlenapp : (bs ++ [bt]).length = bs.length + 1 := by
      simp
    rw [buildState_append, addBatch_lookup, buildState_systemId,
      buildState_batchCount]
    cases hbv : batchVal (getSystemMask sys) bt a with
    | none =>
      cases hA : mapGet (buildState sys bs).nodeMap a with
      | none =>
        rw [hA] at iha
        intro b hb
        rw [hlenapp] at hb
        by_cases hblt : b < bs.length
        · rw [hgetD_lt b hblt]
          exact iha b hblt
        · have hbeq : b = bs.length := by omega
          rw [hbeq, hgetD_self]
          exact hbv
      | some s =>
        rw [hA] at iha
        obtain ⟨hs1, ⟨b₀, hb₀, hne₀⟩, hslot⟩ := iha
        refine ⟨hs1, ⟨b₀, by rw [hlenapp]; omega, by rw [hgetD_lt b₀ hb₀]; exact hne₀⟩, ?_⟩
        intro b
        rw [hslot b, hlenapp]
        by_cases hblt : b < bs.length
        · rw [if_pos hblt, if_pos (by omega), hgetD_lt b hblt]
        · rw [if_neg hblt]
          by_cases hbeq : b = bs.length
          · rw [if_pos (by omega), hbeq, hgetD_self, hbv]
            rfl
          · rw [if_neg (by omega)]
    | some v =>
      cases hA : mapGet (buildState sys bs).nodeMap a with
      | none =>
        rw [hA] at iha
        refine ⟨?_, ⟨bs.length, by rw [hlenapp]; omega,
          by rw [hgetD_self, hbv]; simp⟩, ?_⟩
        · simp only [Option.getD_none]
          rw [List.length_set, List.length_replicate]
        · intro b
          simp only [Option.getD_none]
          rw [getD_set]
          rw [List.length_replicate]
          by_cases hbn : b = bs.length
          · rw [if_pos ⟨hbn, hn⟩, hbn, hlenapp, if_pos (by omega), hgetD_self,
              hbv]
            rfl
          · rw [if_neg (by tauto), getD_replicate_zero, hlenapp]
            by_cases hblt : b < bs.length
            · rw [if_pos (by omega), hgetD_lt b hblt, iha b hblt]
              rfl
            · rw [if_neg (by omega)]
      | some s =>
        rw [hA] at iha
        obtain ⟨hs1, ⟨b₀, hb₀, hne₀⟩, hslot⟩ := iha
        refine ⟨by simp only [Option.getD_some]; rw [List.length_set]; exact hs1,
          ⟨bs.length, by rw [hlenapp]; omega,
            by rw [hgetD_self, hbv]; simp⟩, ?_⟩
        intro b
        simp only [Option.getD_some]
        rw [getD_set, hs1, hlenapp]
        by_cases hbn : b = bs.length
        · rw [if_pos ⟨hbn, hn⟩, hbn, if_pos (by omega), hgetD_self, hbv]
          rfl
        · rw [if_neg (by tauto), hslot b]
          by_cases hblt : b < bs.length
          · rw [if_pos hblt, if_pos (by omega), hgetD_lt b hblt]
          · rw [if_neg hblt, if_neg (by omega)]

theorem mem_iff_getD (L : List Nat) (x : Nat) :
    x ∈ L ↔ ∃ b, b < L.length ∧ L.getD b 0 = x := by
  rw [List.mem_iff_getElem]
  constructor
  · rintro ⟨b, hb, hbx⟩
    exact ⟨b, hb, by rw [List.getD_eq_getElem _ _ hb]; exact hbx⟩
  · rintro ⟨b, hb, hbx⟩
    exact ⟨b, hb, by rw [List.getD_eq_getElem _ _ hb] at hbx; exact hbx⟩

theorem mem_take_getD (l : List Nat) (n : Nat) (hn : n ≤ l.length) (x : Nat) :
    x ∈ l.take n ↔ ∃ b, b < n ∧ l.getD b 0 = x := by
  rw [mem_iff_getD]
  have hlen : (l.take n).length = n := by
    rw [List.length_take]
    omega
  constructor
  · rintro ⟨b, hb, hbx⟩
    rw [hlen] at hb
    refine ⟨b, hb, ?_⟩
    rw [← hbx, List.getD_eq_getElem?_getD, List.getD_eq_getElem?_getD,
      List.getElem?_take_of_lt hb]
  · rintro ⟨b, hb, hbx⟩
    refine ⟨b, by rw [hlen]; exact hb, ?_⟩
    rw [List.getD_eq_getElem?_getD, List.getElem?_take_of_lt hb,
      ← List.getD_eq_getElem?_getD, hbx]

theorem getD_mem_of_lt {α : Type} (l : List α) (b : Nat) (d : α)
    (h : b < l.length) : l.getD b d ∈ l := by
  rw [List.getD_eq_getElem _ _ h]
  exact List.mem_iff_getElem.mpr ⟨b, h, rfl⟩

/-- Moving the slot at index `i` to the last visible position is a
reindexing that preserves the set of visible slot values. -/
theorem mem_take_reindex (n i : Nat) (hi : i < n) (f : Nat → Nat)
    (sA sB : List Nat) (hA : n ≤ sA.length) (hB : n ≤ sB.length)
    (hAg : ∀ b, b < n → sA.getD b 0 = f b)
    (hBg : ∀ b, b < n → sB.getD b 0 =
      if b = n - 1 then f i else f (if b < i then b else b + 1)) :
    ∀ x, x ∈ sB.take n ↔ x ∈ sA.take n := by
  intro x
  rw [mem_take_getD _ _ hB x, mem_take_getD _ _ hA x]
  constructor
  · rintro ⟨b, hb, hbx⟩
    rw [hBg b hb] at hbx
    by_cases hbn : b = n - 1
    · rw [if_pos hbn] at hbx
      exact ⟨i, hi, by rw [hAg i hi]; exact hbx⟩
    · rw [if_neg hbn] at hbx
      by_cases hbi : b < i
      · rw [if_pos hbi] at hbx
        exact ⟨b, by omega, by rw [hAg b (by omega)]; exact hbx⟩
      · rw [if_neg hbi] at hbx
        exact ⟨b + 1, by omega, by rw [hAg (b + 1) (by omega)]; exact hbx⟩
  · rintro ⟨b', hb', hbx⟩
    rw [hAg b' hb'] at hbx
    by_cases hbi' : b' = i
    · refine ⟨n - 1, by omega, ?_⟩
      rw [hBg (n - 1) (by omega), if_pos rfl, ← hbi']
      exact hbx
    · by_cases hlt : b' < i
      · refine ⟨b', by omega, ?_⟩
        rw [hBg b' hb', if_neg (by omega), if_pos hlt]
        exact hbx
      · refine ⟨b' - 1, by omega, ?_⟩
        rw [hBg (b' - 1) (by omega), if_neg (by omega), if_neg (by omega)]
        have hb1 : b' - 1 + 1 = b' := by omega
        rw [hb1]
        exact hbx

/-- `countP` over a uniquely-keyed assoc list is `countP` over its key
list of the lookup-composed predicate. -/
theorem countP_assoc (g : Nat × List Nat → Bool) : ∀ (m : List (Nat × List Nat)),
    (m.map Prod.fst).Nodup →
    m.countP g = (m.map Prod.fst).countP
      (fun a => g (a, (mapGet m a).getD [])) := by
  intro m
  induction m with
  | nil => intro _; rfl
  | cons e t ih =>
    intro hnd
    obtain ⟨k, s⟩ := e
    have hknotin : k ∉ t.map Prod.fst := by
      rw [List.map_cons, List.nodup_cons] at hnd
      exact hnd.1
    have hndt : (t.map Prod.fst).Nodup := by
      rw [List.map_cons, List.nodup_cons] at hnd
      exact hnd.2
    rw [List.map_cons, List.countP_cons, List.countP_cons, ih hndt]
    congr 1
    · apply List.countP_congr
      intro a ha
      have hak : ¬ (k = a) := fun h => hknotin (h ▸ ha)
      have hstep : mapGet ((k, s) :: t) a = mapGet t a := by
        show (if k = a then some s else mapGet t a) = _
        rw [if_neg hak]
      simp only [hstep]
    · have hk : mapGet ((k, s) :: t) k = some s := by
        show (if k = k then some s else mapGet t k) = some s
        rw [if_pos rfl]
      simp only [hk, Option.getD_some]

/-- Per-address correspondence between the never-removed state and the
remove-then-re-add state: same key set, and the re-added batch's slot
simply moves from position `i` to the last visible position, preserving
the set of visible slot values. -/
theorem remove_readd_lookup (sys : String) (bs : List ParsedBatch) (i : Nat)
    (hsys : isValidSystem sys = true)
    (hv : ∀ bt ∈ bs, ValidBatch sys bt)
    (hlen : bs.length ≤ maxBatches)
    (hi : i < bs.length) (a : Nat) :
    match mapGet (buildState sys bs).nodeMap a,
        mapGet (addBatch (removeBatch (buildState sys bs) i)
          (bs.getD i ⟨[], []⟩)).nodeMap a with
    | none, none => True
    | some sA, some sB =>
        ∀ x, x ∈ sB.take bs.length ↔ x ∈ sA.take bs.length
    | _, _ => False := by
  have hndA : ((buildState sys bs).nodeMap.map Prod.fst).Nodup :=
    (reachable_wf _ (buildState_reachable sys bs hsys hv hlen)).2.1
  have hspec := buildState_lookup sys bs hlen a
  have hsysR : (removeBatch (buildState sys bs) i).systemId = sys :=
    buildState_systemId sys bs
  have hbcR : (removeBatch (buildState sys bs) i).batchCount = bs.length - 1 := by
    show (buildState sys bs).batchCount - 1 = bs.length - 1
    rw [buildState_batchCount]
  cases hA : mapGet (buildState sys bs).nodeMap a with
  | none =>
    rw [hA] at hspec
    have hbvi : batchVal (getSystemMask sys) (bs.getD i ⟨[], []⟩) a = none :=
      hspec i hi
    have hlook : mapGet (addBatch (removeBatch (buildState sys bs) i)
        (bs.getD i ⟨[], []⟩)).nodeMap a = none := by
      rw [addBatch_lookup, hsysR, hbcR, removeBatch_lookup _ i a hndA,
        buildState_batchCount]
      simp only [hA, hbvi]
    rw [hlook]
    exact trivial
  | some sA =>
    rw [hA] at hspec
    obtain ⟨hsAlen, ⟨b₀, hb₀, hne₀⟩, hslot⟩ := hspec
    have hnz : ∀ b, b < bs.length →
        batchVal (getSystemMask sys) (bs.getD b ⟨[], []⟩) a ≠ none →
        (batchVal (getSystemMask sys) (bs.getD b ⟨[], []⟩) a).getD 0 ≠ 0 := by
      intro b hb hne
      cases hbv : batchVal (getSystemMask sys) (bs.getD b ⟨[], []⟩) a with
      | none => exact absurd hbv hne
      | some v =>
        have hvalid := batchVal_valid sys (bs.getD b ⟨[], []⟩) a v
          (hv _ (getD_mem_of_lt bs b ⟨[], []⟩ hb)) hbv
        have hvpos := validValue_pos sys v hsys hvalid
        simpa using hvpos
    have hiM : i < maxBatches := by omega
    have hs'len := shiftSlots_length i sA hsAlen hiM
    have hAg : ∀ b, b < bs.length → sA.getD b 0 =
        (batchVal (getSystemMask sys) (bs.getD b ⟨[], []⟩) a).getD 0 := by
      intro b hb
      rw [hslot b, if_pos hb]
    have hσ : ∀ b, b < bs.length - 1 → (shiftSlots i sA).getD b 0 =
        (batchVal (getSystemMask sys)
          (bs.getD (if b < i then b else b + 1) ⟨[], []⟩) a).getD 0 := by
      intro b hb
      rw [shiftSlots_getD i sA hsAlen hiM b]
      by_cases hbi : b < i
      · rw [if_pos hbi, if_pos hbi, hAg b (by omega)]
      · rw [if_neg hbi, if_neg hbi,
          if_pos (by unfold maxBatches at *; omega), hAg (b + 1) (by omega)]
    have hsn1 : (shiftSlots i sA).getD (bs.length - 1) 0 = 0 := by
      rw [shiftSlots_getD i sA hsAlen hiM]
      rw [if_neg (by omega)]
      by_cases h2 : bs.length - 1 < maxBatches - 1
      · rw [if_pos h2, hslot (bs.length - 1 + 1), if_neg (by omega)]
      · rw [if_neg h2]
    have hkeep_iff :
        (((shiftSlots i sA).take (bs.length - 1)).any
          (fun v => decide (v ≠ 0))) = true ↔
        ∃ b, b < bs.length - 1 ∧ (shiftSlots i sA).getD b 0 ≠ 0 := by
      rw [List.any_eq_true]
      constructor
      · rintro ⟨x, hx, hdx⟩
        rw [mem_take_getD _ _ (by omega) x] at hx
        obtain ⟨b, hb, hbx⟩ := hx
        exact ⟨b, hb, by rw [hbx]; exact of_decide_eq_true hdx⟩
      · rintro ⟨b, hb, hbnz⟩
        exact ⟨(shiftSlots i sA).getD b 0,
          (mem_take_getD _ _ (by omega) _).mpr ⟨b, hb, rfl⟩,
          decide_eq_true hbnz⟩
    cases hbvi : batchVal (getSystemMask sys) (bs.getD i ⟨[], []⟩) a with
    | some v =>
      have hvnz : v ≠ 0 := by
        have hh := hnz i hi (by rw [hbvi]; simp)
        rw [hbvi] at hh
        simpa using hh
      by_cases hkeep : (((shiftSlots i sA).take (bs.length - 1)).any
          (fun v => decide (v ≠ 0))) = true
      · have hlook : mapGet (addBatch (removeBatch (buildState sys bs) i)
            (bs.getD i ⟨[], []⟩)).nodeMap a =
            some ((shiftSlots i sA).set (bs.length - 1) v) := by
          rw [addBatch_lookup, hsysR, hbcR, removeBatch_lookup _ i a hndA,
            buildState_batchCount]
          simp only [hA, hbvi, hkeep, eq_self_iff_true, if_true,
            Option.getD_some]
        rw [hlook]
        intro x
        refine mem_take_reindex bs.length i hi
          (fun b => (batchVal (getSystemMask sys) (bs.getD b ⟨[], []⟩) a).getD 0)
          sA ((shiftSlots i sA).set (bs.length - 1) v)
          (by rw [hsAlen]; exact hlen)
          (by rw [List.length_set, hs'len]; exact hlen) hAg ?_ x
        intro b hb
        rw [getD_set, hs'len]
        by_cases hbn : b = bs.length - 1
        · rw [if_pos ⟨hbn, by omega⟩, if_pos hbn]
          show v = (batchVal (getSystemMask sys) (bs.getD i ⟨[], []⟩) a).getD 0
          rw [hbvi]
          rfl
        · rw [if_neg (by tauto), if_neg hbn]
          exact hσ b (by omega)
      · have hkf : (((shiftSlots i sA).take (bs.length - 1)).any
            (fun v => decide (v ≠ 0))) = false := by
          rw [← Bool.not_eq_true]
          exact hkeep
        have hlook : mapGet (addBatch (removeBatch (buildState sys bs) i)
            (bs.getD i ⟨[], []⟩)).nodeMap a =
            some ((List.replicate maxBatches 0).set (bs.length - 1) v) := by
          rw [addBatch_lookup, hsysR, hbcR, removeBatch_lookup _ i a hndA,
            buildState_batchCount]
          simp only [hA, hbvi, hkf, Bool.false_eq_true, if_false,
            Option.getD_none]
        have hzero : ∀ b, b < bs.length - 1 → (shiftSlots i sA).getD b 0 = 0 := by
          intro b hb
          by_contra hc
          exact hkeep (hkeep_iff.mpr ⟨b, hb, hc⟩)
        rw [hlook]
        intro x
        refine mem_take_reindex bs.length i hi
          (fun b => (batchVal (getSystemMask sys) (bs.getD b ⟨[], []⟩) a).getD 0)
          sA ((List.replicate maxBatches 0).set (bs.length - 1) v)
          (by rw [hsAlen]; exact hlen)
          (by rw [List.length_set, List.length_replicate]; exact hlen) hAg ?_ x
        intro b hb
        rw [getD_set, List.length_replicate]
        by_cases hbn : b = bs.length - 1
        · rw [if_pos ⟨hbn, by omega⟩, if_pos hbn]
          show v = (batchVal (getSystemMask sys) (bs.getD i ⟨[], []⟩) a).getD 0
          rw [hbvi]
          rfl
        · rw [if_neg (by tauto), if_neg hbn, getD_replicate_zero]
          show (0 : Nat) = (batchVal (getSystemMask sys)
            (bs.getD (if b < i then b else b + 1) ⟨[], []⟩) a).getD 0
          rw [← hσ b (by omega), hzero b (by omega)]
    | none =>
      have hb₀i : b₀ ≠ i := by
        intro h
        exact hne₀ (by rw [h]; exact hbvi)
      have hb₀nz : (batchVal (getSystemMask sys)
          (bs.getD b₀ ⟨[], []⟩) a).getD 0 ≠ 0 := hnz b₀ hb₀ hne₀
      have hkeep : (((shiftSlots i sA).take (bs.length - 1)).any
          (fun v => decide (v ≠ 0))) = true := by
        apply hkeep_iff.mpr
        by_cases hlt : b₀ < i
        · refine ⟨b₀, by omega, ?_⟩
          rw [hσ b₀ (by omega), if_pos hlt]
          exact hb₀nz
        · refine ⟨b₀ - 1, by omega, ?_⟩
          rw [hσ (b₀ - 1) (by omega), if_neg (by omega)]
          have hbb : b₀ - 1 + 1 = b₀ := by omega
          rw [hbb]
          exact hb₀nz
      have hlook : mapGet (addBatch (removeBatch (buildState sys bs) i)
          (bs.getD i ⟨[], []⟩)).nodeMap a = some (shiftSlots i sA) := by
        rw [addBatch_lookup, hsysR, hbcR, removeBatch_lookup _ i a hndA,
          buildState_batchCount]
        simp only [hA, hbvi, hkeep, eq_self_iff_true, if_true]
      rw [hlook]
      intro x
      refine mem_take_reindex bs.length i hi
        (fun b => (batchVal (getSystemMask sys) (bs.getD b ⟨[], []⟩) a).getD 0)
        sA (shiftSlots i sA) (by rw [hsAlen]; exact hlen)
        (by rw [hs'len]; exact hlen) hAg ?_ x
      intro b hb
      by_cases hbn : b = bs.length - 1
      · rw [if_pos hbn, hbn, hsn1]
        show (0 : Nat) = (batchVal (getSystemMask sys) (bs.getD i ⟨[], []⟩) a).getD 0
        rw [hbvi]
        rfl
      · rw [if_neg hbn]
        exact hσ b (Nat.lt_of_le_of_ne (Nat.le_pred_of_lt hb) hbn)

/-- C7 (confirmed).  For parser-validated batches, `removeBatch(i)`
followed by re-adding the original batch `i` (which then sits at the end
of the batch list) yields the same StaticStatic / StaticNode /
DynamicNode counts as never removing it: the surviving rows are
identical, so every address keeps the same set of visible slot values
(batch `i`'s value moves to the last slot), and `_classify` depends only
on that set. -/
theorem removeBatch_addBatch_counts (sys : String) (bs : List ParsedBatch)
    (i : Nat) (hsys : isValidSystem sys = true)
    (hv : ∀ bt ∈ bs, ValidBatch sys bt)
    (hlen : bs.length ≤ maxBatches) (hi : i < bs.length) :
    (getCounts (addBatch (removeBatch (buildState sys bs) i)
        (bs.getD i ⟨[], []⟩))).staticStatics =
      (getCounts (buildState sys bs)).staticStatics ∧
    (getCounts (addBatch (removeBatch (buildState sys bs) i)
        (bs.getD i ⟨[], []⟩))).staticNodes =
      (getCounts (buildState sys bs)).staticNodes ∧
    (getCounts (addBatch (removeBatch (buildState sys bs) i)
        (bs.getD i ⟨[], []⟩))).dynamicNodes =
      (getCounts (buildState sys bs)).dynamicNodes := by
  have hrA : Reachable (buildState sys bs) :=
    buildState_reachable sys bs hsys hv hlen
  have hrB : Reachable (addBatch (removeBatch (buildState sys bs) i)
      (bs.getD i ⟨[], []⟩)) := by
    refine Reachable.add (Reachable.remove hrA i ?_) _ ?_ ?_
    · rw [buildState_batchCount]
      exact hi
    · show (buildState sys bs).batchCount - 1 < maxBatches
      rw [buildState_batchCount]
      omega
    · have hsysR : (removeBatch (buildState sys bs) i).systemId = sys :=
        buildState_systemId sys bs
      rw [hsysR]
      exact hv _ (getD_mem_of_lt bs i ⟨[], []⟩ hi)
  have hndA := (reachable_wf _ hrA).2.1
  have hndB := (reachable_wf _ hrB).2.1
  have hBbc : (addBatch (removeBatch (buildState sys bs) i)
      (bs.getD i ⟨[], []⟩)).batchCount = bs.length := by
    show (buildState sys bs).batchCount - 1 + 1 = bs.length
    rw [buildState_batchCount]
    omega
  have hcount : ∀ c : NodeClass,
      (addBatch (removeBatch (buildState sys bs) i)
          (bs.getD i ⟨[], []⟩)).nodeMap.countP
        (fun e => decide (classifySlots bs.length e.2 = c)) =
      (buildState sys bs).nodeMap.countP
        (fun e => decide (classifySlots bs.length e.2 = c)) := by
    intro c
    rw [countP_assoc _ _ hndB, countP_assoc _ _ hndA]
    have hmemiff : ∀ a : Nat,
        (a ∈ (addBatch (removeBatch (buildState sys bs) i)
          (bs.getD i ⟨[], []⟩)).nodeMap.map Prod.fst) ↔
        (a ∈ (buildState sys bs).nodeMap.map Prod.fst) := by
      intro a
      have hcorr := remove_readd_lookup sys bs i hsys hv hlen hi a
      cases hA : mapGet (buildState sys bs).nodeMap a with
      | none =>
        cases hB : mapGet (addBatch (removeBatch (buildState sys bs) i)
            (bs.getD i ⟨[], []⟩)).nodeMap a with
        | none =>
          rw [mapGet_none_iff] at hA hB
          constructor
          · intro h
            exact absurd h hB
          · intro h
            exact absurd h hA
        | some s =>
          rw [hA, hB] at hcorr
          exact hcorr.elim
      | some sA =>
        cases hB : mapGet (addBatch (removeBatch (buildState sys bs) i)
            (bs.getD i ⟨[], []⟩)).nodeMap a with
        | none =>
          rw [hA, hB] at hcorr
          exact hcorr.elim
        | some sB =>
          have hin1 : a ∈ (buildState sys bs).nodeMap.map Prod.fst := by
            by_contra hc
            rw [← mapGet_none_iff] at hc
            rw [hc] at hA
            simp at hA
          have hin2 : a ∈ (addBatch (removeBatch (buildState sys bs) i)
              (bs.getD i ⟨[], []⟩)).nodeMap.map Prod.fst := by
            by_contra hc
            rw [← mapGet_none_iff] at hc
            rw [hc] at hB
            simp at hB
          exact iff_of_true hin2 hin1
    have hperm : ((addBatch (removeBatch (buildState sys bs) i)
        (bs.getD i ⟨[], []⟩)).nodeMap.map Prod.fst).Perm
          ((buildState sys bs).nodeMap.map Prod.fst) :=
      List.perm_of_nodup_nodup_toFinset_eq hndB hndA (by
        ext a
        simp only [List.mem_toFinset]
        exact hmemiff a)
    rw [hperm.countP_eq]
    apply List.countP_congr
    intro a ha
    have hcorr := remove_readd_lookup sys bs i hsys hv hlen hi a
    cases hA : mapGet (buildState sys bs).nodeMap a with
    | none =>
      rw [mapGet_none_iff] at hA
      exact absurd ha hA
    | some sA =>
      cases hB : mapGet (addBatch (removeBatch (buildState sys bs) i)
          (bs.getD i ⟨[], []⟩)).nodeMap a with
      | none =>
        rw [hA, hB] at hcorr
        exact hcorr.elim
      | some sB =>
        rw [hA, hB] at hcorr
        have hclseq : classifySlots bs.length sB = classifySlots bs.length sA := by
          rw [classifySlots_eq_spec, classifySlots_eq_spec]
          exact specClassify_ext _ _ hcorr
        simp only [hA, hB, Option.getD_some, hclseq]
  refine ⟨?_, ?_, ?_⟩
  · show ((addBatch (removeBatch (buildState sys bs) i)
      (bs.getD i ⟨[], []⟩)).nodeMap.foldl (countsStep _ _) _).1 = _
    rw [(countsFold_totals _ _ _ _).1]
    show _ = ((buildState sys bs).nodeMap.foldl (countsStep _ _) _).1
    rw [(countsFold_totals _ _ _ _).1]
    simp only [hBbc, buildState_batchCount]
    rw [hcount NodeClass.staticStatic]
  · show ((addBatch (removeBatch (buildState sys bs) i)
      (bs.getD i ⟨[], []⟩)).nodeMap.foldl (countsStep _ _) _).2.1 = _
    rw [(countsFold_totals _ _ _ _).2.1]
    show _ = ((buildState sys bs).nodeMap.foldl (countsStep _ _) _).2.1
    rw [(countsFold_totals _ _ _ _).2.1]
    simp only [hBbc, buildState_batchCount]
    rw [hcount NodeClass.staticNode]
  · show ((addBatch (removeBatch (buildState sys bs) i)
      (bs.getD i ⟨[], []⟩)).nodeMap.foldl (countsStep _ _) _).2.2.1 = _
    rw [(countsFold_totals _ _ _ _).2.2]
    show _ = ((buildState sys bs).nodeMap.foldl (countsStep _ _) _).2.2.1
    rw [(countsFold_totals _ _ _ _).2.2]
    simp only [hBbc, buildState_batchCount]
    rw [hcount NodeClass.dynamicNode]

/-- Witness for C7 at a concrete two-batch run on `n64`, removing and
re-adding batch 0. -/
theorem removeBatch_addBatch_counts_witness :
    (getCounts (addBatch (removeBatch (buildState "n64"
        [⟨[0x80000010], [0x80000100]⟩, ⟨[0x80000010], [0x80000200]⟩]) 0)
        ([⟨[0x80000010], [0x80000100]⟩,
          ⟨[0x80000010], [0x80000200]⟩].getD 0 ⟨[], []⟩))).staticStatics =
      (getCounts (buildState "n64"
        [⟨[0x80000010], [0x80000100]⟩, ⟨[0x80000010], [0x80000200]⟩])).staticStatics ∧
    (getCounts (addBatch (removeBatch (buildState "n64"
        [⟨[0x80000010], [0x80000100]⟩, ⟨[0x80000010], [0x80000200]⟩]) 0)
        ([⟨[0x80000010], [0x80000100]⟩,
          ⟨[0x80000010], [0x80000200]⟩].getD 0 ⟨[], []⟩))).staticNodes =
      (getCounts (buildState "n64"
        [⟨[0x80000010], [0x80000100]⟩, ⟨[0x80000010], [0x80000200]⟩])).staticNodes ∧
    (getCounts (addBatch (removeBatch (buildState "n64"
        [⟨[0x80000010], [0x80000100]⟩, ⟨[0x80000010], [0x80000200]⟩]) 0)
        ([⟨[0x80000010], [0x80000100]⟩,
          ⟨[0x80000010], [0x80000200]⟩].getD 0 ⟨[], []⟩))).dynamicNodes =
      (getCounts (buildState "n64"
        [⟨[0x80000010], [0x80000100]⟩, ⟨[0x80000010], [0x80000200]⟩])).dynamicNodes :=
  removeBatch_addBatch_counts "n64"
    [⟨[0x80000010], [0x80000100]⟩, ⟨[0x80000010], [0x80000200]⟩] 0
    (by decide) (by decide) (by decide) (by decide)

/-! ## Forward scanner (`scanBasePointerDepth` / `scanSingleBasePointer`)

Bitmap words are 32-bit values; the JS `Int32Array` storage and int32
`&`/`|` only affect the sign of the JS number, never which bits are set,
so words are embedded as `Nat < 2^32`.  `maxBreadth` is stored already
`parseInt`-ed; the functions apply the source's `& 0xFFFFFC` mask.
Hex-string formatting of emitted records (`0x…` path strings and
addresses) is presentation only; the records carry the numbers. -/

/-- Scan-phase entry-point record as used by the forward scanner's
majority vote and address map (`batchIdx` is `none` for scan-phase
entries, which have no such field). -/
structure ScanEP where
  root        : Nat
  batchIdx    : Option Nat
  addresses   : List Nat
  buildOffset : Nat
deriving Repr, DecidableEq

structure FwdScan where
  batches         : List ParsedBatch
  basePointers    : List (Nat × List Nat)
  injectedTargets : List Nat
  targetNodes     : List (List Nat)
  structures      : List Structure
  entryPoints     : List ScanEP
  maxDepth        : Nat
  maxBreadth      : Nat
  earlyOutTarget  : Bool
deriving Repr, DecidableEq

/-- One batch's address → array-index Map (later duplicates overwrite). -/
def batchIndexOf (batch : ParsedBatch) : List (Nat × Nat) :=
  (List.range batch.addresses.length).foldl
    (fun m i => mapSet m (batch.addresses.getD i 0) i) []

def buildBatchIndexes (sc : FwdScan) : List (List (Nat × Nat)) :=
  sc.batches.map batchIndexOf

/-- `sc.batches[b].values[batchIndexes[b].get(addr)]`. -/
def batchValueOf (sc : FwdScan) (bi : List (List (Nat × Nat))) (b addr : Nat) :
    Option Nat :=
  match mapGet (bi.getD b []) addr with
  | none => none
  | some i => some ((sc.batches.getD b ⟨[], []⟩).values.getD i 0)

/-- `_buildStructAddrMap`: every address and ghost of every structure
maps to `("structure", struct.id)`. -/
def structAddrMap (sc : FwdScan) : List (Nat × (String × Nat)) :=
  sc.structures.foldl (fun m st =>
    let m2 := st.addresses.foldl (fun m a => mapSet m a ("structure", st.id)) m
    st.ghosts.foldl (fun m a => mapSet m a ("structure", st.id)) m2) []

/-- `_buildEpAddrMap`: every address of every entry point maps to
`("entry_point", ep.root)`. -/
def epAddrMap (sc : FwdScan) : List (Nat × (String × Nat)) :=
  sc.entryPoints.foldl (fun m ep =>
    ep.addresses.foldl (fun m a => mapSet m a ("entry_point", ep.root)) m) []

/-- `structAddrMap.get(addr) || epAddrMap.get(addr) || null`. -/
def addrHit (sc : FwdScan) (a : Nat) : Option (String × Nat) :=
  match mapGet (structAddrMap sc) a with
  | some e => some e
  | none => mapGet (epAddrMap sc) a

/-- A 32-bit word with bit `bit` set iff `f bit`. -/
def word32 (f : Nat → Bool) : Nat :=
  (List.range 32).foldl (fun w bit => if f bit then w ||| (1 <<< bit) else w) 0

/-- Precomputed word for batch `b`, slot `s` of a node's bitmap:
bit N set iff `value + (s*32+N)*4` is in batch `b`'s index. -/
def precompWord (sc : FwdScan) (bi : List (List (Nat × Nat))) (b s addr : Nat) :
    Nat :=
  match batchValueOf sc bi b addr with
  | none => 0
  | some value =>
    word32 (fun bit => (mapGet (bi.getD b []) (value + (s * 32 + bit) * 4)).isSome)

/-- One node's precomputed bitmap, layout `[b0s0, b0s1, …, b1s0, …]`. -/
def nodeBitmap (sc : FwdScan) (bi : List (List (Nat × Nat))) (B usedSlots addr : Nat) :
    List Nat :=
  (List.range (B * usedSlots)).map
    (fun j => precompWord sc bi (j / usedSlots) (j % usedSlots) addr)

/-- The traversal-node set: all batch-index keys that are not base
pointers, in first-seen order. -/
def traversalAddrs (sc : FwdScan) (bi : List (List (Nat × Nat))) : List Nat :=
  let bpSet := sc.basePointers.map Prod.fst
  (List.range sc.batches.length).foldl (fun s b =>
    ((bi.getD b []).map Prod.fst).foldl
      (fun s a => if a ∈ bpSet then s else setAdd s a) s) []

/-- `buildTraversalBitmaps`: `(store, slots, bytes)`; the 80 MB budget is
`80*1024*1024/4 = 20971520` Int32 units. -/
def buildTraversalBitmaps (sc : FwdScan) (bi : List (List (Nat × Nat))) :
    Option (List (Nat × List Nat)) × Nat × Nat :=
  let B := sc.batches.length
  let mB := sc.maxBreadth &&& 0xFFFFFC
  let totalSlots := (mB + 127) / 128
  let tas := traversalAddrs sc bi
  if tas.length = 0 then (none, 0, 0)
  else
    let slotsPerNode := max 1 (20971520 / (tas.length * B))
    let usedSlots := min slotsPerNode totalSlots
    (some (tas.map (fun addr => (addr, nodeBitmap sc bi B usedSlots addr))),
      usedSlots, usedSlots * 128)

/-- On-the-fly word for batch `b`: bit set iff
`value + chunkStart + bit*4` is in the batch index (0 when the current
address is absent from the batch). -/
def flyWord (sc : FwdScan) (bi : List (List (Nat × Nat))) (chunkStart b addr : Nat) :
    Nat :=
  match batchValueOf sc bi b addr with
  | none => 0
  | some value =>
    word32 (fun bit => (mapGet (bi.getD b []) (value + chunkStart + bit * 4)).isSome)

/-- The on-the-fly combined bitmap: AND of the per-batch words. -/
def flyBitmap (sc : FwdScan) (bi : List (List (Nat × Nat))) (chunkStart : Nat)
    (addrs : List Nat) : Nat :=
  (List.range sc.batches.length).foldl
    (fun w b => w &&& flyWord sc bi chunkStart b (addrs.getD b 0)) 0xFFFFFFFF

/-- The fast-path combined bitmap: AND of the stored per-batch words of
ONE node's bitmap (`firstAddr`'s). -/
def fastBitmap (bm : List Nat) (precompSlots slotIdx B : Nat) : Nat :=
  (List.range B).foldl
    (fun w b => w &&& bm.getD (b * precompSlots + slotIdx) 0) 0xFFFFFFFF

/-- The `usePrecomp` dispatch of `scanBasePointerDepth`. -/
def combinedBitmap (sc : FwdScan) (bi : List (List (Nat × Nat)))
    (store : Option (List (Nat × List Nat))) (precompSlots precompBytes : Nat)
    (chunkStart : Nat) (addrs : List Nat) : Nat :=
  let firstAddr := addrs.getD 0 0
  let slotIdx := chunkStart / 128
  match store with
  | none => flyBitmap sc bi chunkStart addrs
  | some s =>
    match mapGet s firstAddr with
    | none => flyBitmap sc bi chunkStart addrs
    | some bm =>
      if chunkStart < precompBytes ∧ slotIdx < precompSlots then
        fastBitmap bm precompSlots slotIdx sc.batches.length
      else flyBitmap sc bi chunkStart addrs

/-- Smallest set bit whose offset fits in the chunk. -/
def chooseOffset (combined chunkStart chunkEnd : Nat) : Option Nat :=
  ((List.range 32).find? (fun bit =>
    decide (combined &&& (1 <<< bit) ≠ 0 ∧ chunkStart + bit * 4 ≤ chunkEnd))).map
    (fun bit => chunkStart + bit * 4)

/-- Majority-vote tally: `(targetCount, buildOffsetFreq)`. -/
def voteFold (sc : FwdScan) (bi : List (List (Nat × Nat))) (chosenOffset : Nat)
    (addrs : List Nat) : Nat × List (Nat × Nat) :=
  (List.range sc.batches.length).foldl (fun acc b =>
    match batchValueOf sc bi b (addrs.getD b 0) with
    | none => acc
    | some value =>
      let targetAddr := value + chosenOffset
      if targetAddr ∈ sc.targetNodes.getD b [] then (acc.1 + 1, acc.2)
      else
        match sc.entryPoints.find? (fun ep =>
          decide (ep.batchIdx = some b ∧ targetAddr ∈ ep.addresses)) with
        | some ep =>
          (acc.1 + 1, mapSet acc.2 ep.buildOffset
            ((mapGet acc.2 ep.buildOffset).getD 0 + 1))
        | none => acc) (0, [])

def epTotal (freq : List (Nat × Nat)) : Nat := freq.foldl (fun a p => a + p.2) 0

def epBest (freq : List (Nat × Nat)) : Nat := freq.foldl (fun a p => max a p.2) 0

/-- Winning buildOffset: strict-majority entry, `chosenOffset` default. -/
def winningOffset (freq : List (Nat × Nat)) (chosenOffset : Nat) : Nat :=
  (freq.foldl (fun wc p => if p.2 > wc.2 then p else wc) (chosenOffset, 0)).1

structure TPrec where
  basePointer   : Nat
  path          : List Nat
  targetAddress : Nat
deriving Repr, DecidableEq

structure HitOut where
  id    : Nat
  depth : Nat
  path  : List Nat
deriving Repr, DecidableEq

/-- An entry-point finding: either an address-map hit (`…first.ep` spread
plus depth/path) or a majority-vote emission. -/
inductive EpHit where
  | fromMap (id : Nat) (depth : Nat) (path : List Nat)
  | fromVote (root : Nat) (nodeCount : Nat) (addresses : List Nat)
      (buildOffset : Nat) (path : List Nat)
deriving Repr, DecidableEq

def EpHit.path : EpHit → List Nat
  | .fromMap _ _ p => p
  | .fromVote _ _ _ _ p => p

structure DfsOut where
  structures  : List HitOut
  entryPoints : List EpHit
  targetPaths : List TPrec
deriving Repr, DecidableEq

structure DfsState where
  addresses : List Nat
  depth     : Nat
  path      : List Nat
deriving Repr, DecidableEq

/-- The `while (state.depth <= maxDepth)` DFS loop.  Every emission point
in the source also breaks the loop, so the result is the single emission
(or nothing on exhaustion/break). -/
def dfsLoop (sc : FwdScan) (bi : List (List (Nat × Nat)))
    (store : Option (List (Nat × List Nat))) (precompSlots precompBytes : Nat)
    (base : Nat × List Nat) (chunkStart chunkEnd : Nat) :
    Nat → DfsState → DfsOut
  | 0, _ => ⟨[], [], []⟩
  | fuel + 1, st =>
    if st.depth > sc.maxDepth then ⟨[], [], []⟩
    else
      let firstAddr := st.addresses.getD 0 0
      if firstAddr ∈ sc.injectedTargets ∧
          ∀ a ∈ st.addresses, a ∈ sc.injectedTargets then
        ⟨[], [], [⟨base.1, st.path, firstAddr⟩]⟩
      else
        let hits := st.addresses.map (addrHit sc)
        let validHits := hits.filterMap id
        if hns : validHits.length = sc.batches.length ∧ validHits ≠ [] ∧
            ∀ h ∈ validHits, h = validHits.headD ("", 0) then
          if (validHits.headD ("", 0)).1 = "structure" then
            ⟨[⟨(validHits.headD ("", 0)).2, st.depth, st.path⟩], [], []⟩
          else
            ⟨[], [.fromMap (validHits.headD ("", 0)).2 st.depth st.path], []⟩
        else
          let combined := combinedBitmap sc bi store precompSlots precompBytes
            chunkStart st.addresses
          if combined = 0 then ⟨[], [], []⟩
          else
            match chooseOffset combined chunkStart chunkEnd with
            | none => ⟨[], [], []⟩
            | some chosen =>
              let vote := voteFold sc bi chosen st.addresses
              if (100 * vote.1 > 66 * sc.batches.length) ∧
                  (vote.2 = [] ∨ 2 * epBest vote.2 > epTotal vote.2) then
                ⟨[], [.fromVote base.1 st.depth [firstAddr]
                  (winningOffset vote.2 chosen) (st.path ++ [chosen])], []⟩
              else
                dfsLoop sc bi store precompSlots precompBytes base chunkStart
                  chunkEnd fuel
                  ⟨(List.range sc.batches.length).map (fun b =>
                      match batchValueOf sc bi b (st.addresses.getD b 0) with
                      | none => 0
                      | some value => value + chosen),
                    st.depth + 1, st.path ++ [chosen]⟩

/-- `scanBasePointerDepth(sc, base, batchIndexes, chunk, lookups, bitmapCtx)`. -/
def scanBasePointerDepth (sc : FwdScan) (bi : List (List (Nat × Nat)))
    (store : Option (List (Nat × List Nat))) (precompSlots precompBytes : Nat)
    (base : Nat × List Nat) (chunkStart chunkEnd : Nat) : DfsOut :=
  dfsLoop sc bi store precompSlots precompBytes base chunkStart chunkEnd
    (sc.maxDepth + 1) ⟨base.2, 1, []⟩

/-- The chunk loop of `scanSingleBasePointer` (`mB` is the masked
maxBreadth computed once by the caller). -/
def chunkLoop (sc : FwdScan) (bi : List (List (Nat × Nat)))
    (store : Option (List (Nat × List Nat))) (precompSlots precompBytes : Nat)
    (base : Nat × List Nat) (mB : Nat) : Nat → Nat → DfsOut → DfsOut
  | 0, _, acc => acc
  | fuel + 1, start, acc =>
    if start ≤ mB then
      let endC := min (start + 0x7C) mB
      let r := scanBasePointerDepth sc bi store precompSlots precompBytes base
        start endC
      let acc' : DfsOut := ⟨acc.structures ++ r.structures,
        acc.entryPoints ++ r.entryPoints, acc.targetPaths ++ r.targetPaths⟩
      if mB ≤ endC then acc'
      else chunkLoop sc bi store precompSlots precompBytes base mB fuel
        (start + 0x80) acc'
    else acc

/-- `scanSingleBasePointer`: `(findings, stopAllProcessing)`.  When no
structure or entry-point hits exist the target paths are DROPPED. -/
def scanSingleBasePointer (sc : FwdScan) (bi : List (List (Nat × Nat)))
    (store : Option (List (Nat × List Nat))) (precompSlots precompBytes : Nat)
    (base : Nat × List Nat) : DfsOut × Bool :=
  let mB := sc.maxBreadth &&& 0xFFFFFC
  let all := chunkLoop sc bi store precompSlots precompBytes base mB
    (mB / 0x80 + 2) 0 ⟨[], [], []⟩
  if all.structures = [] ∧ all.entryPoints = [] then (⟨[], [], []⟩, false)
  else (all, sc.earlyOutTarget && decide (all.targetPaths ≠ []))

/-- The per-batch walk of claim P6: starting address is the base
pointer's stored value for the batch; each offset replaces the current
address by batch value + offset (the scanner's advance writes 0 when the
address is absent from the batch). -/
def walkPath (sc : FwdScan) (bi : List (List (Nat × Nat))) (b : Nat)
    (values : List Nat) (path : List Nat) : Nat :=
  path.foldl (fun addr off =>
    match batchValueOf sc bi b addr with
    | none => 0
    | some value => value + off) (values.getD b 0)

/-- C1 counterexample scanner: two batches, base values `[100, 200]`,
both injected targets. -/
def cex1sc : FwdScan :=
  ⟨[⟨[], []⟩, ⟨[], []⟩], [(500, [100, 200])], [100, 200], [[], []],
    [], [], 3, 0, false⟩

/-- C1 (counterexample).  The emitted targetPath records batch 0's
landing address only: here the depth-1 walk of batch 1 ends at 200, not
at the recorded targetAddress 100. -/
theorem scan_targetPath_other_batch_differs :
    (scanBasePointerDepth cex1sc (buildBatchIndexes cex1sc) none 0 0
      (500, [100, 200]) 0 0).targetPaths = [⟨500, [], 100⟩] ∧
    walkPath cex1sc (buildBatchIndexes cex1sc) 1 [100, 200] [] = 200 ∧
    (200 : Nat) ≠ 100 := by
  decide

theorem walkPath_append (sc : FwdScan) (bi : List (List (Nat × Nat)))
    (b : Nat) (values path : List Nat) (off : Nat) :
    walkPath sc bi b values (path ++ [off]) =
      match batchValueOf sc bi b (walkPath sc bi b values path) with
      | none => 0
      | some v => v + off := by
  unfold walkPath
  rw [List.foldl_append]
  rfl

/-- Loop invariant: every address of the DFS state is the walk of the
current path in its batch, so an emitted targetPath's endpoints are the
walks of its recorded path. -/
theorem dfsLoop_targetPaths_inv (sc : FwdScan) (bi : List (List (Nat × Nat)))
    (store : Option (List (Nat × List Nat))) (S bytes : Nat)
    (base : Nat × List Nat) (cs ce : Nat) (hB : 0 < sc.batches.length) :
    ∀ (fuel : Nat) (st : DfsState),
    st.addresses.length = sc.batches.length →
    (∀ b, b < sc.batches.length →
      st.addresses.getD b 0 = walkPath sc bi b base.2 st.path) →
    ∀ tp ∈ (dfsLoop sc bi store S bytes base cs ce fuel st).targetPaths,
      tp.basePointer = base.1 ∧
      tp.targetAddress = walkPath sc bi 0 base.2 tp.path ∧
      ∀ b, b < sc.batches.length →
        walkPath sc bi b base.2 tp.path ∈ sc.injectedTargets := by
  intro fuel
  induction fuel with
  | zero =>
    intro st _ _ tp htp
    simp [dfsLoop] at htp
  | succ fuel ih =>
    intro st hlen hinv tp htp
    simp only [dfsLoop] at htp
    split at htp
    · simp at htp
    · split at htp
      · rename_i hinj
        simp only [List.mem_singleton] at htp
        subst htp
        refine ⟨rfl, ?_, ?_⟩
        · show st.addresses.getD 0 0 = walkPath sc bi 0 base.2 st.path
          exact hinv 0 hB
        · intro b hb
          rw [← hinv b hb]
          exact hinj.2 _ (getD_mem_of_lt _ b 0 (by rw [hlen]; exact hb))
      · split at htp
        · split at htp <;> simp at htp
        · split at htp
          · simp at htp
          · split at htp
            · simp at htp
            · rename_i chosen hchosen
              split at htp
              · simp at htp
              · refine ih _ ?_ ?_ tp htp
                · simp
                · intro b hb
                  rw [List.getD_eq_getElem _ _ (by simpa using hb)]
                  simp only [List.getElem_map, List.getElem_range]
                  rw [hinv b hb, walkPath_append]

/-- C1 (amended).  Every emitted targetPath satisfies: batch 0's walk of
`path` ends exactly at `targetAddress`, and EVERY batch's walk of `path`
ends at SOME injected target (not necessarily the recorded one — the
record keeps only batch 0's landing address). -/
theorem scan_targetPaths_sound (sc : FwdScan) (bi : List (List (Nat × Nat)))
    (store : Option (List (Nat × List Nat))) (S bytes : Nat)
    (base : Nat × List Nat) (cs ce : Nat)
    (hB : 0 < sc.batches.length) (hlen : base.2.length = sc.batches.length) :
    ∀ tp ∈ (scanBasePointerDepth sc bi store S bytes base cs ce).targetPaths,
      tp.basePointer = base.1 ∧
      tp.targetAddress = walkPath sc bi 0 base.2 tp.path ∧
      ∀ b, b < sc.batches.length →
        walkPath sc bi b base.2 tp.path ∈ sc.injectedTargets := by
  intro tp htp
  refine dfsLoop_targetPaths_inv sc bi store S bytes base cs ce hB
    (sc.maxDepth + 1) ⟨base.2, 1, []⟩ hlen ?_ tp htp
  intro b hb
  rfl

/-- Witness for the amended C1 at the counterexample input. -/
theorem scan_targetPaths_sound_witness :
    0 < cex1sc.batches.length ∧
    ((500, [100, 200]) : Nat × List Nat).2.length = cex1sc.batches.length ∧
    ((⟨500, [], 100⟩ : TPrec) ∈ (scanBasePointerDepth cex1sc
      (buildBatchIndexes cex1sc) none 0 0 (500, [100, 200]) 0 0).targetPaths) ∧
    ((⟨500, [], 100⟩ : TPrec).basePointer = 500 ∧
      (⟨500, [], 100⟩ : TPrec).targetAddress =
        walkPath cex1sc (buildBatchIndexes cex1sc) 0 [100, 200]
          (⟨500, [], 100⟩ : TPrec).path ∧
      ∀ b, b < cex1sc.batches.length →
        walkPath cex1sc (buildBatchIndexes cex1sc) b [100, 200]
          (⟨500, [], 100⟩ : TPrec).path ∈ cex1sc.injectedTargets) :=
  ⟨by decide, by decide, by decide,
    scan_targetPaths_sound cex1sc (buildBatchIndexes cex1sc) none 0 0
      (500, [100, 200]) 0 0 (by decide) (by decide) ⟨500, [], 100⟩ (by decide)⟩

/-- C9 counterexample scanner: `maxBreadth = 0`, with a detection-phase
structure whose addresses cover the base values — the depth-1 structure
hit is still emitted. -/
def cex9st : Structure :=
  { id := 7, stype := .static_list, root := 100, nodeCount := 2, stride := 4,
    addresses := [100, 104], static := true, buildOffset := 0 }

def cex9sc : FwdScan :=
  ⟨[⟨[], []⟩, ⟨[], []⟩], [(500, [100, 104])], [], [[], []], [cex9st], [],
    3, 0, false⟩

/-- C9 (counterexample).  With `maxBreadth = 0` the scanner still scans
the single chunk `[0, 0]` and emits a depth-1 structure hit. -/
theorem scan_maxBreadth0_emits_structure :
    cex9sc.maxBreadth &&& 0xFFFFFC = 0 ∧
    (scanSingleBasePointer cex9sc (buildBatchIndexes cex9sc) none 0 0
      (500, [100, 104])).1.structures = [⟨7, 1, []⟩] := by
  decide

theorem find?_true {α : Type} (p : α → Bool) : ∀ (l : List α) (a : α),
    l.find? p = some a → p a = true := by
  intro l
  induction l with
  | nil => intro a h; simp at h
  | cons x t ih =>
    intro a h
    cases hx : p x with
    | true =>
      rw [List.find?_cons_of_pos _ hx] at h
      injection h with h
      rw [← h]
      exact hx
    | false =>
      rw [List.find?_cons_of_neg _ (by simp [hx])] at h
      exact ih a h

theorem chooseOffset_bounds (combined cs ce off : Nat)
    (h : chooseOffset combined cs ce = some off) : cs ≤ off ∧ off ≤ ce := by
  unfold chooseOffset at h
  cases hf : (List.range 32).find? (fun bit =>
      decide (combined &&& (1 <<< bit) ≠ 0 ∧ cs + bit * 4 ≤ ce)) with
  | none =>
    rw [hf] at h
    simp at h
  | some bit =>
    rw [hf] at h
    have hp := find?_true _ _ _ hf
    have hdec := of_decide_eq_true hp
    simp at h
    omega

/-- In the `maxBreadth = 0` run every DFS call works on chunk `[0, 0]`:
at most one finding is emitted, its path offsets are all 0, and a
structure / entry-point finding excludes any targetPath. -/
theorem dfsLoop_zero_chunk (sc : FwdScan) (bi : List (List (Nat × Nat)))
    (store : Option (List (Nat × List Nat))) (S bytes : Nat)
    (base : Nat × List Nat) :
    ∀ (fuel : Nat) (st : DfsState), (∀ o ∈ st.path, o = 0) →
    (((dfsLoop sc bi store S bytes base 0 0 fuel st).structures ≠ [] ∨
      (dfsLoop sc bi store S bytes base 0 0 fuel st).entryPoints ≠ []) →
      (dfsLoop sc bi store S bytes base 0 0 fuel st).targetPaths = []) ∧
    (∀ h ∈ (dfsLoop sc bi store S bytes base 0 0 fuel st).structures,
      ∀ o ∈ h.path, o = 0) ∧
    (∀ e ∈ (dfsLoop sc bi store S bytes base 0 0 fuel st).entryPoints,
      ∀ o ∈ e.path, o = 0) := by
  intro fuel
  induction fuel with
  | zero =>
    intro st _
    refine ⟨fun _ => rfl, ?_, ?_⟩ <;> simp [dfsLoop]
  | succ fuel ih =>
    intro st hpath
    simp only [dfsLoop]
    split
    · exact ⟨fun _ => rfl, by simp, by simp⟩
    · split
      · refine ⟨?_, by simp, by simp⟩
        rintro (h | h) <;> exact absurd rfl h
      · split
        · split
          · refine ⟨fun _ => rfl, ?_, by simp⟩
            intro h hh
            simp only [List.mem_singleton] at hh
            subst hh
            exact hpath
          · refine ⟨fun _ => rfl, by simp, ?_⟩
            intro e he
            simp only [List.mem_singleton] at he
            subst he
            exact hpath
        · split
          · exact ⟨fun _ => rfl, by simp, by simp⟩
          · split
            · exact ⟨fun _ => rfl, by simp, by simp⟩
            · rename_i chosen hchosen
              have hch0 : chosen = 0 := by
                have := chooseOffset_bounds _ _ _ _ hchosen
                omega
              have hpath' : ∀ o ∈ st.path ++ [chosen], o = 0 := by
                intro o ho
                rcases List.mem_append.mp ho with ho | ho
                · exact hpath o ho
                · rw [List.mem_singleton.mp ho, hch0]
              split
              · refine ⟨fun _ => rfl, by simp, ?_⟩
                intro e he
                simp only [List.mem_singleton] at he
                subst he
                exact hpath'
              · exact ih _ hpath'

/-- C9 (amended).  With `maxBreadth = 0` the scanner is NOT silent: it
scans the single chunk `[0, 0]`, so depth-1 (and zero-offset chained)
structure / entry-point hits are still emitted.  What does hold: every
emitted finding's path offsets are all 0, target paths are never
returned (a lone targetPath is dropped by the empty-findings gate, and
any structure/entry-point emission breaks the DFS before a targetPath
can be recorded), and the early-out flag is never set. -/
theorem scanSingle_maxBreadth0 (sc : FwdScan) (bi : List (List (Nat × Nat)))
    (store : Option (List (Nat × List Nat))) (S bytes : Nat)
    (base : Nat × List Nat) (h0 : sc.maxBreadth &&& 0xFFFFFC = 0) :
    (scanSingleBasePointer sc bi store S bytes base).1.targetPaths = [] ∧
    (scanSingleBasePointer sc bi store S bytes base).2 = false ∧
    (∀ hs ∈ (scanSingleBasePointer sc bi store S bytes base).1.structures,
      ∀ o ∈ hs.path, o = 0) ∧
    (∀ e ∈ (scanSingleBasePointer sc bi store S bytes base).1.entryPoints,
      ∀ o ∈ e.path, o = 0) := by
  have hall : chunkLoop sc bi store S bytes base (sc.maxBreadth &&& 0xFFFFFC)
      ((sc.maxBreadth &&& 0xFFFFFC) / 0x80 + 2) 0 ⟨[], [], []⟩ =
      dfsLoop sc bi store S bytes base 0 0 (sc.maxDepth + 1) ⟨base.2, 1, []⟩ := by
    rw [h0]
    show chunkLoop sc bi store S bytes base 0 2 0 ⟨[], [], []⟩ = _
    simp only [chunkLoop]
    rw [if_pos (Nat.le_refl 0)]
    have hmin : min (0 + 0x7C) 0 = 0 := by omega
    rw [hmin, if_pos (Nat.le_refl 0)]
    show (⟨[] ++ _, [] ++ _, [] ++ _⟩ : DfsOut) = _
    simp only [List.nil_append]
    rfl
  obtain ⟨hex, hstz, hepz⟩ := dfsLoop_zero_chunk sc bi store S bytes base
    (sc.maxDepth + 1) ⟨base.2, 1, []⟩ (by intro o ho; simp at ho)
  unfold scanSingleBasePointer
  simp only [hall]
  split
  · exact ⟨rfl, rfl, by simp, by simp⟩
  · rename_i hne
    have hor : (dfsLoop sc bi store S bytes base 0 0 (sc.maxDepth + 1)
        ⟨base.2, 1, []⟩).structures ≠ [] ∨
        (dfsLoop sc bi store S bytes base 0 0 (sc.maxDepth + 1)
          ⟨base.2, 1, []⟩).entryPoints ≠ [] := by
      by_contra hc
      push_neg at hc
      exact hne ⟨hc.1, hc.2⟩
    have htp := hex hor
    refine ⟨htp, ?_, hstz, hepz⟩
    rw [htp]
    simp

/-- Witness for the amended C9 at the counterexample input. -/
theorem scanSingle_maxBreadth0_witness :
    cex9sc.maxBreadth &&& 0xFFFFFC = 0 ∧
    ((scanSingleBasePointer cex9sc (buildBatchIndexes cex9sc) none 0 0
        (500, [100, 104])).1.targetPaths = [] ∧
      (scanSingleBasePointer cex9sc (buildBatchIndexes cex9sc) none 0 0
        (500, [100, 104])).2 = false ∧
      (∀ hs ∈ (scanSingleBasePointer cex9sc (buildBatchIndexes cex9sc) none 0 0
        (500, [100, 104])).1.structures, ∀ o ∈ hs.path, o = 0) ∧
      (∀ e ∈ (scanSingleBasePointer cex9sc (buildBatchIndexes cex9sc) none 0 0
        (500, [100, 104])).1.entryPoints, ∀ o ∈ e.path, o = 0)) :=
  ⟨by decide, scanSingle_maxBreadth0 cex9sc (buildBatchIndexes cex9sc) none 0 0
    (500, [100, 104]) (by decide)⟩

/-- C2 counterexample scanner: address 1000 carries value 2000 in both
batches and 2000 is indexed in both, while the base pointer's batch-1
value 3000 is absent from batch 1's index. -/
def cex2sc : FwdScan :=
  ⟨[⟨[1000, 2000], [2000, 5000]⟩, ⟨[1000, 2000], [2000, 6000]⟩],
    [(500, [1000, 3000])], [], [[], []], [], [], 3, 0x100, false⟩

/-- C2 (counterexample).  At the very first DFS step for base pointer
`(500, [1000, 3000])` (initial addresses `[1000, 3000]`), the fast path
is taken (`firstAddr = 1000` has a stored bitmap and chunk 0 is covered)
and ANDs the per-batch words of `firstAddr`'s bitmap, giving word 1,
while the on-the-fly fallback for the same state gives 0 because batch
1's current address 3000 is absent from batch 1's index: the two paths
are not bit-for-bit equal. -/
theorem fast_path_bitmap_mismatch :
    (500, [1000, 3000]) ∈ cex2sc.basePointers ∧
    combinedBitmap cex2sc (buildBatchIndexes cex2sc)
      (buildTraversalBitmaps cex2sc (buildBatchIndexes cex2sc)).1
      (buildTraversalBitmaps cex2sc (buildBatchIndexes cex2sc)).2.1
      (buildTraversalBitmaps cex2sc (buildBatchIndexes cex2sc)).2.2
      0 [1000, 3000] = 1 ∧
    flyBitmap cex2sc (buildBatchIndexes cex2sc) 0 [1000, 3000] = 0 := by
  decide

theorem mapGet_map_built (f : Nat → List Nat) : ∀ (l : List Nat) (x : Nat)
    (bm : List Nat),
    mapGet (l.map (fun a => (a, f a))) x = some bm → bm = f x := by
  intro l
  induction l with
  | nil => intro x bm h; simp [mapGet] at h
  | cons a t ih =>
    intro x bm h
    rw [List.map_cons] at h
    by_cases hax : a = x
    · subst hax
      have hc : mapGet ((a, f a) :: t.map (fun a => (a, f a))) a = some (f a) := by
        show (if a = a then some (f a) else mapGet (t.map (fun a => (a, f a))) a) =
          some (f a)
        rw [if_pos rfl]
      rw [hc] at h
      injection h with h
      exact h.symm
    · have hc : mapGet ((a, f a) :: t.map (fun a => (a, f a))) x =
          mapGet (t.map (fun a => (a, f a))) x := by
        show (if a = x then some (f a) else mapGet (t.map (fun a => (a, f a))) x) = _
        rw [if_neg hax]
      rw [hc] at h
      exact ih x bm h

theorem nodeBitmap_getD (sc : FwdScan) (bi : List (List (Nat × Nat)))
    (B S addr b s : Nat) (hb : b < B) (hs : s < S) :
    (nodeBitmap sc bi B S addr).getD (b * S + s) 0 =
      precompWord sc bi b s addr := by
  unfold nodeBitmap
  have hidx : b * S + s < B * S := by
    calc b * S + s < b * S + S := by omega
    _ = (b + 1) * S := by ring
    _ ≤ B * S := Nat.mul_le_mul_right S hb
  rw [List.getD_eq_getElem _ _ (by simpa using hidx)]
  simp only [List.getElem_map, List.getElem_range]
  have h1 : (b * S + s) / S = b := by
    rw [Nat.mul_comm b S, Nat.mul_add_div (by omega)]
    rw [Nat.div_eq_of_lt hs]
    omega
  have h2 : (b * S + s) % S = s := by
    rw [Nat.mul_comm b S, Nat.mul_add_mod]
    exact Nat.mod_eq_of_lt hs
  rw [h1, h2]

/-- The successful result of `buildTraversalBitmaps` is the traversal
node list mapped to its per-node bitmaps, with `bytes = slots * 128`. -/
theorem buildTraversalBitmaps_shape (sc : FwdScan) (bi : List (List (Nat × Nat)))
    (store : List (Nat × List Nat)) (S bytes : Nat)
    (h : buildTraversalBitmaps sc bi = (some store, S, bytes)) :
    store = (traversalAddrs sc bi).map
      (fun addr => (addr, nodeBitmap sc bi sc.batches.length S addr)) ∧
    bytes = S * 128 := by
  simp only [buildTraversalBitmaps] at h
  split at h
  · exact absurd h (by simp)
  · simp only [Prod.mk.injEq, Option.some.injEq] at h
    obtain ⟨h1, h2, h3⟩ := h
    subst h2
    exact ⟨h1.symm, h3.symm⟩

theorem combinedBitmap_eq_fly_core (sc : FwdScan) (bi : List (List (Nat × Nat)))
    (S bytes : Nat) (chunkStart : Nat) (halign : chunkStart % 128 = 0)
    (addrs : List Nat)
    (hconv : ∀ b, b < sc.batches.length → addrs.getD b 0 = addrs.getD 0 0) :
    combinedBitmap sc bi (some ((traversalAddrs sc bi).map
      (fun addr => (addr, nodeBitmap sc bi sc.batches.length S addr))))
      S bytes chunkStart addrs =
      flyBitmap sc bi chunkStart addrs := by
  simp only [combinedBitmap]
  cases hmg : mapGet ((traversalAddrs sc bi).map
      (fun addr => (addr, nodeBitmap sc bi sc.batches.length S addr)))
      (addrs.getD 0 0) with
  | none => rfl
  | some bm =>
    split
    · rfl
    · rename_i slots2 heq
      injection heq with heq
      subst heq
      split
      swap
      · rfl
      rename_i hcond
      have hbm : bm = nodeBitmap sc bi sc.batches.length S (addrs.getD 0 0) :=
        mapGet_map_built _ _ _ _ hmg
      subst hbm
      unfold fastBitmap flyBitmap
      apply List.foldl_ext
      intro w b hb
      rw [List.mem_range] at hb
      rw [hconv b hb]
      rw [nodeBitmap_getD sc bi _ _ _ b _ hb hcond.2]
      have hw : precompWord sc bi b (chunkStart / 128) (addrs.getD 0 0) =
          flyWord sc bi chunkStart b (addrs.getD 0 0) := by
        unfold precompWord flyWord
        cases batchValueOf sc bi b (addrs.getD 0 0) with
        | none => rfl
        | some value =>
          apply congrArg word32
          funext bit
          have hcs : chunkStart / 128 * 128 = chunkStart :=
            Nat.div_mul_cancel (Nat.dvd_of_mod_eq_zero halign)
          have harg : value + (chunkStart / 128 * 32 + bit) * 4 =
              value + chunkStart + bit * 4 := by omega
          rw [harg]
      rw [hw]

/-- C2 (amended).  The fast path agrees with the on-the-fly fallback
bit-for-bit whenever the DFS state has NOT diverged — all per-batch
current addresses equal `firstAddr` (in particular at depth 1 of a base
pointer whose stored values are all equal): the stored word of batch `b`
for slot `chunkStart/128` tests exactly the offsets
`chunkStart + bit*4`.  (The counterexample shows the two paths differ as
soon as the addresses diverge, because the fast path reads only
`firstAddr`'s bitmap.) -/
theorem combinedBitmap_eq_fly (sc : FwdScan) (bi : List (List (Nat × Nat)))
    (store : List (Nat × List Nat)) (S bytes : Nat)
    (hbuild : buildTraversalBitmaps sc bi = (some store, S, bytes))
    (chunkStart : Nat) (halign : chunkStart % 128 = 0)
    (addrs : List Nat)
    (hconv : ∀ b, b < sc.batches.length → addrs.getD b 0 = addrs.getD 0 0) :
    combinedBitmap sc bi (some store) S bytes chunkStart addrs =
      flyBitmap sc bi chunkStart addrs := by
  obtain ⟨hstore, -⟩ := buildTraversalBitmaps_shape sc bi store S bytes hbuild
  rw [hstore]
  exact combinedBitmap_eq_fly_core sc bi S bytes chunkStart halign addrs hconv

/-- Witness for the amended C2: the counterexample scanner with the
non-diverged depth-1 state `[1000, 1000]`. -/
theorem combinedBitmap_eq_fly_witness :
    buildTraversalBitmaps cex2sc (buildBatchIndexes cex2sc) =
      (some [(1000, [1, 0, 1, 0]), (2000, [0, 0, 0, 0])], 2, 256) ∧
    (0 : Nat) % 128 = 0 ∧
    (∀ b, b < cex2sc.batches.length →
      ([1000, 1000] : List Nat).getD b 0 = ([1000, 1000] : List Nat).getD 0 0) ∧
    combinedBitmap cex2sc (buildBatchIndexes cex2sc)
        (some [(1000, [1, 0, 1, 0]), (2000, [0, 0, 0, 0])]) 2 256 0
        [1000, 1000] =
      flyBitmap cex2sc (buildBatchIndexes cex2sc) 0 [1000, 1000] :=
  ⟨by decide, by decide, by decide,
    combinedBitmap_eq_fly cex2sc (buildBatchIndexes cex2sc)
      [(1000, [1, 0, 1, 0]), (2000, [0, 0, 0, 0])] 2 256 (by decide) 0
      (by decide) [1000, 1000] (by decide)⟩

end BDRAM
